import Mathlib

/-!
# The CRM widget's local-first record store (`assets/crm.js`)

A shallow embedding of the persistence and synchronisation logic of
`src/Site/LAT/assets/crm.js`: the local store (`loadRecords`, `saveRecords`),
the navigation transfer buffer (`consumeNavigationTransfer`), the remote sync
client (`fetchCrmApi`, `syncRecordsToSharePoint`), the hydration coordinator
(`hydrateRecordsFromSharePoint`), the ordering used by the views
(`getSortedRecords`), the import and remove handlers, the record
mutations (`updateRecord`, the stage change handler, `processSubmission`),
the helpers `escapeHTML`, `formatPhone` and `computeMetrics`, and, from the
server, the snapshot endpoint of `server/src/routes/crm.js` behind
`authMiddleware`.

Conventions of the embedding.

* The browser state the script touches is an explicit `World` that every
  operation takes and returns.
* A JavaScript exception is an `Except JsError _` result.
* An `async` function is split at its network suspension point: the function
  itself is the part that runs synchronously when it is called, and
  `…_resume` is the continuation that runs when the response arrives.
* A JSON number is exact: `num` for an integer, `frac` for any other finite
  number. A number in memory (`Double`) may also be `NaN` or infinite, which
  `JSON.stringify` writes as `null`. Rounding is outside the embedding.
* `Array.prototype.sort` belongs to the engine. The results on the order of
  `getSortedRecords` hold for every `Engine` whose sort conforms, among them
  the insertion sort and the sort by run detection and binary insertion.
* A function that reads the clock takes the reading as an argument.
* Storage writes succeed (no quota errors).
-/

namespace Crm

/-! ## JavaScript values -/

/-- A JSON value, as produced by `JSON.parse`. A number is `num n` when it is
the integer `n`, and `frac q` (the number `q`) otherwise. An object is its list
of properties in insertion order; a property read takes the first entry for
the key. -/
inductive Json where
  | null
  | bool (b : Bool)
  | num (n : Int)
  | frac (q : ℚ)
  | str (s : String)
  | arr (items : List Json)
  | obj (fields : List (String × Json))

/-- A JavaScript string held in a storage slot, a file or a response body,
described by what `JSON.parse` makes of it: the empty string, a text that
parses to the value `v` (every text written by `JSON.stringify` is one), or a
non-empty text that `JSON.parse` rejects (`tag` tells such texts apart). -/
inductive Text where
  | empty
  | json (v : Json)
  | malformed (tag : Nat)

/-- A thrown JavaScript exception: `new Error(message)`, the `SyntaxError` of
`JSON.parse`, a `TypeError` (a property read on `null`, a call of something
that is not a function), the error `fetchCrmApi` throws for a non-2xx
response, and the rejection of `fetch` itself. -/
inductive JsError where
  | error (message : String)
  | syntaxError
  | typeError
  | requestFailed (status : Nat) (body : Text)
  | fetchRejected

/-- The `message` of an exception. The wording of the messages the host
raises is host-defined and never empty; a fixed text stands for each. -/
def JsError.message : JsError → String
  | .error m => m
  | .syntaxError => "Unexpected token in JSON"
  | .typeError => "Cannot read properties of null"
  | .requestFailed _ _ => "CRM request failed"
  | .fetchRejected => "Failed to fetch"

/-- ToBoolean on a JSON value: `null`, `false`, `0` and `""` are falsy. -/
def Json.truthy : Json → Bool
  | .null => false
  | .bool b => b
  | .num n => n != 0
  | .frac q => q != 0
  | .str s => s != ""
  | .arr _ => true
  | .obj _ => true

/-- ToBoolean on a value that may be `undefined` (`none`). -/
def truthy : Option Json → Bool
  | none => false
  | some v => v.truthy

/-- ToBoolean on a string: only the empty string is falsy. -/
def Text.truthy : Text → Bool
  | .empty => false
  | .json _ => true
  | .malformed _ => true

/-- The builtin `Array.isArray`. -/
def Array.isArray : Json → Bool
  | .arr _ => true
  | _ => false

/-- The builtin `JSON.stringify` on a JSON value. -/
def JSON.stringify (v : Json) : Text := .json v

/-- The builtin `JSON.parse` applied to the result of a `getItem`: `null` (an
absent key) is first converted to the text `null`, which parses to `null`. -/
def JSON.parse : Option Text → Except JsError Json
  | none => .ok .null
  | some (.json v) => .ok v
  | some .empty => .error .syntaxError
  | some (.malformed _) => .error .syntaxError

/-- Property read `o.key`: `none` is `undefined`. Reading a property of `null`
throws; numbers, booleans, strings and arrays have none of the record keys. -/
def Json.prop (o : Json) (key : String) : Except JsError (Option Json) :=
  match o with
  | .null => .error .typeError
  | .obj fields => .ok (fields.lookup key)
  | _ => .ok none

/-! ## The browser state -/

/-- A Web Storage area (`localStorage`, `sessionStorage`). -/
abbrev Storage := String → Option Text

def Storage.getItem (s : Storage) (key : String) : Option Text := s key

def Storage.setItem (s : Storage) (key : String) (value : Text) : Storage :=
  fun k => if k = key then some value else s k

def Storage.removeItem (s : Storage) (key : String) : Storage :=
  fun k => if k = key then none else s k

/-- A request handed to `fetch` by `fetchCrmApi`. -/
structure Request where
  method : String
  path : String
  contentType : Option String
  bearer : Text
  body : Option Text

/-- What comes back for a request: `fetch` rejects, or a response with a
status and a body text. -/
inductive Response where
  | rejected
  | http (status : Nat) (body : Text)

/-- The status line shown by `setStatus`. -/
structure Status where
  message : String
  tone : String

/-- The state the script reads and writes.

* `requests`: every request handed to `fetch` so far, oldest first; a request
  is identified by its position in this log.
* `pulls`, `pushes`: the hydrations and pushes suspended on a response.
* `hydratePromise`: the module variable, `none` for `null`.
* `statusEl`: whether the status element exists; `status`: what it shows;
  `reported`: every status handed to `setStatus`, oldest first.
* `refreshes`: how many times `notifyChange` has run.
* `console`: the messages logged by `console.warn` and `console.error`. -/
structure World where
  localStorage : Storage
  sessionStorage : Storage
  hydratePromise : Option Nat
  requests : List Request
  pulls : List Nat
  pushes : List Nat
  statusEl : Bool
  status : Option Status
  reported : List Status
  refreshes : Nat
  console : List String

/-! ## Constants -/

def STORAGE_KEY : String := "leanampCrmRecords"
def NAV_TRANSFER_KEY : String := "leanampCrmTransfer"
def CRM_API_BASE : String := "/api/crm-records"
def AUTH_TOKEN_KEY : String := "leanampAuthToken"
def STAGE_ORDER : List String :=
  ["Prospect", "Qualified", "Proposal", "Negotiation", "Closed Won", "Closed Lost"]

/-! ## Remote sync client -/

/-- `const hasAuthToken = () => Boolean(localStorage.getItem(AUTH_TOKEN_KEY))`. -/
def hasAuthToken (w : World) : Bool :=
  match w.localStorage.getItem AUTH_TOKEN_KEY with
  | none => false
  | some t => t.truthy

/-- `authHeaders()`: the bearer token, or throws when there is none. -/
def authHeaders (w : World) : Except JsError Text :=
  match w.localStorage.getItem AUTH_TOKEN_KEY with
  | none => .error (.error "Authentication required")
  | some t => if t.truthy then .ok t else .error (.error "Authentication required")

/-- The `options` argument of `fetchCrmApi` (no caller passes headers). -/
structure FetchOptions where
  method : Option String
  body : Option Text

/-- How far a call of an `async` function gets before it returns to its
caller: it ran to completion, or it is suspended on the response to a request. -/
inductive Async (α : Type) where
  | done (result : Except JsError α)
  | awaiting (request : Nat)

/-- The request `fetchCrmApi` hands to `fetch`: the method defaults to `GET`,
a body brings the JSON content type, and the bearer token is attached. -/
def requestOf (token : Text) (path : String) (options : FetchOptions) : Request :=
  { method := options.method.getD "GET"
    path := path
    contentType := if options.body.isSome then some "application/json" else none
    bearer := token
    body := options.body }

/-- `fetchCrmApi(path, options)` up to its `await fetch(...)`. -/
def fetchCrmApi (w : World) (path : String) (options : FetchOptions) : Async Json × World :=
  if !hasAuthToken w then (.done (.ok .null), w)
  else
    match authHeaders w with
    | .error e => (.done (.error e), w)
    | .ok token =>
      (.awaiting w.requests.length,
        { w with requests := w.requests ++ [requestOf token path options] })

/-- `fetchCrmApi` from the response on: a rejected fetch and a non-2xx status
throw, a 204 gives `null`, otherwise the body is parsed (`response.json()`). -/
def fetchCrmApi_resume (r : Response) : Except JsError Json :=
  match r with
  | .rejected => .error .fetchRejected
  | .http status body =>
    if !(decide (200 ≤ status) && decide (status ≤ 299)) then .error (.requestFailed status body)
    else if status = 204 then .ok .null
    else JSON.parse (some body)

/-- `syncRecordsToSharePoint(records)` up to its `await`. -/
def syncRecordsToSharePoint (w : World) (records : Json) : World :=
  if !hasAuthToken w then w
  else
    match fetchCrmApi w CRM_API_BASE { method := some "PUT", body := some (JSON.stringify records) } with
    | (.done (.ok _), w1) => w1
    | (.done (.error _), w1) =>
      { w1 with console := w1.console ++ ["Unable to sync CRM records to SharePoint"] }
    | (.awaiting request, w1) => { w1 with pushes := w1.pushes ++ [request] }

/-- `syncRecordsToSharePoint` from the response to its request on. -/
def syncRecordsToSharePoint_resume (w : World) (request : Nat) (r : Response) : World :=
  if request ∈ w.pushes then
    let w1 := { w with pushes := w.pushes.erase request }
    match fetchCrmApi_resume r with
    | .ok _ => w1
    | .error _ => { w1 with console := w1.console ++ ["Unable to sync CRM records to SharePoint"] }
  else w

/-! ## Local store -/

/-- `loadRecords()`: the parsed content of the slot, `[]` when that is falsy,
and on a parse failure the slot is removed and `[]` returned. -/
def loadRecords (w : World) : Json × World :=
  match JSON.parse (w.localStorage.getItem STORAGE_KEY) with
  | .ok v => (if v.truthy then v else .arr [], w)
  | .error _ =>
    (.arr [], { w with
      console := w.console ++ ["Unable to parse CRM store, resetting."]
      localStorage := w.localStorage.removeItem STORAGE_KEY })

/-- `saveRecords(records)`: write the slot, then start the push. -/
def saveRecords (w : World) (records : Json) : World :=
  syncRecordsToSharePoint
    { w with localStorage := w.localStorage.setItem STORAGE_KEY (JSON.stringify records) } records

/-- `persistForNavigation(records)`. -/
def persistForNavigation (w : World) (records : Json) : World :=
  { w with sessionStorage := w.sessionStorage.setItem NAV_TRANSFER_KEY (JSON.stringify records) }

/-- `prepareNavigation(next)` up to the call of `next`: the loaded collection
is stashed in the transfer buffer. -/
def prepareNavigation (w : World) : World :=
  match loadRecords w with
  | (records, w1) => persistForNavigation w1 records

/-- `consumeNavigationTransfer()`: an absent or empty payload returns at once;
otherwise the buffer is removed first, then the payload parsed and, when it is
an array, saved. -/
def consumeNavigationTransfer (w : World) : World :=
  match w.sessionStorage.getItem NAV_TRANSFER_KEY with
  | none => w
  | some payload =>
    if !payload.truthy then w
    else
      let w1 := { w with sessionStorage := w.sessionStorage.removeItem NAV_TRANSFER_KEY }
      match JSON.parse (some payload) with
      | .ok parsed => if Array.isArray parsed then saveRecords w1 parsed else w1
      | .error _ => { w1 with console := w1.console ++ ["Unable to consume CRM transfer"] }

/-! ## Views -/

/-- `notifyChange()`: the open views are redrawn. Rendering is outside the
embedding; the redraw is counted. -/
def notifyChange (w : World) : World :=
  { w with refreshes := w.refreshes + 1 }

/-- `setStatus(message, tone)`: shown in the status element when there is one. -/
def setStatus (w : World) (message : String) (tone : String) : World :=
  let w1 := { w with reported := w.reported ++ [{ message := message, tone := tone }] }
  if !w1.statusEl then w1
  else { w1 with status := some { message := message, tone := tone } }

/-! ## Hydration coordinator -/

/-- The promise a call of `hydrateRecordsFromSharePoint()` returns, by when it
settles: `settled` needs no response from the network, `pending request`
settles only once the response to that request has been processed. -/
inductive Handle where
  | settled
  | pending (request : Nat)
  deriving DecidableEq

/-- The body of the inner `async` function of the hydration once
`fetchCrmApi` has produced its result. -/
def hydrateBody (w : World) (result : Except JsError Json) : World :=
  match result with
  | .ok records =>
    if Array.isArray records then
      notifyChange { w with localStorage := w.localStorage.setItem STORAGE_KEY (JSON.stringify records) }
    else w
  | .error _ => { w with console := w.console ++ ["Unable to hydrate CRM from SharePoint"] }

/-- `hydrateRecordsFromSharePoint()` up to the `await` of the pull. -/
def hydrateRecordsFromSharePoint (w : World) : Handle × World :=
  if w.hydratePromise.isSome || !hasAuthToken w then (.settled, w)
  else
    match fetchCrmApi w CRM_API_BASE { method := none, body := none } with
    | (.awaiting request, w1) =>
      (.pending request, { w1 with hydratePromise := some request, pulls := w1.pulls ++ [request] })
    | (.done result, w1) =>
      (.settled, { hydrateBody w1 result with hydratePromise := none })

/-- `hydrateRecordsFromSharePoint` from the response to the pull on: the inner
function finishes, then the `finally` callback clears `hydratePromise`. -/
def hydrateRecordsFromSharePoint_resume (w : World) (request : Nat) (r : Response) : World :=
  if request ∈ w.pulls then
    let w1 := { w with pulls := w.pulls.erase request }
    { hydrateBody w1 (fetchCrmApi_resume r) with hydratePromise := none }
  else w

/-! ## Ordering used by the views -/

/-- What the script takes from the host for dates: `Date.parse` on a string
(`none` for `NaN`), and the time value of `new Date(v)` for an array or object
`v`, which the host obtains through ToPrimitive and `Date.parse`. -/
structure Host where
  dateParse : String → Option Int
  dateOfObject : Json → Option Int

/-- `xs.indexOf(x)`: the position of the first strictly equal element, else -1. -/
def indexOf (xs : List String) (x : Option Json) : Int :=
  match x with
  | some (.str s) => if s ∈ xs then (xs.indexOf s : Nat) else -1
  | _ => -1

/-- `x || y` for a property value `x` that may be `undefined`. -/
def orElse (x : Option Json) (y : Json) : Json :=
  match x with
  | some v => if v.truthy then v else y
  | none => y

/-- The time value of `new Date(v)`, `none` for an invalid date: a number is
clipped to the range of time values and loses its fractional part, a string
goes through `Date.parse`, booleans and `null` convert to numbers. -/
def newDate (E : Host) : Json → Option Int
  | .num n => if n.natAbs ≤ 8640000000000000 then some n else none
  | .frac q => if |q| ≤ 8640000000000000 then some (Int.tdiv q.num q.den) else none
  | .str s => E.dateParse s
  | .bool b => some (if b then 1 else 0)
  | .null => some 0
  | .arr items => E.dateOfObject (.arr items)
  | .obj fields => E.dateOfObject (.obj fields)

/-- Subtraction of two time values; `NaN` (`none`) when either is `NaN`. -/
def dateDiff (x y : Option Int) : Option Int :=
  match x, y with
  | some a, some b => some (a - b)
  | _, _ => none

/-- The comparator of `getSortedRecords`: the difference of the stage
positions, and when that is 0 the difference of the time values, `b` minus `a`. -/
def compareRecords (E : Host) (a b : Json) : Except JsError (Option Int) := do
  let stageA ← a.prop "stage"
  let stageB ← b.prop "stage"
  let stageOrder := indexOf STAGE_ORDER stageA - indexOf STAGE_ORDER stageB
  if stageOrder ≠ 0 then return some stageOrder
  let whenB := orElse (← b.prop "updatedAt") (orElse (← b.prop "createdAt") (.num 0))
  let whenA := orElse (← a.prop "updatedAt") (orElse (← a.prop "createdAt") (.num 0))
  return dateDiff (newDate E whenB) (newDate E whenA)

/-- The number `Array.prototype.sort` takes from a comparator result: `NaN` counts as 0. -/
def sortCompare (v : Option Int) : Int := v.getD 0

/-- One insertion of the sort: `x`, which stood before the elements of the
sorted list, goes before the first `y` it does not compare greater than. -/
def insertSorted {α ε : Type} (cmp : α → α → Except ε (Option Int)) (x : α) :
    List α → Except ε (List α)
  | [] => .ok [x]
  | y :: ys => do
    let v ← cmp x y
    if sortCompare v ≤ 0 then return x :: y :: ys
    else return y :: (← insertSorted cmp x ys)

/-- The builtin `Array.prototype.sort(cmp)` as a stable insertion sort, one of
the algorithms an engine may use; an exception of the comparator ends the sort. -/
def Array.sort {α ε : Type} (cmp : α → α → Except ε (Option Int)) : List α → Except ε (List α)
  | [] => .ok []
  | x :: xs => do
    let sorted ← Array.sort cmp xs
    insertSorted cmp x sorted

/-- `getSortedRecords()`: `loadRecords().sort(...)`, with the insertion sort
for the engine; a loaded value that is not an array has no `sort` to call. -/
def getSortedRecords (E : Host) (w : World) : Except JsError Json × World :=
  match loadRecords w with
  | (.arr items, w1) => ((Array.sort (compareRecords E) items).map Json.arr, w1)
  | (_, w1) => (.error .typeError, w1)

/-- The JavaScript engine the script runs on, as far as the ordering goes: its
`Array.prototype.sort(cmp)` on an array of JSON values. ECMAScript leaves the
algorithm to the engine, and with it the order of the result whenever the
comparator is not consistent, as a comparator that returns `NaN` need not be. -/
structure Engine where
  sort : (Json → Json → Except JsError (Option Int)) → List Json → Except JsError (List Json)

/-- What the ordering results assume of the engine's sort, for a comparator
that throws on no two elements of the array (`c` is what it returns): the sort
returns, its result is a permutation of the array, and the result respects
every key the comparator respects, that is, if the comparator puts `x` before
`y`, called either way round, whenever `key x < key y`, then the keys never
decrease along the result. For a consistent comparator the key can be the
comparator's own order, and this is what ECMAScript requires of the result.
For other comparators it is a property of the comparison sorts the engines
use (insertion, binary insertion, merging of sorted runs): they place one
element before another on the strength of comparator answers and of the order
of runs sorted earlier, and a key that every answer respects is respected by
these. -/
def Engine.Conforms (S : Engine) : Prop :=
  ∀ (cmp : Json → Json → Except JsError (Option Int)) (c : Json → Json → Option Int)
    (l : List Json), (∀ x ∈ l, ∀ y ∈ l, cmp x y = .ok (c x y)) →
    ∃ r, S.sort cmp l = .ok r ∧ r.Perm l ∧
      ∀ (β : Type) [LinearOrder β] (key : Json → β),
        (∀ x ∈ l, ∀ y ∈ l, key x < key y →
          sortCompare (c x y) < 0 ∧ 0 < sortCompare (c y x)) →
        r.Pairwise (fun a b => key a ≤ key b)

/-- `getSortedRecords()` on the engine `S`: `loadRecords().sort(...)`; a
loaded value that is not an array has no `sort` to call. -/
def Engine.getSortedRecords (S : Engine) (E : Host) (w : World) : Except JsError Json × World :=
  match loadRecords w with
  | (.arr items, w1) => ((S.sort (compareRecords E) items).map Json.arr, w1)
  | (_, w1) => (.error .typeError, w1)

/-- The engine that sorts by stable insertion. -/
def Engine.insertion : Engine where
  sort := Array.sort

/-- How far the run that ends in `previous` extends into the elements that
follow it: an ascending run goes on while the next element does not compare
less than the one before it, a descending run while it compares less. -/
def extendRun (cmp : Json → Json → Except JsError (Option Int)) (descending : Bool)
    (previous : Json) : List Json → Except JsError Nat
  | [] => .ok 0
  | current :: rest => do
    let order := sortCompare (← cmp current previous)
    if descending then
      if order ≥ 0 then return 0
      else return (← extendRun cmp descending current rest) + 1
    else
      if order < 0 then return 0
      else return (← extendRun cmp descending current rest) + 1

/-- The run at the start of the array, made ascending (a descending run is
reversed), and the elements after it. -/
def countAndMakeRun (cmp : Json → Json → Except JsError (Option Int)) :
    List Json → Except JsError (List Json × List Json)
  | [] => .ok ([], [])
  | [x] => .ok ([x], [])
  | x :: y :: rest => do
    let order := sortCompare (← cmp y x)
    let descending := decide (order < 0)
    let more ← extendRun cmp descending y rest
    let run := x :: y :: rest.take more
    return (if descending then run.reverse else run, rest.drop more)

/-- Binary insertion of `pivot` into the sorted `window`: the pivot is compared
with the middle element and goes into the part before it when it compares
less, else into the part after it. `fuel` bounds the number of halvings; the
length of the window is enough. -/
def binaryInsert (cmp : Json → Json → Except JsError (Option Int)) (pivot : Json) :
    Nat → List Json → Except JsError (List Json)
  | 0, window => .ok (pivot :: window)
  | fuel + 1, window =>
    match window.drop (window.length / 2) with
    | [] => .ok (window ++ [pivot])
    | middle :: after => do
      let before := window.take (window.length / 2)
      let order := sortCompare (← cmp pivot middle)
      if order < 0 then return (← binaryInsert cmp pivot fuel before) ++ middle :: after
      else return before ++ middle :: (← binaryInsert cmp pivot fuel after)

/-- Binary insertion sort: each element of `rest` in turn is inserted into
the sorted part that precedes it. -/
def binaryInsertionSort (cmp : Json → Json → Except JsError (Option Int)) :
    List Json → List Json → Except JsError (List Json)
  | sorted, [] => .ok sorted
  | sorted, pivot :: rest => do
    let sorted1 ← binaryInsert cmp pivot sorted.length sorted
    binaryInsertionSort cmp sorted1 rest

/-- The engine that finds the run at the start of the array and places the
other elements by binary insertion. This is what V8 does with an array of
fewer than 64 elements; a longer array it cuts into runs of this kind, which
it merges. -/
def Engine.binaryInsertion : Engine where
  sort := fun cmp l => do
    let (run, rest) ← countAndMakeRun cmp l
    binaryInsertionSort cmp run rest

/-- Property read `o.key` on a value that is not `null`. -/
def Json.get (o : Json) (key : String) : Option Json :=
  match o with
  | .obj fields => fields.lookup key
  | _ => none

/-- The position `STAGE_ORDER.indexOf(r.stage)` the comparator gives a record. -/
def stageIndex (r : Json) : Int := indexOf STAGE_ORDER (r.get "stage")

/-- The time value the comparator gives a record:
`new Date(r.updatedAt || r.createdAt || 0)`. -/
def whenOf (E : Host) (r : Json) : Option Int :=
  newDate E (orElse (r.get "updatedAt") (orElse (r.get "createdAt") (.num 0)))

/-- The comparator's result on two values that are not `null`. -/
def compareValue (E : Host) (a b : Json) : Option Int :=
  if stageIndex a - stageIndex b ≠ 0 then some (stageIndex a - stageIndex b)
  else dateDiff (whenOf E b) (whenOf E a)

/-- Specification side of the ordering: the position of the record's stage in
the fixed list of stages (the length of the list when it is not in it). -/
def stagePosition (r : Json) : Nat :=
  match r.get "stage" with
  | some (.str s) => STAGE_ORDER.indexOf s
  | _ => STAGE_ORDER.length

/-- Specification side of the ordering: the record carries a valid timestamp,
read as the time `t`: its `updatedAt`, or its `createdAt` when it has no
`updatedAt`, is a non-empty string that the host parses as `t`. -/
def stampedAt (E : Host) (r : Json) (t : Int) : Prop :=
  ∃ s : String, s ≠ "" ∧ E.dateParse s = some t ∧
    (r.get "updatedAt" = some (.str s) ∨
      (r.get "updatedAt" = none ∧ r.get "createdAt" = some (.str s)))

/-- A host for the examples: `Date.parse` on two ISO date-times, and `NaN` on
every other text used there. -/
def sampleHost : Host where
  dateParse := fun s =>
    if s = "2024-01-01T00:00:00.000Z" then some 1704067200000
    else if s = "2024-06-01T00:00:00.000Z" then some 1717200000000
    else none
  dateOfObject := fun _ => none

/-! ## Import and remove handlers -/

/-- The `try` block of the import `onload` handler. -/
def importInput_try (w : World) (result : Text) : Except JsError World := do
  let payload ← JSON.parse (some result)
  if !Array.isArray payload then throw (.error "CRM file must be an array")
  let count := match payload with
    | .arr items => items.length
    | _ => 0
  let w1 := saveRecords w payload
  let w2 := setStatus w1
    ("Imported " ++ toString count ++ " CRM record" ++ (if count = 1 then "" else "s") ++ ".")
    "success"
  return notifyChange w2

/-- The import `onload` handler on the text read from the chosen file: the
`try` block, and in the `catch` the error message is shown with tone `error`. -/
def importInput_onload (w : World) (result : Text) : World :=
  match importInput_try w result with
  | .ok w1 => w1
  | .error err =>
    setStatus w (if err.message ≠ "" then err.message else "Import failed.") "error"

/-- A JavaScript number as `Number(...)` returns it for an attribute: an
integer or `NaN`. -/
inductive JsNumber where
  | int (n : Int)
  | nan

/-- `x !== id` for a property value `x` and a number `id`. -/
def strictNe (x : Option Json) (id : JsNumber) : Bool :=
  match x, id with
  | some (.num n), .int m => n != m
  | some (.frac q), .int m => q != m
  | _, _ => true

/-- The builtin `Array.prototype.filter` with a callback that may throw. -/
def Array.filter {α ε : Type} (keep : α → Except ε Bool) : List α → Except ε (List α)
  | [] => .ok []
  | x :: xs => do
    let k ← keep x
    let rest ← Array.filter keep xs
    return if k then x :: rest else rest

/-- The click handler of a remove button whose `data-id` reads as `id`:
`loadRecords().filter(record => record.id !== id)` is saved and the views notified. -/
def removeBtn_click (w : World) (id : JsNumber) : Except JsError World :=
  match loadRecords w with
  | (.arr items, w1) => do
    let records ← Array.filter (fun record => do return strictNe (← record.prop "id") id) items
    return notifyChange (saveRecords w1 (.arr records))
  | (_, _) => .error .typeError

/-- Specification side of the remove handler: the record is an object whose
`id` property is the number `id` (`NaN` is the id of no record). -/
def hasId (record : Json) (id : JsNumber) : Bool :=
  match record, id with
  | .obj fields, .int m =>
    match fields.lookup "id" with
    | some (.num n) => n == m
    | some (.frac q) => q == m
    | _ => false
  | _, _ => false

/-! ## Record mutations: edit, stage change, form submission

The functions that read the clock take the reading as an argument: `now` is
the text `new Date().toISOString()` returns at the call. -/

/-- The assignment `record[key] = value` on the properties of an object: an
existing property keeps its place and takes the value, a new one is added last. -/
def setProp (fields : List (String × Json)) (key : String) (value : Json) :
    List (String × Json) :=
  match fields with
  | [] => [(key, value)]
  | (k, v) :: rest => if k = key then (k, value) :: rest else (k, v) :: setProp rest key value

/-- The builtin `Object.assign(target, source)`: the properties of `source`
are assigned to `target` in order. -/
def Object.assign (target source : List (String × Json)) : List (String × Json) :=
  source.foldl (fun acc kv => setProp acc kv.1 kv.2) target

/-- The builtin `Array.prototype.find` with a callback that may throw. The
element found is given by its position, since the callers change it in place;
`none` is `undefined`. -/
def Array.find {α ε : Type} (accept : α → Except ε Bool) : List α → Except ε (Option Nat)
  | [] => .ok none
  | x :: xs => do
    if (← accept x) then return some 0
    else return (← Array.find accept xs).map (· + 1)

/-- `updateRecord(id, updates)` for a number `id`: the first record whose `id`
is strictly equal to it gets the properties of `updates` and then `updatedAt`,
the collection is saved and the views notified. Only an object has an `id`
equal to a number, so the record found is an object. -/
def updateRecord (w : World) (now : String) (id : JsNumber) (updates : List (String × Json)) :
    Except JsError (Bool × World) :=
  match loadRecords w with
  | (.arr items, w1) => do
    let found ← Array.find (fun item => do return !strictNe (← item.prop "id") id) items
    match found with
    | none => return (false, w1)
    | some i =>
      match items.get? i with
      | some (.obj fields) =>
        let record := Object.assign (Object.assign fields updates) [("updatedAt", .str now)]
        return (true, notifyChange (saveRecords w1 (.arr (items.set i (.obj record)))))
      | _ => return (true, notifyChange (saveRecords w1 (.arr items)))
  | (_, _) => .error .typeError

/-- The change handler of a stage select whose `data-id` reads as `id`, with
`value` the stage chosen: the first record with that id gets the stage and a
new `updatedAt`, the collection is saved and the views notified. -/
def stageSelect_change (w : World) (now : String) (id : JsNumber) (value : String) :
    Except JsError World :=
  match loadRecords w with
  | (.arr items, w1) => do
    let found ← Array.find (fun item => do return !strictNe (← item.prop "id") id) items
    match found with
    | none => return w1
    | some i =>
      match items.get? i with
      | some (.obj fields) =>
        let record := setProp (setProp fields "stage" (.str value)) "updatedAt" (.str now)
        return notifyChange (saveRecords w1 (.arr (items.set i (.obj record))))
      | _ => return notifyChange (saveRecords w1 (.arr items))
  | (_, _) => .error .typeError

/-- A JavaScript number as `parseFloat` returns it: `NaN`, `Infinity` or
`-Infinity`, or a finite number (every finite double is a rational; the two
zeros are one number here, and both are falsy). -/
inductive Double where
  | nan
  | infinity (negative : Bool)
  | finite (q : ℚ)

/-- ToBoolean on a number: `NaN` and zero are falsy. -/
def Double.truthy : Double → Bool
  | .nan => false
  | .infinity _ => true
  | .finite q => q != 0

/-- What `JSON.stringify` writes for a number, as `JSON.parse` reads it back:
`null` for `NaN` and the infinities, the number itself when it is finite. -/
def Double.toJSON : Double → Json
  | .nan => .null
  | .infinity _ => .null
  | .finite q => if q.den = 1 then .num q.num else .frac q

/-- What the form handler takes from the host: `parseFloat` and
`String.prototype.trim`. `parseFloat("")` is `NaN`. -/
structure FormHost where
  parseFloat : String → Double
  trim : String → String
  parseFloat_empty : parseFloat "" = .nan

/-- The controls of the quote form when `processSubmission` runs: the value of
each input, `none` when the page has no such control. `currentUser` is the
`leanampCurrentUser` entry of the local storage, a plain name.
`snapshotProvider` is `none` when the page configured no provider, else the
value the provider returns, `none` for `undefined`. -/
structure QuoteForm where
  nameInput : Option String
  companyInput : Option String
  emailInput : Option String
  phoneInput : Option String
  stageSelect : Option String
  valueInput : Option String
  projectInput : Option String
  addressInput : Option String
  nextActionHidden : Option String
  dateInput : Option String
  notesInput : Option String
  currentUser : Option String
  snapshotProvider : Option (Option Json)

/-- The three clock readings of a submission: `Date.now()` and the two
`new Date().toISOString()`. -/
structure Clock where
  now : Int
  createdAt : String
  updatedAt : String

/-- The guard on a required field: `!field.el || !field.el.value.trim()`. -/
def missingField (H : FormHost) (el : Option String) : Bool :=
  match el with
  | none => true
  | some v => H.trim v == ""

/-- `el ? el.value.trim() : ""`. -/
def trimmedValue (H : FormHost) (el : Option String) : String :=
  match el with
  | some v => H.trim v
  | none => ""

/-- The `value` of a new record: `parseFloat(valueRaw || "") || 0`, where
`valueRaw` is the text of the value input, `""` without one. -/
def recordValue (H : FormHost) (valueInput : Option String) : Double :=
  let valueRaw := valueInput.getD ""
  let parsed := H.parseFloat (if valueRaw ≠ "" then valueRaw else "")
  if parsed.truthy then parsed else .finite 0

/-- The record `processSubmission` pushes, as `JSON.stringify` writes it (a
`calcSnapshot` that is `undefined` is left out, a `value` that is not finite
is written as `null`). -/
def newRecord (H : FormHost) (form : QuoteForm) (clock : Clock) : Json :=
  .obj ([("id", .num clock.now),
    ("name", .str (trimmedValue H form.nameInput)),
    ("company", .str (trimmedValue H form.companyInput)),
    ("email", .str (trimmedValue H form.emailInput)),
    ("phone", .str (trimmedValue H form.phoneInput)),
    ("stage", .str (form.stageSelect.getD "Prospect")),
    ("value", (recordValue H form.valueInput).toJSON),
    ("projectName", .str (trimmedValue H form.projectInput)),
    ("projectAddress", .str (trimmedValue H form.addressInput)),
    ("nextAction", .str (trimmedValue H form.nextActionHidden)),
    ("nextDate", .str (form.dateInput.getD "")),
    ("notes", .str (trimmedValue H form.notesInput)),
    ("createdAt", .str clock.createdAt),
    ("updatedAt", .str clock.updatedAt)] ++
    (match form.snapshotProvider with
      | none => [("calcSnapshot", Json.null)]
      | some none => []
      | some (some v) => [("calcSnapshot", v)]) ++
    [("assignedTo", .str (match form.currentUser with
      | some u => if u ≠ "" then u else "Unassigned"
      | none => "Unassigned"))])

/-- `processSubmission()`: a missing required field is reported and nothing
is saved; otherwise the new record is pushed onto the loaded collection, the
collection saved, success reported and the views notified. A loaded value that
is not an array has no `push` to call. The reset of the form controls after
the save touches only the page and is left out. -/
def processSubmission (H : FormHost) (w : World) (form : QuoteForm) (clock : Clock) :
    Except JsError World :=
  if missingField H form.projectInput then
    .ok (setStatus w "Please fill Project Name before saving." "error")
  else if missingField H form.companyInput then
    .ok (setStatus w "Please fill Customer / Company before saving." "error")
  else
    match loadRecords w with
    | (.arr items, w1) =>
      let w2 := saveRecords w1 (.arr (items ++ [newRecord H form clock]))
      let w3 := setStatus w2 "Entry saved to CRM. View it on the dashboard." "success"
      .ok (notifyChange w3)
    | (_, _) => .error .typeError

/-- Specification side: the ids of the records of a collection, in order. -/
def idsOf (items : List Json) : List (Option Json) := items.map (fun r => r.get "id")

/-- A host for the form examples: `parseFloat` on four texts, `NaN` on the
others used there, and `trim` on texts without surrounding white space. -/
def sampleFormHost : FormHost where
  parseFloat := fun s =>
    if s = "-5" then .finite (-5)
    else if s = "1200" then .finite 1200
    else if s = "2.5" then .finite (5 / 2)
    else if s = "Infinity" then .infinity false
    else .nan
  trim := fun s => s
  parseFloat_empty := rfl

/-- Clock readings for the examples: 2024-06-01T00:00:00.000Z. -/
def sampleClock : Clock where
  now := 1717200000000
  createdAt := "2024-06-01T00:00:00.000Z"
  updatedAt := "2024-06-01T00:00:00.000Z"

/-- A filled-in quote form for the examples, with `value` in the value input. -/
def sampleForm (value : String) : QuoteForm where
  nameInput := some "Ada"
  companyInput := some "Acme"
  emailInput := some "ada@acme.test"
  phoneInput := some "555-010-0000"
  stageSelect := some "Qualified"
  valueInput := some value
  projectInput := some "Warehouse"
  addressInput := some "1 Main St"
  nextActionHidden := some "Send PDF proposal"
  dateInput := some ""
  notesInput := some ""
  currentUser := none
  snapshotProvider := none

/-! ## The page as a transition system -/

/-- What can happen on a page: a call of one of the operations, a user action,
the arrival of a response, or a change of the credential (sign-in, sign-out). -/
inductive Event where
  | hydrate
  | pullResponse (request : Nat) (r : Response)
  | pushResponse (request : Nat) (r : Response)
  | save (records : Json)
  | load
  | consume
  | navigate
  | importFile (content : Text)
  | remove (id : JsNumber)
  | update (now : String) (id : JsNumber) (updates : List (String × Json))
  | stageChange (now : String) (id : JsNumber) (value : String)
  | submit (H : FormHost) (form : QuoteForm) (clock : Clock)
  | setToken (token : Option Text)

/-- The effect of one event. An uncaught exception in a handler leaves the
state as it was when the handler started. -/
def step (w : World) : Event → World
  | .hydrate => (hydrateRecordsFromSharePoint w).2
  | .pullResponse request r => hydrateRecordsFromSharePoint_resume w request r
  | .pushResponse request r => syncRecordsToSharePoint_resume w request r
  | .save records => saveRecords w records
  | .load => (loadRecords w).2
  | .consume => consumeNavigationTransfer w
  | .navigate => prepareNavigation w
  | .importFile content => importInput_onload w content
  | .remove id =>
    match removeBtn_click w id with
    | .ok w1 => w1
    | .error _ => w
  | .update now id updates =>
    match updateRecord w now id updates with
    | .ok r => r.2
    | .error _ => w
  | .stageChange now id value =>
    match stageSelect_change w now id value with
    | .ok w1 => w1
    | .error _ => w
  | .submit H form clock =>
    match processSubmission H w form clock with
    | .ok w1 => w1
    | .error _ => w
  | .setToken token =>
    { w with localStorage := fun k => if k = AUTH_TOKEN_KEY then token else w.localStorage k }

/-- The state after a sequence of events. -/
def run (w : World) (events : List Event) : World := events.foldl step w

/-- A freshly loaded page: no hydration marker, nothing in flight; the storage
areas hold whatever earlier pages left. -/
def World.fresh (w : World) : Prop :=
  w.hydratePromise = none ∧ w.pulls = [] ∧ w.pushes = [] ∧ w.requests = []

/-- A page with empty storage areas and nothing in flight. -/
def World.empty : World where
  localStorage := fun _ => none
  sessionStorage := fun _ => none
  hydratePromise := none
  requests := []
  pulls := []
  pushes := []
  statusEl := true
  status := none
  reported := []
  refreshes := 0
  console := []

/-- The empty page after the local store slot was set to `content`. -/
def World.holding (content : Text) : World :=
  { World.empty with localStorage := World.empty.localStorage.setItem STORAGE_KEY content }

/-- A request of the pull: a `GET`. -/
def Request.isPull (r : Request) : Bool := r.method == "GET"

/-- The number of pulls handed to `fetch` so far. -/
def World.pullsIssued (w : World) : Nat := (w.requests.filter Request.isPull).length

/-- The hydration coordinator's part of the state: the marker, the pulls in
flight and the number of pulls issued. -/
def World.hydration (w : World) : Option Nat × List Nat × Nat :=
  (w.hydratePromise, w.pulls, w.pullsIssued)

/-- Whether the event is the arrival of the response to a pull. -/
def Event.isPullResponse : Event → Bool
  | .pullResponse _ _ => true
  | _ => false

/-- The coordinator's invariant: at most one pull is in flight, and none when
the marker is clear. -/
def World.coordinated (w : World) : Prop :=
  w.pulls.length ≤ 1 ∧ (w.hydratePromise = none → w.pulls = [])

/-- A record as the form writes it, reduced to the properties the store logic reads. -/
def sampleRecord (id : Int) (stage : String) (updatedAt : String) : Json :=
  .obj [("id", .num id), ("stage", .str stage), ("createdAt", .str "2024-01-01T00:00:00.000Z"),
    ("updatedAt", .str updatedAt)]

/-- Two records for the examples. -/
def sampleRecords : List Json :=
  [sampleRecord 1 "Prospect" "2024-01-01T00:00:00.000Z",
   sampleRecord 2 "Qualified" "2024-06-01T00:00:00.000Z"]

/-- The empty page with `content` in the transfer buffer. -/
def World.withBuffer (content : Text) : World :=
  { World.empty with
    sessionStorage := World.empty.sessionStorage.setItem NAV_TRANSFER_KEY content }

/-- The empty page after sign-in: a credential is in the credential store. -/
def World.signedIn : World :=
  { World.empty with localStorage := World.empty.localStorage.setItem AUTH_TOKEN_KEY (.malformed 0) }

/-! ## Text helpers of the form and the views -/

/-- What the callback of `escapeHTML` puts in place of a character: the entity
for `&`, `<`, `>`, the double quote (code 34) and the single quote (code 39),
and the character itself when the pattern does not match it. -/
def escapeChar (c : Char) : List Char :=
  if c = '&' then ['&', 'a', 'm', 'p', ';']
  else if c = '<' then ['&', 'l', 't', ';']
  else if c = '>' then ['&', 'g', 't', ';']
  else if c = Char.ofNat 34 then ['&', 'q', 'u', 'o', 't', ';']
  else if c = Char.ofNat 39 then ['&', '#', '3', '9', ';']
  else [c]

/-- The global replace of `escapeHTML` over the characters of the string. -/
def escapeChars : List Char → List Char
  | [] => []
  | c :: cs => escapeChar c ++ escapeChars cs

/-- `escapeHTML(str)` on a string. -/
def escapeHTML (str : String) : String := String.mk (escapeChars str.toList)

/-- Specification side of `escapeHTML`: what follows the `&` in the five entities. -/
def entityBodies : List (List Char) :=
  [['a', 'm', 'p', ';'], ['l', 't', ';'], ['g', 't', ';'], ['q', 'u', 'o', 't', ';'],
   ['#', '3', '9', ';']]

/-- Specification side of `escapeHTML`: the character is one of the five the pattern matches. -/
def isSpecial (c : Char) : Bool :=
  c == '&' || c == '<' || c == '>' || c == Char.ofNat 34 || c == Char.ofNat 39

/-- `formatPhone(value)` on a string: the digits of the value (`\D+` removed),
up to three as they are, up to six as 3-rest, else as 3-3-4 with the digits
after the tenth dropped. -/
def formatPhone (value : String) : String :=
  if value = "" then ""
  else
    let digits := value.toList.filter Char.isDigit
    if digits.length ≤ 3 then String.mk digits
    else if digits.length ≤ 6 then String.mk (digits.take 3 ++ ('-' :: digits.drop 3))
    else String.mk (digits.take 3 ++ ('-' :: (digits.drop 3).take 3) ++
      ('-' :: (digits.drop 6).take 4))

/-- Specification side of `formatPhone`: digits grouped 3-3-4 by hyphens, the
groups after the first present only when they have a digit. -/
def groupDigits (d : List Char) : List Char :=
  if d.length ≤ 3 then d
  else if d.length ≤ 6 then d.take 3 ++ ['-'] ++ d.drop 3
  else d.take 3 ++ ['-'] ++ (d.drop 3).take 3 ++ ['-'] ++ (d.drop 6).take 4

/-! ## Metrics of the views -/

/-- The counts `computeMetrics` returns. Its `pipeline` and `weighted` are
floating-point sums and are left out of the embedding; computing them throws
nothing on records that are not `null`. -/
structure Metrics where
  active : Nat
  won : Nat
  lost : Nat
  nextTouches : Nat

/-- `record.stage === stage` for a string `stage`. -/
def stageIs (stage : String) (record : Json) : Except JsError Bool := do
  match ← record.prop "stage" with
  | some (.str s) => return s == stage
  | _ => return false

/-- The callback of the `nextTouches` filter: the record has a `nextDate`, it
is a valid date, and it lies between now and seven days from now. The clock is
read for each record; `now` stands for these readings. -/
def isNextTouch (E : Host) (now : Int) (record : Json) : Except JsError Bool := do
  match ← record.prop "nextDate" with
  | none => return false
  | some v =>
    if !v.truthy then return false
    else
      match newDate E v with
      | none => return false
      | some t => return decide (0 ≤ t - now) && decide (t - now ≤ 7 * 86400000)

/-- `computeMetrics(records)`, its counts: each is the length of a filter of `records`. -/
def computeMetrics (E : Host) (now : Int) (records : List Json) : Except JsError Metrics := do
  let active ← Array.filter (fun record => do return !(← stageIs "Closed Lost" record)) records
  let won ← Array.filter (stageIs "Closed Won") records
  let lost ← Array.filter (stageIs "Closed Lost") records
  let nextTouches ← Array.filter (isNextTouch E now) records
  return { active := active.length, won := won.length, lost := lost.length,
           nextTouches := nextTouches.length }

/-- Specification side of the metrics: the record's stage is the string `stage`. -/
def inStage (stage : String) (record : Json) : Bool :=
  match record.get "stage" with
  | some (.str s) => s == stage
  | _ => false

/-! ## The server's snapshot endpoint

`server/src/routes/crm.js`, `server/src/utils/authMiddleware.js` and the route
mounting and error handler of `server/src/index.js`. The SharePoint list
behind the endpoint is a list of items; a call to Graph either goes through or
throws the error given as `fault`. -/

/-- An item of the SharePoint list: its id (Graph gives it as a non-empty
string of digits, so it is truthy) and its `fields.Payload`, `none` when the
item has none. -/
structure ListItem where
  id : Nat
  payload : Option Text

/-- An error on the server: its `status`, if it has one, and its `message`. -/
structure HttpError where
  status : Option Nat
  message : String

/-- A response of the server: status and JSON body. -/
structure Reply where
  status : Nat
  body : Json

/-- The error handler of `index.js`: `err.status || 500` and
`{ error: err.message || "Unexpected server error" }`. -/
def errorHandler (err : HttpError) : Reply :=
  { status := match err.status with
      | some n => if n ≠ 0 then n else 500
      | none => 500
    body := .obj [("error",
      .str (if err.message ≠ "" then err.message else "Unexpected server error"))] }

/-- `parseSnapshot(item)`: `[]` without a payload, else the parsed payload,
and `[]` when it does not parse. -/
def parseSnapshot (item : ListItem) : Json :=
  match item.payload with
  | none => .arr []
  | some raw =>
    if !raw.truthy then .arr []
    else
      match JSON.parse (some raw) with
      | .ok v => v
      | .error _ => .arr []

/-- The result of `readSnapshot`: the id of the first item, `none` for
`null`, and its data. -/
structure Snapshot where
  id : Option Nat
  data : Json

/-- `readSnapshot()`: the first item of the list. -/
def readSnapshot (list : List ListItem) (fault : Option HttpError) : Except HttpError Snapshot :=
  match fault with
  | some err => .error err
  | none =>
    match list.head? with
    | none => .ok { id := none, data := .arr [] }
    | some item => .ok { id := some item.id, data := parseSnapshot item }

/-- The effect of `sharepoint.updateItem(listId, id, payload)` on the list:
the item with the id takes the payload. -/
def updateItem (list : List ListItem) (id : Nat) (payload : Text) : List ListItem :=
  list.map (fun item => if item.id = id then { item with payload := some payload } else item)

/-- The effect of `sharepoint.createItem(listId, payload)` on the list: a new
item with a new id comes last. -/
def createItem (list : List ListItem) (payload : Text) : List ListItem :=
  list ++ [{ id := (list.map (fun item => item.id)).foldr max 0 + 1, payload := some payload }]

/-- The `GET /` handler. -/
def crmRouter_get (list : List ListItem) (fault : Option HttpError) : Reply :=
  match readSnapshot list fault with
  | .ok snapshot => { status := 200, body := snapshot.data }
  | .error err => errorHandler err

/-- The `PUT /` handler: a body that is not an array is refused with status
400 before anything is read; otherwise the first item is updated, or one is
created when there is none, and the body is sent back. -/
def crmRouter_put (list : List ListItem) (body : Json) (readFault writeFault : Option HttpError) :
    Reply × List ListItem :=
  if !Array.isArray body then
    (errorHandler { status := some 400, message := "Payload must be an array of CRM records" },
      list)
  else
    match readSnapshot list readFault with
    | .error err => (errorHandler err, list)
    | .ok snapshot =>
      match writeFault with
      | some err => (errorHandler err, list)
      | none =>
        ({ status := 200, body := body },
          match snapshot.id with
          | some id => updateItem list id (JSON.stringify body)
          | none => createItem list (JSON.stringify body))

/-- Whether the characters start with the pattern. -/
def startsWith : List Char → List Char → Bool
  | [], _ => true
  | _ :: _, [] => false
  | p :: ps, c :: cs => p == c && startsWith ps cs

/-- `text.replace(pattern, "")` for a string pattern: the first occurrence is removed. -/
def removeFirst (pattern : List Char) : List Char → List Char
  | [] => []
  | c :: cs =>
    if startsWith pattern (c :: cs) then (c :: cs).drop pattern.length
    else c :: removeFirst pattern cs

/-- The token `authMiddleware` reads: `(req.headers.authorization ||
"").replace("Bearer ", "")`. -/
def bearerToken (authorization : Option String) : String :=
  String.mk (removeFirst "Bearer ".toList (authorization.getD "").toList)

/-- What a middleware does with a request: it responds, or it calls `next()`
with `req.user` set. -/
inductive Passed where
  | replied (r : Reply)
  | next (user : Json)

/-- `authMiddleware(req, res, next)`; `verify` is `jwt.verify` with the
server's secret, `none` when it throws. -/
def authMiddleware (verify : String → Option Json) (authorization : Option String) : Passed :=
  let token := bearerToken authorization
  if token = "" then .replied { status := 401, body := .obj [("error", .str "Unauthorized")] }
  else
    match verify token with
    | some payload => .next payload
    | none => .replied { status := 401, body := .obj [("error", .str "Invalid token")] }

/-- `PUT /api/crm-records` as mounted in `index.js`: `authMiddleware`, then the router. -/
def crmRecords_put (verify : String → Option Json) (authorization : Option String)
    (list : List ListItem) (body : Json) (readFault writeFault : Option HttpError) :
    Reply × List ListItem :=
  match authMiddleware verify authorization with
  | .replied r => (r, list)
  | .next _ => crmRouter_put list body readFault writeFault

/-- `GET /api/crm-records` as mounted in `index.js`: `authMiddleware`, then the router. -/
def crmRecords_get (verify : String → Option Json) (authorization : Option String)
    (list : List ListItem) (fault : Option HttpError) : Reply :=
  match authMiddleware verify authorization with
  | .replied r => r
  | .next _ => crmRouter_get list fault

/-- A verifier for the examples: it accepts the token `good`. -/
def sampleVerify (token : String) : Option Json :=
  if token = "good" then some (.obj [("email", .str "ada@acme.test")]) else none

/-- Specification side of the hydration: the pull failed (the fetch was
rejected, the status is not 2xx) or its result is not an array (a 204, whose
result is `null`, or a body that is not the JSON text of an array). -/
def Response.failedOrInvalid (r : Response) : Prop :=
  r = .rejected ∨
    ∃ status body, r = .http status body ∧
      (status < 200 ∨ 299 < status ∨ status = 204 ∨ ∀ items, body ≠ .json (.arr items))

/-- Specification side of the hydration: the pull succeeded with the array `items`. -/
def Response.delivers (r : Response) (items : List Json) : Prop :=
  ∃ status, r = .http status (.json (.arr items)) ∧ 200 ≤ status ∧ status ≤ 299 ∧ status ≠ 204

/-! ## Frame lemmas: what each operation leaves alone -/

section Frame

theorem fetchCrmApi_noToken (w : World) (path : String) (options : FetchOptions)
    (h : hasAuthToken w = false) :
    fetchCrmApi w path options = (.done (.ok .null), w) := by
  simp [fetchCrmApi, h]

theorem authHeaders_of_token (w : World) (h : hasAuthToken w = true) :
    ∃ token, authHeaders w = .ok token := by
  unfold hasAuthToken at h
  unfold authHeaders
  cases hT : w.localStorage.getItem AUTH_TOKEN_KEY with
  | none => simp [hT] at h
  | some t =>
    simp only [hT] at h
    exact ⟨t, by simp [h]⟩

theorem fetchCrmApi_token (w : World) (path : String) (options : FetchOptions)
    (h : hasAuthToken w = true) :
    ∃ token, fetchCrmApi w path options =
      (.awaiting w.requests.length,
        { w with requests := w.requests ++ [requestOf token path options] }) := by
  obtain ⟨token, hT⟩ := authHeaders_of_token w h
  exact ⟨token, by simp [fetchCrmApi, h, hT, requestOf]⟩

theorem syncRecordsToSharePoint_noToken (w : World) (records : Json)
    (h : hasAuthToken w = false) : syncRecordsToSharePoint w records = w := by
  simp [syncRecordsToSharePoint, h]

theorem syncRecordsToSharePoint_token (w : World) (records : Json)
    (h : hasAuthToken w = true) :
    ∃ token, syncRecordsToSharePoint w records =
      { w with
        requests := w.requests ++
          [requestOf token CRM_API_BASE { method := some "PUT", body := some (JSON.stringify records) }]
        pushes := w.pushes ++ [w.requests.length] } := by
  obtain ⟨token, hT⟩ := fetchCrmApi_token w CRM_API_BASE
    { method := some "PUT", body := some (JSON.stringify records) } h
  exact ⟨token, by simp [syncRecordsToSharePoint, h, hT]⟩

theorem syncRecordsToSharePoint_localStorage (w : World) (records : Json) :
    (syncRecordsToSharePoint w records).localStorage = w.localStorage := by
  cases h : hasAuthToken w with
  | false => rw [syncRecordsToSharePoint_noToken w records h]
  | true =>
    obtain ⟨token, hT⟩ := syncRecordsToSharePoint_token w records h
    rw [hT]

theorem syncRecordsToSharePoint_sessionStorage (w : World) (records : Json) :
    (syncRecordsToSharePoint w records).sessionStorage = w.sessionStorage := by
  cases h : hasAuthToken w with
  | false => rw [syncRecordsToSharePoint_noToken w records h]
  | true =>
    obtain ⟨token, hT⟩ := syncRecordsToSharePoint_token w records h
    rw [hT]

theorem syncRecordsToSharePoint_resume_localStorage (w : World) (request : Nat) (r : Response) :
    (syncRecordsToSharePoint_resume w request r).localStorage = w.localStorage := by
  unfold syncRecordsToSharePoint_resume
  split
  · split <;> rfl
  · rfl

theorem saveRecords_localStorage (w : World) (records : Json) :
    (saveRecords w records).localStorage =
      w.localStorage.setItem STORAGE_KEY (JSON.stringify records) := by
  unfold saveRecords
  rw [syncRecordsToSharePoint_localStorage]

theorem saveRecords_sessionStorage (w : World) (records : Json) :
    (saveRecords w records).sessionStorage = w.sessionStorage := by
  unfold saveRecords
  rw [syncRecordsToSharePoint_sessionStorage]

theorem loadRecords_of_array (w : World) (items : List Json)
    (h : w.localStorage STORAGE_KEY = some (.json (.arr items))) :
    loadRecords w = (.arr items, w) := by
  simp [loadRecords, Storage.getItem, h, JSON.parse, Json.truthy]

end Frame

/-! ## The local store -/

/-- C1: for every array of records, `loadRecords()` after `saveRecords(records)`
returns `records`, on every page state (with or without a credential, so the
push may be skipped), both while the push is still awaited and after any
response to it, a success or a failure, has been processed. -/
theorem saveRecords_loadRecords_roundtrip (w : World) (records : List Json) :
    (loadRecords (saveRecords w (.arr records))).1 = .arr records ∧
    ∀ (request : Nat) (r : Response),
      (loadRecords (syncRecordsToSharePoint_resume (saveRecords w (.arr records)) request r)).1
        = .arr records := by
  have hslot : (saveRecords w (.arr records)).localStorage STORAGE_KEY
      = some (.json (.arr records)) := by
    rw [saveRecords_localStorage]
    simp [Storage.setItem, JSON.stringify]
  refine ⟨by rw [loadRecords_of_array _ _ hslot], fun request r => ?_⟩
  rw [loadRecords_of_array _ records]
  rw [syncRecordsToSharePoint_resume_localStorage]
  exact hslot

/-- C10: when the persisted text is not valid JSON, `loadRecords()` returns the
empty array (it returns a value, it does not throw), logs the failure and
removes the persisted entry, and the next `loadRecords()` returns the empty
array again. -/
theorem loadRecords_corrupt_resets (w : World) (t : Text)
    (hslot : w.localStorage.getItem STORAGE_KEY = some t)
    (hbad : ∀ v, t ≠ Text.json v) :
    (loadRecords w).1 = .arr [] ∧
    (loadRecords w).2.localStorage.getItem STORAGE_KEY = none ∧
    (loadRecords w).2.console = w.console ++ ["Unable to parse CRM store, resetting."] ∧
    (loadRecords (loadRecords w).2).1 = .arr [] := by
  have hload : loadRecords w = (.arr [], { w with
      console := w.console ++ ["Unable to parse CRM store, resetting."]
      localStorage := w.localStorage.removeItem STORAGE_KEY }) := by
    cases t with
    | empty => simp [loadRecords, hslot, JSON.parse]
    | json v => exact absurd rfl (hbad v)
    | malformed tag => simp [loadRecords, hslot, JSON.parse]
  rw [hload]
  refine ⟨rfl, by simp [Storage.getItem, Storage.removeItem], rfl, ?_⟩
  simp [loadRecords, Storage.getItem, Storage.removeItem, JSON.parse, Json.truthy]

/-- Witness of C10: a store slot holding a text that is not JSON. -/
theorem loadRecords_corrupt_resets_witness :
    (loadRecords (World.holding (.malformed 7))).1 = .arr [] ∧
    (loadRecords (World.holding (.malformed 7))).2.localStorage.getItem STORAGE_KEY = none ∧
    (loadRecords (World.holding (.malformed 7))).2.console
      = (World.holding (.malformed 7)).console ++ ["Unable to parse CRM store, resetting."] ∧
    (loadRecords (loadRecords (World.holding (.malformed 7))).2).1 = .arr [] :=
  loadRecords_corrupt_resets (World.holding (.malformed 7)) (.malformed 7)
    (by simp [World.holding, Storage.getItem, Storage.setItem])
    (by intro v h; cases h)

/-! ## The navigation transfer buffer -/

theorem consumeNavigationTransfer_of_absent (w : World)
    (h : w.sessionStorage.getItem NAV_TRANSFER_KEY = none) :
    consumeNavigationTransfer w = w := by
  simp [consumeNavigationTransfer, h]

/-- C4: on every state of the transfer buffer and the local store, a second
`consumeNavigationTransfer()` right after the first leaves the whole page state
(local store, buffer, requests issued, pushes awaited, log) as the first call
left it, whatever the first payload was. -/
theorem consumeNavigationTransfer_twice (w : World) :
    consumeNavigationTransfer (consumeNavigationTransfer w) = consumeNavigationTransfer w := by
  cases hP : w.sessionStorage.getItem NAV_TRANSFER_KEY with
  | none => simp [consumeNavigationTransfer_of_absent w hP]
  | some payload =>
    cases hT : payload.truthy with
    | false =>
      have h1 : consumeNavigationTransfer w = w := by
        simp [consumeNavigationTransfer, hP, hT]
      rw [h1, h1]
    | true =>
      apply consumeNavigationTransfer_of_absent
      unfold consumeNavigationTransfer
      simp only [hP, hT, Bool.not_true, Bool.false_eq_true, if_false]
      split
      · split
        · rw [saveRecords_sessionStorage]
          simp [Storage.getItem, Storage.removeItem]
        · simp [Storage.getItem, Storage.removeItem]
      · simp [Storage.getItem, Storage.removeItem]

/-! ## The remote sync client without a credential -/

/-- C9: with no credential in the credential store (the entry is absent or
empty), `syncRecordsToSharePoint`, `fetchCrmApi` and
`hydrateRecordsFromSharePoint` leave the page state, and so the log of issued
requests, untouched and complete without an exception, for every argument. -/
theorem no_credential_no_request (w : World) (h : hasAuthToken w = false)
    (records : Json) (path : String) (options : FetchOptions) :
    syncRecordsToSharePoint w records = w ∧
    fetchCrmApi w path options = (.done (.ok .null), w) ∧
    hydrateRecordsFromSharePoint w = (.settled, w) ∧
    (syncRecordsToSharePoint w records).requests = w.requests ∧
    (fetchCrmApi w path options).2.requests = w.requests ∧
    (hydrateRecordsFromSharePoint w).2.requests = w.requests := by
  have h1 := syncRecordsToSharePoint_noToken w records h
  have h2 := fetchCrmApi_noToken w path options h
  have h3 : hydrateRecordsFromSharePoint w = (.settled, w) := by
    simp [hydrateRecordsFromSharePoint, h]
  exact ⟨h1, h2, h3, by rw [h1], by rw [h2], by rw [h3]⟩

/-- Witness of C9: the signed-out page, a push of one record and a pull. -/
theorem no_credential_no_request_witness :
    hasAuthToken World.empty = false ∧
    syncRecordsToSharePoint World.empty (.arr [.obj [("id", .num 1)]]) = World.empty ∧
    fetchCrmApi World.empty CRM_API_BASE { method := some "PUT", body := some .empty }
      = (.done (.ok .null), World.empty) ∧
    hydrateRecordsFromSharePoint World.empty = (.settled, World.empty) ∧
    (syncRecordsToSharePoint World.empty (.arr [.obj [("id", .num 1)]])).requests
      = World.empty.requests ∧
    (fetchCrmApi World.empty CRM_API_BASE
      { method := some "PUT", body := some .empty }).2.requests = World.empty.requests ∧
    (hydrateRecordsFromSharePoint World.empty).2.requests = World.empty.requests :=
  ⟨rfl, no_credential_no_request World.empty rfl _ _ _⟩

/-! ## The import handler -/

theorem setStatus_localStorage (w : World) (message tone : String) :
    (setStatus w message tone).localStorage = w.localStorage := by
  cases hEl : w.statusEl <;> simp [setStatus, hEl]

theorem importInput_try_rejects (w : World) (content : Text)
    (h : ∀ items, content ≠ .json (.arr items)) :
    ∃ err, importInput_try w content = .error err ∧ err.message ≠ "" := by
  cases content with
  | empty => exact ⟨.syntaxError, rfl, by decide⟩
  | malformed tag => exact ⟨.syntaxError, rfl, by decide⟩
  | json v =>
    cases v with
    | arr items => exact absurd rfl (h items)
    | null => exact ⟨.error "CRM file must be an array", rfl, by decide⟩
    | bool b => exact ⟨.error "CRM file must be an array", rfl, by decide⟩
    | num n => exact ⟨.error "CRM file must be an array", rfl, by decide⟩
    | frac q => exact ⟨.error "CRM file must be an array", rfl, by decide⟩
    | str s => exact ⟨.error "CRM file must be an array", rfl, by decide⟩
    | obj fields => exact ⟨.error "CRM file must be an array", rfl, by decide⟩

/-- C7: when the text of the import file does not parse, or parses to a value
that is not an array, the handler hands `setStatus` a message with tone
`error` (shown when the page has a status element) and does nothing else: the
local store, the log of issued requests and the awaited pushes are unchanged.
An array payload is written to the local store. -/
theorem import_rejects_non_array (w : World) (content : Text) :
    ((∀ items, content ≠ .json (.arr items)) →
      ∃ message,
        importInput_onload w content = setStatus w message "error" ∧
        (importInput_onload w content).localStorage = w.localStorage ∧
        (importInput_onload w content).requests = w.requests ∧
        (importInput_onload w content).pushes = w.pushes ∧
        (importInput_onload w content).reported
          = w.reported ++ [{ message := message, tone := "error" }] ∧
        (w.statusEl = true →
          (importInput_onload w content).status = some { message := message, tone := "error" })) ∧
    (∀ items, content = .json (.arr items) →
      (importInput_onload w content).localStorage.getItem STORAGE_KEY
        = some (.json (.arr items))) := by
  constructor
  · intro h
    obtain ⟨err, hE, hM⟩ := importInput_try_rejects w content h
    refine ⟨err.message, ?_⟩
    have hO : importInput_onload w content = setStatus w err.message "error" := by
      simp [importInput_onload, hE, hM]
    rw [hO]
    refine ⟨rfl, ?_, ?_, ?_, ?_, ?_⟩
    · exact setStatus_localStorage w _ _
    · cases hEl : w.statusEl <;> simp [setStatus, hEl]
    · cases hEl : w.statusEl <;> simp [setStatus, hEl]
    · cases hEl : w.statusEl <;> simp [setStatus, hEl]
    · intro hEl
      simp [setStatus, hEl]
  · intro items hC
    subst hC
    have hT : importInput_try w (.json (.arr items)) = .ok (notifyChange (setStatus
        (saveRecords w (.arr items))
        ("Imported " ++ toString items.length ++ " CRM record" ++
          (if items.length = 1 then "" else "s") ++ ".") "success")) := rfl
    simp only [importInput_onload, hT]
    show (setStatus _ _ _).localStorage.getItem STORAGE_KEY = _
    rw [setStatus_localStorage, saveRecords_localStorage]
    simp [Storage.getItem, Storage.setItem, JSON.stringify]

/-- Witness of C7: a file holding the JSON object `{"id": 1}`. -/
theorem import_rejects_non_array_witness :
    (∀ items, Text.json (.obj [("id", .num 1)]) ≠ .json (.arr items)) ∧
    ∃ message,
      importInput_onload World.empty (.json (.obj [("id", .num 1)]))
        = setStatus World.empty message "error" ∧
      (importInput_onload World.empty (.json (.obj [("id", .num 1)]))).localStorage
        = World.empty.localStorage ∧
      (importInput_onload World.empty (.json (.obj [("id", .num 1)]))).requests
        = World.empty.requests ∧
      (importInput_onload World.empty (.json (.obj [("id", .num 1)]))).pushes
        = World.empty.pushes ∧
      (importInput_onload World.empty (.json (.obj [("id", .num 1)]))).reported
        = World.empty.reported ++ [{ message := message, tone := "error" }] ∧
      (World.empty.statusEl = true →
        (importInput_onload World.empty (.json (.obj [("id", .num 1)]))).status
          = some { message := message, tone := "error" }) :=
  ⟨(by intro items h; cases h),
   And.left (import_rejects_non_array World.empty (.json (.obj [("id", .num 1)])))
     (by intro items h; cases h)⟩

/-! ## The remove handler -/

theorem Array.filter_of_total {α ε : Type} (keep : α → Except ε Bool) (p : α → Bool)
    (items : List α) (h : ∀ x ∈ items, keep x = .ok (p x)) :
    Array.filter keep items = .ok (items.filter p) := by
  induction items with
  | nil => rfl
  | cons x xs ih =>
    have hx := h x (List.mem_cons_self x xs)
    have hxs := ih (fun y hy => h y (List.mem_cons_of_mem x hy))
    simp only [Array.filter, hx, hxs, List.filter]
    cases p x <;> rfl

theorem strictNe_prop_id (record : Json) (id : JsNumber) (h : record ≠ .null) :
    (do return strictNe (← record.prop "id") id : Except JsError Bool)
      = .ok (!hasId record id) := by
  cases record with
  | null => exact absurd rfl h
  | obj fields =>
    cases id with
    | nan =>
      simp only [Json.prop, hasId]
      cases hL : fields.lookup "id" with
      | none => rfl
      | some v => cases v <;> rfl
    | int m =>
      simp only [Json.prop, hasId]
      cases hL : fields.lookup "id" with
      | none => rfl
      | some v =>
        cases v <;> rfl
  | bool b => cases id <;> rfl
  | num n => cases id <;> rfl
  | frac q => cases id <;> rfl
  | str s => cases id <;> rfl
  | arr items => cases id <;> rfl

/-- C8: on a store whose collection is `items` (records, so no element is
`null`) and for every `id`, the remove handler completes without an exception
and leaves the local store holding `items` without the records whose id is
`id`, the others in their original order; when no record has that id the
collection read back is `items` itself. -/
theorem remove_filters_by_id (w : World) (id : JsNumber) (items : List Json)
    (hload : (loadRecords w).1 = .arr items) (hrec : ∀ r ∈ items, r ≠ Json.null) :
    ∃ w1, removeBtn_click w id = .ok w1 ∧
      w1.localStorage.getItem STORAGE_KEY
        = some (.json (.arr (items.filter (fun r => !hasId r id)))) ∧
      (loadRecords w1).1 = .arr (items.filter (fun r => !hasId r id)) ∧
      ((∀ r ∈ items, hasId r id = false) → (loadRecords w1).1 = .arr items) := by
  have hF := Array.filter_of_total
    (fun record => (do return strictNe (← record.prop "id") id : Except JsError Bool))
    (fun r => !hasId r id) items (fun x hx => strictNe_prop_id x id (hrec x hx))
  rcases hL : loadRecords w with ⟨v, w0⟩
  rw [hL] at hload
  simp only at hload
  subst hload
  have hslot : (notifyChange (saveRecords w0
      (.arr (items.filter (fun r => !hasId r id))))).localStorage.getItem STORAGE_KEY
      = some (.json (.arr (items.filter (fun r => !hasId r id)))) := by
    show (saveRecords w0 _).localStorage.getItem STORAGE_KEY = _
    rw [saveRecords_localStorage]
    simp [Storage.getItem, Storage.setItem, JSON.stringify]
  have hback := loadRecords_of_array _ _ hslot
  refine ⟨notifyChange (saveRecords w0 (.arr (items.filter (fun r => !hasId r id)))),
    ?_, hslot, by rw [hback], ?_⟩
  · simp only [removeBtn_click, hL]
    rw [hF]
    rfl
  · intro hAbsent
    rw [hback]
    have : items.filter (fun r => !hasId r id) = items := by
      rw [List.filter_eq_self]
      intro r hr
      simp [hAbsent r hr]
    simp [this]

/-- Witness of C8: two stored records, the remove button of the first. -/
theorem remove_filters_by_id_witness :
    (loadRecords (World.holding (.json (.arr
      [sampleRecord 1 "Prospect" "2024-01-01T00:00:00.000Z",
       sampleRecord 2 "Qualified" "2024-06-01T00:00:00.000Z"])))).1
      = .arr [sampleRecord 1 "Prospect" "2024-01-01T00:00:00.000Z",
          sampleRecord 2 "Qualified" "2024-06-01T00:00:00.000Z"] ∧
    (∀ r ∈ [sampleRecord 1 "Prospect" "2024-01-01T00:00:00.000Z",
        sampleRecord 2 "Qualified" "2024-06-01T00:00:00.000Z"], r ≠ Json.null) ∧
    ∃ w1, removeBtn_click (World.holding (.json (.arr
        [sampleRecord 1 "Prospect" "2024-01-01T00:00:00.000Z",
         sampleRecord 2 "Qualified" "2024-06-01T00:00:00.000Z"]))) (.int 1) = .ok w1 ∧
      w1.localStorage.getItem STORAGE_KEY
        = some (.json (.arr ([sampleRecord 1 "Prospect" "2024-01-01T00:00:00.000Z",
            sampleRecord 2 "Qualified" "2024-06-01T00:00:00.000Z"].filter
              (fun r => !hasId r (.int 1))))) ∧
      (loadRecords w1).1
        = .arr ([sampleRecord 1 "Prospect" "2024-01-01T00:00:00.000Z",
            sampleRecord 2 "Qualified" "2024-06-01T00:00:00.000Z"].filter
              (fun r => !hasId r (.int 1))) ∧
      ((∀ r ∈ [sampleRecord 1 "Prospect" "2024-01-01T00:00:00.000Z",
          sampleRecord 2 "Qualified" "2024-06-01T00:00:00.000Z"], hasId r (.int 1) = false) →
        (loadRecords w1).1
          = .arr [sampleRecord 1 "Prospect" "2024-01-01T00:00:00.000Z",
              sampleRecord 2 "Qualified" "2024-06-01T00:00:00.000Z"]) :=
  ⟨rfl, (by intro r hr h; subst h; simp [sampleRecord] at hr),
   remove_filters_by_id _ (.int 1) _ rfl
     (by intro r hr h; subst h; simp [sampleRecord] at hr)⟩

/-! ## The hydration coordinator -/

section Hydration

theorem syncRecordsToSharePoint_hydration (w : World) (records : Json) :
    (syncRecordsToSharePoint w records).hydration = w.hydration := by
  cases h : hasAuthToken w with
  | false => rw [syncRecordsToSharePoint_noToken w records h]
  | true =>
    obtain ⟨token, hT⟩ := syncRecordsToSharePoint_token w records h
    rw [hT]
    simp [World.hydration, World.pullsIssued, List.filter_append, Request.isPull, requestOf]

theorem saveRecords_hydration (w : World) (records : Json) :
    (saveRecords w records).hydration = w.hydration := by
  unfold saveRecords
  rw [syncRecordsToSharePoint_hydration]
  rfl

theorem syncRecordsToSharePoint_resume_hydration (w : World) (request : Nat) (r : Response) :
    (syncRecordsToSharePoint_resume w request r).hydration = w.hydration := by
  unfold syncRecordsToSharePoint_resume
  split
  · split <;> rfl
  · rfl

theorem loadRecords_hydration (w : World) : (loadRecords w).2.hydration = w.hydration := by
  unfold loadRecords
  split <;> rfl

theorem consumeNavigationTransfer_hydration (w : World) :
    (consumeNavigationTransfer w).hydration = w.hydration := by
  unfold consumeNavigationTransfer
  split
  · rfl
  · split
    · rfl
    · split
      · split
        · rw [saveRecords_hydration]; rfl
        · rfl
      · rfl

theorem setStatus_hydration (w : World) (message tone : String) :
    (setStatus w message tone).hydration = w.hydration := by
  cases hEl : w.statusEl <;> simp [setStatus, hEl, World.hydration, World.pullsIssued]

theorem importInput_try_ok (w w1 : World) (content : Text)
    (h : importInput_try w content = .ok w1) :
    ∃ items message, w1 = notifyChange (setStatus (saveRecords w (.arr items)) message "success") := by
  cases content with
  | empty => cases h
  | malformed tag => cases h
  | json v =>
    cases v with
    | arr items =>
      refine ⟨items, ("Imported " ++ toString items.length ++ " CRM record" ++
            (if items.length = 1 then "" else "s") ++ "."), ?_⟩
      have hT : importInput_try w (.json (.arr items)) = .ok (notifyChange (setStatus
          (saveRecords w (.arr items))
          ("Imported " ++ toString items.length ++ " CRM record" ++
            (if items.length = 1 then "" else "s") ++ ".") "success")) := rfl
      rw [hT] at h
      exact (Except.ok.inj h).symm
    | null => cases h
    | bool b => cases h
    | num n => cases h
    | frac q => cases h
    | str s => cases h
    | obj fields => cases h

theorem importInput_onload_hydration (w : World) (content : Text) :
    (importInput_onload w content).hydration = w.hydration := by
  unfold importInput_onload
  split
  · rename_i w1 hT
    obtain ⟨items, message, rfl⟩ := importInput_try_ok w w1 content hT
    show (setStatus _ _ _).hydration = _
    rw [setStatus_hydration, saveRecords_hydration]
  · exact setStatus_hydration w _ _

theorem removeBtn_click_hydration (w w1 : World) (id : JsNumber)
    (h : removeBtn_click w id = .ok w1) : w1.hydration = w.hydration := by
  unfold removeBtn_click at h
  split at h
  · rename_i items w0 hL
    cases hF : Array.filter
        (fun record => (do return strictNe (← record.prop "id") id : Except JsError Bool)) items with
    | error e => rw [hF] at h; cases h
    | ok records =>
      rw [hF] at h
      have hw : w1 = notifyChange (saveRecords w0 (.arr records)) := (Except.ok.inj h).symm
      have h0 : w0.hydration = w.hydration := by
        have := loadRecords_hydration w
        rw [hL] at this
        exact this
      rw [hw, ← h0]
      show (saveRecords w0 _).hydration = _
      rw [saveRecords_hydration]
  · cases h

theorem updateRecord_hydration (w : World) (now : String) (id : JsNumber)
    (updates : List (String × Json)) (r : Bool × World)
    (h : updateRecord w now id updates = .ok r) : r.2.hydration = w.hydration := by
  unfold updateRecord at h
  split at h
  · rename_i items w0 hL
    have h0 : w0.hydration = w.hydration := by
      have := loadRecords_hydration w
      rw [hL] at this
      exact this
    have hS : ∀ records, (notifyChange (saveRecords w0 records)).hydration = w.hydration := by
      intro records
      show (saveRecords w0 records).hydration = _
      rw [saveRecords_hydration, h0]
    cases hF : Array.find
        (fun item => (do return !strictNe (← item.prop "id") id : Except JsError Bool)) items with
    | error e => rw [hF] at h; cases h
    | ok found =>
      rw [hF] at h
      cases found with
      | none =>
        have hr : r = (false, w0) := (Except.ok.inj h).symm
        rw [hr]; exact h0
      | some i =>
        simp only [bind, Except.bind] at h
        split at h
        · have hr := (Except.ok.inj h).symm
          rw [hr]; exact hS _
        · have hr := (Except.ok.inj h).symm
          rw [hr]; exact hS _
  · cases h

theorem stageSelect_change_hydration (w w1 : World) (now : String) (id : JsNumber)
    (value : String) (h : stageSelect_change w now id value = .ok w1) :
    w1.hydration = w.hydration := by
  unfold stageSelect_change at h
  split at h
  · rename_i items w0 hL
    have h0 : w0.hydration = w.hydration := by
      have := loadRecords_hydration w
      rw [hL] at this
      exact this
    have hS : ∀ records, (notifyChange (saveRecords w0 records)).hydration = w.hydration := by
      intro records
      show (saveRecords w0 records).hydration = _
      rw [saveRecords_hydration, h0]
    cases hF : Array.find
        (fun item => (do return !strictNe (← item.prop "id") id : Except JsError Bool)) items with
    | error e => rw [hF] at h; cases h
    | ok found =>
      rw [hF] at h
      cases found with
      | none =>
        have hr : w1 = w0 := (Except.ok.inj h).symm
        rw [hr]; exact h0
      | some i =>
        simp only [bind, Except.bind] at h
        split at h
        · have hr := (Except.ok.inj h).symm
          rw [hr]; exact hS _
        · have hr := (Except.ok.inj h).symm
          rw [hr]; exact hS _
  · cases h

theorem processSubmission_hydration (H : FormHost) (w w1 : World) (form : QuoteForm)
    (clock : Clock) (h : processSubmission H w form clock = .ok w1) :
    w1.hydration = w.hydration := by
  unfold processSubmission at h
  split at h
  · rw [← Except.ok.inj h]; exact setStatus_hydration w _ _
  · split at h
    · rw [← Except.ok.inj h]; exact setStatus_hydration w _ _
    · split at h
      · rename_i items w0 hL
        have h0 : w0.hydration = w.hydration := by
          have := loadRecords_hydration w
          rw [hL] at this
          exact this
        rw [← Except.ok.inj h]
        show (setStatus _ _ _).hydration = _
        rw [setStatus_hydration, saveRecords_hydration, h0]
      · cases h

theorem hydrate_started (w : World) (hT : hasAuthToken w = true) (hM : w.hydratePromise = none) :
    ∃ token, hydrateRecordsFromSharePoint w =
      (.pending w.requests.length,
        { w with
          requests := w.requests ++
            [requestOf token CRM_API_BASE { method := none, body := none }]
          hydratePromise := some w.requests.length
          pulls := w.pulls ++ [w.requests.length] }) := by
  obtain ⟨token, hF⟩ := fetchCrmApi_token w CRM_API_BASE { method := none, body := none } hT
  exact ⟨token, by simp [hydrateRecordsFromSharePoint, hT, hM, hF]⟩

theorem hydrate_joined (w : World) (hM : w.hydratePromise.isSome = true) :
    hydrateRecordsFromSharePoint w = (.settled, w) := by
  simp [hydrateRecordsFromSharePoint, hM]

theorem hydrateBody_hydration (w : World) (result : Except JsError Json) :
    (hydrateBody w result).pulls = w.pulls := by
  unfold hydrateBody
  split
  · split <;> rfl
  · rfl

theorem hydrate_coordinated (w : World) (h : w.coordinated) :
    (hydrateRecordsFromSharePoint w).2.coordinated := by
  cases hM : w.hydratePromise with
  | some request => rw [hydrate_joined w (by simp [hM])]; exact h
  | none =>
    cases hT : hasAuthToken w with
    | false =>
      have : hydrateRecordsFromSharePoint w = (.settled, w) := by
        simp [hydrateRecordsFromSharePoint, hT]
      rw [this]; exact h
    | true =>
      obtain ⟨token, hS⟩ := hydrate_started w hT hM
      rw [hS]
      have hP := h.2 hM
      constructor
      · simp [hP]
      · intro hN
        simp at hN

theorem hydrate_resume_coordinated (w : World) (request : Nat) (r : Response)
    (h : w.coordinated) : (hydrateRecordsFromSharePoint_resume w request r).coordinated := by
  unfold hydrateRecordsFromSharePoint_resume
  split
  · rename_i hIn
    have hE : w.pulls.erase request = [] := by
      have hlen := h.1
      match hP : w.pulls, hIn, hlen with
      | [x], hIn, _ =>
        have hx : request = x := by simpa using hIn
        subst hx
        simp
      | _ :: _ :: _, _, hlen => simp at hlen
    constructor
    · show (hydrateBody _ _).pulls.length ≤ 1
      rw [hydrateBody_hydration]
      simp [hE]
    · intro _
      show (hydrateBody _ _).pulls = []
      rw [hydrateBody_hydration]
      exact hE
  · exact h

theorem coordinated_of_hydration (w w1 : World) (h : w.coordinated)
    (hEq : w1.hydration = w.hydration) : w1.coordinated := by
  have h1 : w1.hydratePromise = w.hydratePromise := congrArg Prod.fst hEq
  have h2 : w1.pulls = w.pulls := congrArg (fun t => t.2.1) hEq
  unfold World.coordinated
  rw [h1, h2]
  exact h

theorem step_coordinated (w : World) (e : Event) (h : w.coordinated) :
    (step w e).coordinated := by
  cases e with
  | hydrate => exact hydrate_coordinated w h
  | pullResponse request r => exact hydrate_resume_coordinated w request r h
  | pushResponse request r =>
    exact coordinated_of_hydration w _ h (syncRecordsToSharePoint_resume_hydration w request r)
  | save records => exact coordinated_of_hydration w _ h (saveRecords_hydration w records)
  | load => exact coordinated_of_hydration w _ h (loadRecords_hydration w)
  | consume => exact coordinated_of_hydration w _ h (consumeNavigationTransfer_hydration w)
  | navigate => exact coordinated_of_hydration w _ h (loadRecords_hydration w)
  | importFile content =>
    exact coordinated_of_hydration w _ h (importInput_onload_hydration w content)
  | remove id =>
    show (match removeBtn_click w id with | .ok w1 => w1 | .error _ => w).coordinated
    split
    · rename_i w1 hR
      exact coordinated_of_hydration w _ h (removeBtn_click_hydration w w1 id hR)
    · exact h
  | update now id updates =>
    show (match updateRecord w now id updates with | .ok r => r.2 | .error _ => w).coordinated
    split
    · rename_i r hR
      exact coordinated_of_hydration w _ h (updateRecord_hydration w now id updates r hR)
    · exact h
  | stageChange now id value =>
    show (match stageSelect_change w now id value with
      | .ok w1 => w1 | .error _ => w).coordinated
    split
    · rename_i w1 hR
      exact coordinated_of_hydration w _ h (stageSelect_change_hydration w w1 now id value hR)
    · exact h
  | submit H form clock =>
    show (match processSubmission H w form clock with
      | .ok w1 => w1 | .error _ => w).coordinated
    split
    · rename_i w1 hR
      exact coordinated_of_hydration w _ h (processSubmission_hydration H w w1 form clock hR)
    · exact h
  | setToken token => exact coordinated_of_hydration w _ h rfl

theorem step_hydration_of_marked (w : World) (e : Event)
    (hM : w.hydratePromise.isSome = true) (he : e.isPullResponse = false) :
    (step w e).hydration = w.hydration := by
  cases e with
  | hydrate =>
    show (hydrateRecordsFromSharePoint w).2.hydration = _
    rw [hydrate_joined w hM]
  | pullResponse request r => cases he
  | pushResponse request r => exact syncRecordsToSharePoint_resume_hydration w request r
  | save records => exact saveRecords_hydration w records
  | load => exact loadRecords_hydration w
  | consume => exact consumeNavigationTransfer_hydration w
  | navigate => exact loadRecords_hydration w
  | importFile content => exact importInput_onload_hydration w content
  | remove id =>
    show (match removeBtn_click w id with | .ok w1 => w1 | .error _ => w).hydration = _
    split
    · rename_i w1 hR
      exact removeBtn_click_hydration w w1 id hR
    · rfl
  | update now id updates =>
    show (match updateRecord w now id updates with
      | .ok r => r.2 | .error _ => w).hydration = _
    split
    · rename_i r hR
      exact updateRecord_hydration w now id updates r hR
    · rfl
  | stageChange now id value =>
    show (match stageSelect_change w now id value with
      | .ok w1 => w1 | .error _ => w).hydration = _
    split
    · rename_i w1 hR
      exact stageSelect_change_hydration w w1 now id value hR
    · rfl
  | submit H form clock =>
    show (match processSubmission H w form clock with
      | .ok w1 => w1 | .error _ => w).hydration = _
    split
    · rename_i w1 hR
      exact processSubmission_hydration H w w1 form clock hR
    · rfl
  | setToken token => rfl

theorem run_hydration_of_marked (events : List Event) (w : World)
    (hM : w.hydratePromise.isSome = true) (he : ∀ e ∈ events, e.isPullResponse = false) :
    (run w events).hydration = w.hydration := by
  induction events generalizing w with
  | nil => rfl
  | cons e es ih =>
    have hstep := step_hydration_of_marked w e hM (he e (List.mem_cons_self e es))
    have hM1 : (step w e).hydratePromise.isSome = true := by
      have : (step w e).hydratePromise = w.hydratePromise := congrArg Prod.fst hstep
      rw [this]; exact hM
    show (run (step w e) es).hydration = _
    rw [ih (step w e) hM1 (fun x hx => he x (List.mem_cons_of_mem e hx)), hstep]

theorem run_coordinated (events : List Event) (w : World) (h : w.coordinated) :
    (run w events).coordinated := by
  induction events generalizing w with
  | nil => exact h
  | cons e es ih => exact ih (step w e) (step_coordinated w e h)

theorem run_hydrate_joined (n : Nat) (w : World) (hM : w.hydratePromise.isSome = true) :
    run w (List.replicate n Event.hydrate) = w := by
  induction n with
  | zero => rfl
  | succ k ih =>
    show run (step w Event.hydrate) (List.replicate k Event.hydrate) = w
    have : step w Event.hydrate = w := by
      show (hydrateRecordsFromSharePoint w).2 = w
      rw [hydrate_joined w hM]
    rw [this, ih]

end Hydration

/-- C5: with a credential present and no hydration in flight, a call of
`hydrateRecordsFromSharePoint()` followed by any further calls of it, and any
other calls and user actions, made before the pull's response arrives, hands
exactly one pull to `fetch`, and that pull stays the only one in flight; and in
every state reachable from a freshly loaded page, through any sequence of
calls, user actions, responses and credential changes, at most one pull is in
flight. -/
theorem hydrate_at_most_one_pull :
    (∀ (w : World) (events : List Event), hasAuthToken w = true → w.hydratePromise = none →
      (∀ e ∈ events, e.isPullResponse = false) →
      (run w (Event.hydrate :: events)).pullsIssued = w.pullsIssued + 1 ∧
      (run w (Event.hydrate :: events)).pulls = w.pulls ++ [w.requests.length] ∧
      (run w (Event.hydrate :: events)).hydratePromise = some w.requests.length) ∧
    (∀ (w : World) (events : List Event), w.fresh → (run w events).pulls.length ≤ 1) := by
  constructor
  · intro w events hT hM hE
    obtain ⟨token, hS⟩ := hydrate_started w hT hM
    have hStep : step w Event.hydrate = (hydrateRecordsFromSharePoint w).2 := rfl
    have hMarked : (step w Event.hydrate).hydratePromise.isSome = true := by
      rw [hStep, hS]; rfl
    have hRun := run_hydration_of_marked events (step w Event.hydrate) hMarked hE
    have hStart : (step w Event.hydrate).hydration
        = (some w.requests.length, w.pulls ++ [w.requests.length], w.pullsIssued + 1) := by
      rw [hStep, hS]
      simp [World.hydration, World.pullsIssued, List.filter_append, Request.isPull, requestOf]
    have hAll : (run w (Event.hydrate :: events)).hydration
        = (some w.requests.length, w.pulls ++ [w.requests.length], w.pullsIssued + 1) := by
      show (run (step w Event.hydrate) events).hydration = _
      rw [hRun, hStart]
    exact ⟨congrArg (fun t => t.2.2) hAll, congrArg (fun t => t.2.1) hAll,
      congrArg Prod.fst hAll⟩
  · intro w events hF
    have h0 : w.coordinated := by
      obtain ⟨_, hP, _, _⟩ := hF
      constructor
      · simp [hP]
      · intro _; exact hP
    exact (run_coordinated events w h0).1

/-- Witness of C5: the signed-in page with a call, a save, and two more calls;
and the same page with two calls, the response and a third call. -/
theorem hydrate_at_most_one_pull_witness :
    (hasAuthToken World.signedIn = true ∧ World.signedIn.hydratePromise = none ∧
      (∀ e ∈ [Event.save (.arr []), Event.hydrate, Event.hydrate], e.isPullResponse = false) ∧
      (run World.signedIn (Event.hydrate :: [Event.save (.arr []), Event.hydrate,
        Event.hydrate])).pullsIssued = World.signedIn.pullsIssued + 1 ∧
      (run World.signedIn (Event.hydrate :: [Event.save (.arr []), Event.hydrate,
        Event.hydrate])).pulls = World.signedIn.pulls ++ [World.signedIn.requests.length] ∧
      (run World.signedIn (Event.hydrate :: [Event.save (.arr []), Event.hydrate,
        Event.hydrate])).hydratePromise = some World.signedIn.requests.length) ∧
    (World.signedIn.fresh ∧
      (run World.signedIn [.hydrate, .hydrate, .pullResponse 0 (.http 200 (.json (.arr []))),
        .hydrate]).pulls.length ≤ 1) :=
  have hE : ∀ e ∈ [Event.save (.arr []), Event.hydrate, Event.hydrate],
      e.isPullResponse = false := by
    intro e he
    simp only [List.mem_cons, List.mem_singleton, List.not_mem_nil, or_false] at he
    rcases he with rfl | rfl | rfl <;> rfl
  ⟨⟨rfl, rfl, hE, hydrate_at_most_one_pull.1 World.signedIn _ rfl rfl hE⟩,
   ⟨⟨rfl, rfl, rfl, rfl⟩, hydrate_at_most_one_pull.2 World.signedIn _ ⟨rfl, rfl, rfl, rfl⟩⟩⟩

/-- Counterexample to C6 as stated: on the signed-in page the first call starts
the pull and returns a handle that settles with it, the second call, made
while that pull is in flight, returns a different handle, one that is already
settled. -/
theorem hydrate_second_handle_differs :
    (hydrateRecordsFromSharePoint World.signedIn).1 = .pending 0 ∧
    (hydrateRecordsFromSharePoint World.signedIn).2.hydratePromise = some 0 ∧
    (hydrateRecordsFromSharePoint World.signedIn).2.pulls = [0] ∧
    (hydrateRecordsFromSharePoint (hydrateRecordsFromSharePoint World.signedIn).2).1
      = .settled ∧
    (hydrateRecordsFromSharePoint (hydrateRecordsFromSharePoint World.signedIn).2).1
      ≠ (hydrateRecordsFromSharePoint World.signedIn).1 :=
  ⟨rfl, rfl, rfl, rfl, by decide⟩

/-- C6, amended: a call of `hydrateRecordsFromSharePoint()` made while a
hydration is in flight changes nothing (no second request) and returns a
handle that is already settled, so it does not wait for the pull; the call
that starts the pull is the one whose handle settles when that pull completes. -/
theorem hydrate_while_in_flight (w : World) :
    (∀ request, w.hydratePromise = some request →
      hydrateRecordsFromSharePoint w = (.settled, w)) ∧
    (hasAuthToken w = true → w.hydratePromise = none →
      (hydrateRecordsFromSharePoint w).1 = .pending w.requests.length ∧
      (hydrateRecordsFromSharePoint w).2.hydratePromise = some w.requests.length ∧
      (hydrateRecordsFromSharePoint w).2.pulls = w.pulls ++ [w.requests.length]) := by
  constructor
  · intro request hM
    exact hydrate_joined w (by simp [hM])
  · intro hT hM
    obtain ⟨token, hS⟩ := hydrate_started w hT hM
    rw [hS]
    exact ⟨rfl, rfl, rfl⟩

/-- Witness of C6 amended: the signed-in page after its first call, and the
signed-in page itself. -/
theorem hydrate_while_in_flight_witness :
    ((hydrateRecordsFromSharePoint World.signedIn).2.hydratePromise = some 0 ∧
      hydrateRecordsFromSharePoint (hydrateRecordsFromSharePoint World.signedIn).2
        = (.settled, (hydrateRecordsFromSharePoint World.signedIn).2)) ∧
    (hasAuthToken World.signedIn = true ∧ World.signedIn.hydratePromise = none ∧
      (hydrateRecordsFromSharePoint World.signedIn).1 = .pending World.signedIn.requests.length) :=
  ⟨⟨rfl, (hydrate_while_in_flight (hydrateRecordsFromSharePoint World.signedIn).2).1 0 rfl⟩,
   ⟨rfl, rfl, ((hydrate_while_in_flight World.signedIn).2 rfl rfl).1⟩⟩

/-! ## The ordering of the views -/

section Ordering

theorem compareRecords_of_records (E : Host) (a b : Json) (ha : a ≠ .null) (hb : b ≠ .null) :
    compareRecords E a b = .ok (compareValue E a b) := by
  have hpa : ∀ key, a.prop key = .ok (a.get key) := by
    intro key
    cases a <;> first | exact absurd rfl ha | rfl
  have hpb : ∀ key, b.prop key = .ok (b.get key) := by
    intro key
    cases b <;> first | exact absurd rfl hb | rfl
  unfold compareRecords compareValue stageIndex whenOf
  simp only [hpa, hpb]
  show (if _ then _ else _) = _
  split <;> rfl

theorem insertSorted_of_total {α ε : Type} (cmp : α → α → Except ε (Option Int))
    (c : α → α → Option Int) (x : α) (l : List α) (h : ∀ y ∈ l, cmp x y = .ok (c x y)) :
    insertSorted cmp x l
      = .ok (List.orderedInsert (fun a b => sortCompare (c a b) ≤ 0) x l) := by
  induction l with
  | nil => rfl
  | cons y ys ih =>
    have hy := h y (List.mem_cons_self y ys)
    have hys := ih (fun z hz => h z (List.mem_cons_of_mem y hz))
    simp only [insertSorted, hy, hys, List.orderedInsert]
    show (if _ then _ else _) = _
    split <;> rfl

theorem Array.sort_of_total {α ε : Type} (cmp : α → α → Except ε (Option Int))
    (c : α → α → Option Int) (l : List α)
    (h : ∀ x ∈ l, ∀ y ∈ l, cmp x y = .ok (c x y)) :
    Array.sort cmp l = .ok (List.insertionSort (fun a b => sortCompare (c a b) ≤ 0) l) := by
  induction l with
  | nil => rfl
  | cons x xs ih =>
    have hxs := ih (fun a ha b hb =>
      h a (List.mem_cons_of_mem x ha) b (List.mem_cons_of_mem x hb))
    have hIns := insertSorted_of_total cmp c x
      (List.insertionSort (fun a b => sortCompare (c a b) ≤ 0) xs)
      (fun y hy => h x (List.mem_cons_self x xs) y
        (List.mem_cons_of_mem x ((List.mem_insertionSort _).1 hy)))
    simp only [Array.sort, hxs, List.insertionSort]
    exact hIns

theorem pairwise_orderedInsert {α : Type} (r : α → α → Prop) [DecidableRel r]
    (R : α → α → Prop) (P : α → Prop)
    (hyes : ∀ x y, P x → P y → r x y → R x y)
    (hno : ∀ x y, P x → P y → ¬ r x y → R y x)
    (htrans : ∀ x y z, P x → P y → P z → R x y → R y z → R x z)
    (x : α) (hx : P x) (l : List α) (hP : ∀ y ∈ l, P y) (hl : l.Pairwise R) :
    (List.orderedInsert r x l).Pairwise R := by
  induction l with
  | nil => simp
  | cons y ys ih =>
    have hy := hP y (List.mem_cons_self y ys)
    have hys : ∀ z ∈ ys, P z := fun z hz => hP z (List.mem_cons_of_mem y hz)
    rw [List.pairwise_cons] at hl
    simp only [List.orderedInsert]
    split
    · rename_i hr
      have hxy := hyes x y hx hy hr
      rw [List.pairwise_cons]
      refine ⟨?_, List.pairwise_cons.2 hl⟩
      intro z hz
      rcases List.mem_cons.1 hz with rfl | hz
      · exact hxy
      · exact htrans x y z hx hy (hys z hz) hxy (hl.1 z hz)
    · rename_i hr
      rw [List.pairwise_cons]
      refine ⟨?_, ih hys hl.2⟩
      intro z hz
      rcases (List.mem_orderedInsert r).1 hz with rfl | hz
      · exact hno z y hx hy hr
      · exact hl.1 z hz

theorem pairwise_insertionSort {α : Type} (r : α → α → Prop) [DecidableRel r]
    (R : α → α → Prop) (P : α → Prop)
    (hyes : ∀ x y, P x → P y → r x y → R x y)
    (hno : ∀ x y, P x → P y → ¬ r x y → R y x)
    (htrans : ∀ x y z, P x → P y → P z → R x y → R y z → R x z)
    (l : List α) (hP : ∀ y ∈ l, P y) : (List.insertionSort r l).Pairwise R := by
  induction l with
  | nil => simp
  | cons x xs ih =>
    have hxs : ∀ z ∈ xs, P z := fun z hz => hP z (List.mem_cons_of_mem x hz)
    simp only [List.insertionSort]
    exact pairwise_orderedInsert r R P hyes hno htrans x (hP x (List.mem_cons_self x xs)) _
      (fun y hy => hxs y ((List.mem_insertionSort r).1 hy)) (ih hxs)

theorem getSortedRecords_of_records (E : Host) (w : World) (items : List Json)
    (hload : (loadRecords w).1 = .arr items) (hrec : ∀ r ∈ items, r ≠ Json.null) :
    (getSortedRecords E w).1
      = .ok (.arr (List.insertionSort (fun a b => sortCompare (compareValue E a b) ≤ 0) items)) := by
  rcases hL : loadRecords w with ⟨v, w0⟩
  rw [hL] at hload
  simp only at hload
  subst hload
  simp only [getSortedRecords, hL]
  rw [Array.sort_of_total (compareRecords E) (compareValue E) items
    (fun a ha b hb => compareRecords_of_records E a b (hrec a ha) (hrec b hb))]
  rfl

theorem stageIndex_of_known (r : Json) (s : String) (hs : s ∈ STAGE_ORDER)
    (h : r.prop "stage" = .ok (some (.str s))) :
    r ≠ Json.null ∧ stageIndex r = (stagePosition r : Int) := by
  cases r with
  | null => cases h
  | obj fields =>
    have hg : fields.lookup "stage" = some (.str s) := by
      simpa [Json.prop] using h
    refine ⟨(by intro hn; cases hn), ?_⟩
    simp [stageIndex, stagePosition, Json.get, hg, indexOf, hs]
  | bool b => simp [Json.prop] at h
  | num n => simp [Json.prop] at h
  | frac q => simp [Json.prop] at h
  | str t => simp [Json.prop] at h
  | arr l => simp [Json.prop] at h

end Ordering

/-! ## The engine's sort -/

section Engines

theorem Engine.insertion_conforms : Engine.insertion.Conforms := by
  intro cmp c l htotal
  refine ⟨_, Array.sort_of_total cmp c l htotal, List.perm_insertionSort _ l, ?_⟩
  intro β _ key hkey
  exact pairwise_insertionSort (fun a b => sortCompare (c a b) ≤ 0)
    (fun a b => key a ≤ key b) (fun x => x ∈ l)
    (fun x y hx hy h => by
      by_contra hlt
      have := (hkey y hy x hx (not_le.1 hlt)).2
      omega)
    (fun x y hx hy h => by
      by_contra hlt
      exact h (le_of_lt (hkey x hx y hy (not_le.1 hlt)).1))
    (fun x y z _ _ _ hxy hyz => le_trans hxy hyz) l (fun _ h => h)

theorem extendRun_spec {β : Type} [LinearOrder β]
    (cmp : Json → Json → Except JsError (Option Int)) (c : Json → Json → Option Int)
    (key : Json → β) (L : List Json)
    (htotal : ∀ x ∈ L, ∀ y ∈ L, cmp x y = .ok (c x y))
    (hkey : ∀ x ∈ L, ∀ y ∈ L, key x < key y →
      sortCompare (c x y) < 0 ∧ 0 < sortCompare (c y x))
    (descending : Bool) (previous : Json) (rest : List Json)
    (hprev : previous ∈ L) (hrest : ∀ x ∈ rest, x ∈ L) :
    ∃ n, extendRun cmp descending previous rest = .ok n ∧ n ≤ rest.length ∧
      List.Chain (fun a b => if descending = true then key b ≤ key a else key a ≤ key b)
        previous (rest.take n) := by
  induction rest generalizing previous with
  | nil => exact ⟨0, rfl, le_refl _, List.Chain.nil⟩
  | cons current rest ih =>
    have hcur := hrest current (List.mem_cons_self _ _)
    have hcmp := htotal current hcur previous hprev
    obtain ⟨n, hn, hlen, hchain⟩ :=
      ih current hcur (fun x hx => hrest x (List.mem_cons_of_mem _ hx))
    cases descending with
    | true =>
      by_cases hord : sortCompare (c current previous) ≥ 0
      · refine ⟨0, ?_, Nat.zero_le _, List.Chain.nil⟩
        simp only [extendRun, hcmp]
        show (if _ then _ else _) = _
        rw [if_pos hord]
        rfl
      · refine ⟨n + 1, ?_, Nat.succ_le_succ hlen, ?_⟩
        · simp only [extendRun, hcmp]
          show (if _ then _ else _) = _
          rw [if_neg hord, hn]
          rfl
        · rw [List.take_succ_cons]
          refine List.Chain.cons ?_ hchain
          rw [if_pos rfl]
          by_contra hlt
          have := (hkey previous hprev current hcur (not_le.1 hlt)).2
          omega
    | false =>
      by_cases hord : sortCompare (c current previous) < 0
      · refine ⟨0, ?_, Nat.zero_le _, List.Chain.nil⟩
        simp only [extendRun, hcmp]
        show (if _ then _ else _) = _
        rw [if_pos hord]
        rfl
      · refine ⟨n + 1, ?_, Nat.succ_le_succ hlen, ?_⟩
        · simp only [extendRun, hcmp]
          show (if _ then _ else _) = _
          rw [if_neg hord, hn]
          rfl
        · rw [List.take_succ_cons]
          refine List.Chain.cons ?_ hchain
          rw [if_neg (by decide)]
          by_contra hlt
          exact hord (hkey current hcur previous hprev (not_le.1 hlt)).1

theorem countAndMakeRun_spec {β : Type} [LinearOrder β]
    (cmp : Json → Json → Except JsError (Option Int)) (c : Json → Json → Option Int)
    (key : Json → β) (l : List Json)
    (htotal : ∀ x ∈ l, ∀ y ∈ l, cmp x y = .ok (c x y))
    (hkey : ∀ x ∈ l, ∀ y ∈ l, key x < key y →
      sortCompare (c x y) < 0 ∧ 0 < sortCompare (c y x)) :
    ∃ run rest, countAndMakeRun cmp l = .ok (run, rest) ∧ (run ++ rest).Perm l ∧
      run.Pairwise (fun a b => key a ≤ key b) := by
  match l, htotal, hkey with
  | [], _, _ => exact ⟨[], [], rfl, List.Perm.refl _, List.Pairwise.nil⟩
  | [x], _, _ => exact ⟨[x], [], rfl, List.Perm.refl _, List.pairwise_singleton _ x⟩
  | x :: y :: rest, htotal, hkey =>
    have hx : x ∈ x :: y :: rest := List.mem_cons_self _ _
    have hy : y ∈ x :: y :: rest := List.mem_cons_of_mem _ (List.mem_cons_self _ _)
    have hrest : ∀ z ∈ rest, z ∈ x :: y :: rest :=
      fun z hz => List.mem_cons_of_mem _ (List.mem_cons_of_mem _ hz)
    have hcmp := htotal y hy x hx
    obtain ⟨n, hn, _, hchain⟩ := extendRun_spec cmp c key (x :: y :: rest) htotal hkey
      (decide (sortCompare (c y x) < 0)) y rest hy hrest
    have hval : countAndMakeRun cmp (x :: y :: rest)
        = .ok (if decide (sortCompare (c y x) < 0) = true then (x :: y :: rest.take n).reverse
            else x :: y :: rest.take n, rest.drop n) := by
      simp only [countAndMakeRun, hcmp]
      show (do
        let more ← extendRun cmp (decide (sortCompare (c y x) < 0)) y rest
        pure (if decide (sortCompare (c y x) < 0) = true then (x :: y :: rest.take more).reverse
          else x :: y :: rest.take more, rest.drop more)) = _
      rw [hn]
      rfl
    have hsplit : (x :: y :: rest.take n) ++ rest.drop n = x :: y :: rest := by
      simp [List.take_append_drop]
    by_cases hord : sortCompare (c y x) < 0
    · have hd : decide (sortCompare (c y x) < 0) = true := decide_eq_true hord
      rw [hd] at hchain hval
      simp only [if_true] at hchain hval
      refine ⟨_, _, hval, ?_, ?_⟩
      · rw [← hsplit]
        exact List.Perm.append_right _ (List.reverse_perm _)
      · rw [List.pairwise_reverse]
        have hfirst : key y ≤ key x := by
          by_contra hlt
          have := (hkey x hx y hy (not_le.1 hlt)).2
          omega
        have hc : List.Chain (fun a b => key b ≤ key a) x (y :: rest.take n) :=
          List.Chain.cons hfirst hchain
        haveI : IsTrans Json (fun a b => key b ≤ key a) := ⟨fun _ _ _ h1 h2 => le_trans h2 h1⟩
        exact (List.chain_iff_pairwise.1 hc)
    · have hd : decide (sortCompare (c y x) < 0) = false := decide_eq_false hord
      rw [hd] at hchain hval
      simp only [Bool.false_eq_true, if_false] at hchain hval
      refine ⟨_, _, hval, ?_, ?_⟩
      · rw [hsplit]
      · have hfirst : key x ≤ key y := by
          by_contra hlt
          exact hord (hkey y hy x hx (not_le.1 hlt)).1
        have hc : List.Chain (fun a b => key a ≤ key b) x (y :: rest.take n) :=
          List.Chain.cons hfirst hchain
        haveI : IsTrans Json (fun a b => key a ≤ key b) := ⟨fun _ _ _ h1 h2 => le_trans h1 h2⟩
        exact (List.chain_iff_pairwise.1 hc)

theorem binaryInsert_spec {β : Type} [LinearOrder β]
    (cmp : Json → Json → Except JsError (Option Int)) (c : Json → Json → Option Int)
    (key : Json → β) (L : List Json)
    (htotal : ∀ x ∈ L, ∀ y ∈ L, cmp x y = .ok (c x y))
    (hkey : ∀ x ∈ L, ∀ y ∈ L, key x < key y →
      sortCompare (c x y) < 0 ∧ 0 < sortCompare (c y x))
    (pivot : Json) (hpivot : pivot ∈ L) (fuel : Nat) (window : List Json)
    (hsub : ∀ x ∈ window, x ∈ L) (hlen : window.length ≤ fuel)
    (hsorted : window.Pairwise (fun a b => key a ≤ key b)) :
    ∃ r, binaryInsert cmp pivot fuel window = .ok r ∧ r.Perm (pivot :: window) ∧
      r.Pairwise (fun a b => key a ≤ key b) := by
  induction fuel generalizing window with
  | zero =>
    have hnil : window = [] := List.eq_nil_of_length_eq_zero (Nat.le_zero.1 hlen)
    subst hnil
    exact ⟨[pivot], rfl, List.Perm.refl _, List.pairwise_singleton _ pivot⟩
  | succ fuel ih =>
    cases hdrop : window.drop (window.length / 2) with
    | nil =>
      have hle : window.length ≤ window.length / 2 := List.drop_eq_nil_iff.1 hdrop
      have hnil : window = [] := List.eq_nil_of_length_eq_zero (by omega)
      subst hnil
      exact ⟨[pivot], rfl, List.Perm.refl _, List.pairwise_singleton _ pivot⟩
    | cons middle after =>
      have hwin : window = window.take (window.length / 2) ++ middle :: after := by
        rw [← hdrop, List.take_append_drop]
      have hlenA : after.length + 1 = window.length - window.length / 2 := by
        have := congrArg List.length hdrop
        simpa [List.length_drop] using this.symm
      have hmid : middle ∈ L := hsub middle (by rw [hwin]; simp)
      have hbefore : ∀ x ∈ window.take (window.length / 2), x ∈ L :=
        fun x hx => hsub x (List.mem_of_mem_take hx)
      have hafter : ∀ x ∈ after, x ∈ L :=
        fun x hx => hsub x (by rw [hwin]; simp [hx])
      have hcmp := htotal pivot hpivot middle hmid
      rw [hwin] at hsorted
      obtain ⟨hsB, hsA, hBA⟩ := List.pairwise_append.1 hsorted
      rw [List.pairwise_cons] at hsA
      have hstep : binaryInsert cmp pivot (fuel + 1) window
          = if sortCompare (c pivot middle) < 0 then
              (binaryInsert cmp pivot fuel (window.take (window.length / 2))).map
                (fun r => r ++ middle :: after)
            else (binaryInsert cmp pivot fuel after).map
                (fun r => window.take (window.length / 2) ++ middle :: r) := by
        simp only [binaryInsert, hdrop, hcmp]
        show (if _ then _ else _) = _
        split
        · cases binaryInsert cmp pivot fuel (window.take (window.length / 2)) <;> rfl
        · cases binaryInsert cmp pivot fuel after <;> rfl
      by_cases hord : sortCompare (c pivot middle) < 0
      · have hpm : key pivot ≤ key middle := by
          by_contra hlt
          have := (hkey middle hmid pivot hpivot (not_le.1 hlt)).2
          omega
        obtain ⟨r, hr, hperm, hrs⟩ := ih (window.take (window.length / 2)) hbefore
          (by rw [List.length_take]; omega) hsB
        refine ⟨r ++ middle :: after, by rw [hstep, if_pos hord, hr]; rfl, ?_, ?_⟩
        · have h1 : (r ++ middle :: after).Perm
              ((pivot :: window.take (window.length / 2)) ++ middle :: after) :=
            List.Perm.append_right _ hperm
          rw [List.cons_append, ← hwin] at h1
          exact h1
        · refine List.pairwise_append.2 ⟨hrs, List.pairwise_cons.2 hsA, ?_⟩
          intro a ha b hb
          rcases List.mem_cons.1 (hperm.mem_iff.1 ha) with rfl | haB
          · rcases List.mem_cons.1 hb with rfl | hbA
            · exact hpm
            · exact le_trans hpm (hsA.1 b hbA)
          · exact hBA a haB b hb
      · have hmp : key middle ≤ key pivot := by
          by_contra hlt
          exact hord (hkey pivot hpivot middle hmid (not_le.1 hlt)).1
        obtain ⟨r, hr, hperm, hrs⟩ := ih after hafter (by omega) hsA.2
        refine ⟨window.take (window.length / 2) ++ middle :: r,
          by rw [hstep, if_neg hord, hr]; rfl, ?_, ?_⟩
        · have h1 : (window.take (window.length / 2) ++ middle :: r).Perm
              (window.take (window.length / 2) ++ middle :: pivot :: after) :=
            List.Perm.append_left _ (List.Perm.cons _ hperm)
          refine h1.trans ?_
          have h2 : (window.take (window.length / 2) ++ middle :: pivot :: after).Perm
              (pivot :: (window.take (window.length / 2) ++ middle :: after)) := by
            have h3 := @List.perm_middle _ pivot (window.take (window.length / 2) ++ [middle])
              after
            simpa [List.append_assoc] using h3
          rw [← hwin] at h2
          exact h2
        · refine List.pairwise_append.2 ⟨hsB, List.pairwise_cons.2 ⟨?_, hrs⟩, ?_⟩
          · intro b hb
            rcases List.mem_cons.1 (hperm.mem_iff.1 hb) with rfl | hbA
            · exact hmp
            · exact hsA.1 b hbA
          · intro a ha b hb
            have ham : key a ≤ key middle := hBA a ha middle (List.mem_cons_self _ _)
            rcases List.mem_cons.1 hb with rfl | hbr
            · exact ham
            · rcases List.mem_cons.1 (hperm.mem_iff.1 hbr) with rfl | hbA
              · exact le_trans ham hmp
              · exact hBA a ha b (List.mem_cons_of_mem _ hbA)

theorem binaryInsertionSort_spec {β : Type} [LinearOrder β]
    (cmp : Json → Json → Except JsError (Option Int)) (c : Json → Json → Option Int)
    (key : Json → β) (L : List Json)
    (htotal : ∀ x ∈ L, ∀ y ∈ L, cmp x y = .ok (c x y))
    (hkey : ∀ x ∈ L, ∀ y ∈ L, key x < key y →
      sortCompare (c x y) < 0 ∧ 0 < sortCompare (c y x))
    (rest sorted : List Json) (hrest : ∀ x ∈ rest, x ∈ L) (hsub : ∀ x ∈ sorted, x ∈ L)
    (hsorted : sorted.Pairwise (fun a b => key a ≤ key b)) :
    ∃ r, binaryInsertionSort cmp sorted rest = .ok r ∧ r.Perm (sorted ++ rest) ∧
      r.Pairwise (fun a b => key a ≤ key b) := by
  induction rest generalizing sorted with
  | nil => exact ⟨sorted, rfl, by simp, hsorted⟩
  | cons pivot rest ih =>
    have hpivot := hrest pivot (List.mem_cons_self _ _)
    obtain ⟨s1, hs1, hperm1, hsorted1⟩ := binaryInsert_spec cmp c key L htotal hkey pivot hpivot
      sorted.length sorted hsub (le_refl _) hsorted
    have hsub1 : ∀ x ∈ s1, x ∈ L := by
      intro x hx
      rcases List.mem_cons.1 (hperm1.mem_iff.1 hx) with rfl | hxs
      · exact hpivot
      · exact hsub x hxs
    obtain ⟨r, hr, hperm, hrs⟩ := ih s1 (fun x hx => hrest x (List.mem_cons_of_mem _ hx))
      hsub1 hsorted1
    refine ⟨r, by simp only [binaryInsertionSort, hs1]; exact hr, ?_, hrs⟩
    refine hperm.trans ((List.Perm.append_right _ hperm1).trans ?_)
    rw [List.cons_append]
    exact List.perm_middle.symm

theorem Engine.binaryInsertion_spec {β : Type} [LinearOrder β]
    (cmp : Json → Json → Except JsError (Option Int)) (c : Json → Json → Option Int)
    (key : Json → β) (l : List Json)
    (htotal : ∀ x ∈ l, ∀ y ∈ l, cmp x y = .ok (c x y))
    (hkey : ∀ x ∈ l, ∀ y ∈ l, key x < key y →
      sortCompare (c x y) < 0 ∧ 0 < sortCompare (c y x)) :
    ∃ r, Engine.binaryInsertion.sort cmp l = .ok r ∧ r.Perm l ∧
      r.Pairwise (fun a b => key a ≤ key b) := by
  obtain ⟨run, rest, hrun, hperm, hsorted⟩ := countAndMakeRun_spec cmp c key l htotal hkey
  obtain ⟨r, hr, hperm1, hrs⟩ := binaryInsertionSort_spec cmp c key l htotal hkey rest run
    (fun x hx => hperm.mem_iff.1 (List.mem_append_right _ hx))
    (fun x hx => hperm.mem_iff.1 (List.mem_append_left _ hx)) hsorted
  refine ⟨r, ?_, hperm1.trans hperm, hrs⟩
  show (do
    let (run, rest) ← countAndMakeRun cmp l
    binaryInsertionSort cmp run rest) = _
  rw [hrun]
  exact hr

theorem Engine.binaryInsertion_conforms : Engine.binaryInsertion.Conforms := by
  intro cmp c l htotal
  obtain ⟨r, hr, hperm, _⟩ := Engine.binaryInsertion_spec cmp c (fun _ => ()) l htotal
    (fun _ _ _ _ h => absurd h (lt_irrefl _))
  refine ⟨r, hr, hperm, ?_⟩
  intro β _ key hkey
  obtain ⟨r1, hr1, _, hrs⟩ := Engine.binaryInsertion_spec cmp c key l htotal hkey
  rw [hr] at hr1
  cases hr1
  exact hrs

theorem Engine.getSortedRecords_insertion (E : Host) (w : World) :
    Engine.insertion.getSortedRecords E w = Crm.getSortedRecords E w := rfl

theorem Engine.sorted_of_records (S : Engine) (hS : S.Conforms) (E : Host) (w : World)
    (items : List Json) (hload : (loadRecords w).1 = .arr items)
    (hrec : ∀ r ∈ items, r ≠ Json.null) :
    ∃ sorted, (S.getSortedRecords E w).1 = .ok (.arr sorted) ∧ sorted.Perm items ∧
      ∀ (β : Type) [LinearOrder β] (key : Json → β),
        (∀ x ∈ items, ∀ y ∈ items, key x < key y →
          sortCompare (compareValue E x y) < 0 ∧ 0 < sortCompare (compareValue E y x)) →
        sorted.Pairwise (fun a b => key a ≤ key b) := by
  rcases hL : loadRecords w with ⟨v, w0⟩
  rw [hL] at hload
  simp only at hload
  subst hload
  obtain ⟨sorted, hsort, hperm, hkeys⟩ := hS (compareRecords E) (compareValue E) items
    (fun a ha b hb => compareRecords_of_records E a b (hrec a ha) (hrec b hb))
  refine ⟨sorted, ?_, hperm, hkeys⟩
  simp only [Engine.getSortedRecords, hL, hsort]
  rfl

theorem compareValue_stage (E : Host) (x y : Json) (h : stageIndex x < stageIndex y) :
    sortCompare (compareValue E x y) < 0 ∧ 0 < sortCompare (compareValue E y x) := by
  have hxy : stageIndex x - stageIndex y ≠ 0 := by omega
  have hyx : stageIndex y - stageIndex x ≠ 0 := by omega
  simp only [compareValue, if_pos hxy, if_pos hyx, sortCompare, Option.getD_some]
  omega

/-- Two engines that conform and differ where the comparator returns `NaN`:
four Qualified records stamped January, June, a text the host cannot parse,
and June again come out as 2, 1, 3, 4 by insertion and as 2, 4, 1, 3 by run
detection and binary insertion. -/
theorem Engine.order_differs_on_invalid_stamp :
    (Engine.insertion.getSortedRecords sampleHost (World.holding (.json (.arr
      [sampleRecord 1 "Qualified" "2024-01-01T00:00:00.000Z",
       sampleRecord 2 "Qualified" "2024-06-01T00:00:00.000Z",
       sampleRecord 3 "Qualified" "soon",
       sampleRecord 4 "Qualified" "2024-06-01T00:00:00.000Z"])))).1
      = .ok (.arr
        [sampleRecord 2 "Qualified" "2024-06-01T00:00:00.000Z",
         sampleRecord 1 "Qualified" "2024-01-01T00:00:00.000Z",
         sampleRecord 3 "Qualified" "soon",
         sampleRecord 4 "Qualified" "2024-06-01T00:00:00.000Z"]) ∧
    (Engine.binaryInsertion.getSortedRecords sampleHost (World.holding (.json (.arr
      [sampleRecord 1 "Qualified" "2024-01-01T00:00:00.000Z",
       sampleRecord 2 "Qualified" "2024-06-01T00:00:00.000Z",
       sampleRecord 3 "Qualified" "soon",
       sampleRecord 4 "Qualified" "2024-06-01T00:00:00.000Z"])))).1
      = .ok (.arr
        [sampleRecord 2 "Qualified" "2024-06-01T00:00:00.000Z",
         sampleRecord 4 "Qualified" "2024-06-01T00:00:00.000Z",
         sampleRecord 1 "Qualified" "2024-01-01T00:00:00.000Z",
         sampleRecord 3 "Qualified" "soon"]) :=
  ⟨rfl, rfl⟩

end Engines

/-- C2: on every engine whose sort conforms, on a store whose collection is
`items`, every record with a stage from the fixed list, and whatever the
timestamps and the host's date parsing, `getSortedRecords()` returns the same
records with the positions of their stages in the list non-decreasing; records
with stages Closed Lost, Prospect, Qualified and any timestamps come out as
Prospect, Qualified, Closed Lost. -/
theorem getSortedRecords_stage_order (S : Engine) (hS : S.Conforms) :
    (∀ (E : Host) (w : World) (items : List Json),
      (loadRecords w).1 = .arr items →
      (∀ r ∈ items, ∃ s ∈ STAGE_ORDER, r.prop "stage" = .ok (some (.str s))) →
      ∃ sorted, (S.getSortedRecords E w).1 = .ok (.arr sorted) ∧ sorted.Perm items ∧
        sorted.Pairwise (fun a b => stagePosition a ≤ stagePosition b)) ∧
    (∀ (E : Host) (t1 t2 t3 : String),
      (S.getSortedRecords E (World.holding (.json (.arr
        [sampleRecord 1 "Closed Lost" t1, sampleRecord 2 "Prospect" t2,
         sampleRecord 3 "Qualified" t3])))).1
        = .ok (.arr [sampleRecord 2 "Prospect" t2, sampleRecord 3 "Qualified" t3,
            sampleRecord 1 "Closed Lost" t1])) := by
  have hmain : ∀ (E : Host) (w : World) (items : List Json),
      (loadRecords w).1 = .arr items →
      (∀ r ∈ items, ∃ s ∈ STAGE_ORDER, r.prop "stage" = .ok (some (.str s))) →
      ∃ sorted, (S.getSortedRecords E w).1 = .ok (.arr sorted) ∧ sorted.Perm items ∧
        sorted.Pairwise (fun a b => stagePosition a ≤ stagePosition b) := by
    intro E w items hload hstage
    have hrec : ∀ r ∈ items, r ≠ Json.null := by
      intro r hr
      obtain ⟨s, hs, hp⟩ := hstage r hr
      exact (stageIndex_of_known r s hs hp).1
    obtain ⟨sorted, hsorted, hperm, hkeys⟩ :=
      Engine.sorted_of_records S hS E w items hload hrec
    refine ⟨sorted, hsorted, hperm, ?_⟩
    have hpair := hkeys Int stageIndex (fun x _ y _ h => compareValue_stage E x y h)
    refine hpair.imp_of_mem ?_
    intro a b ha hb hab
    obtain ⟨sa, hsa, hpa⟩ := hstage a (hperm.mem_iff.1 ha)
    obtain ⟨sb, hsb, hpb⟩ := hstage b (hperm.mem_iff.1 hb)
    rw [(stageIndex_of_known a sa hsa hpa).2, (stageIndex_of_known b sb hsb hpb).2] at hab
    exact_mod_cast hab
  refine ⟨hmain, ?_⟩
  intro E t1 t2 t3
  have hstage : ∀ r ∈ [sampleRecord 1 "Closed Lost" t1, sampleRecord 2 "Prospect" t2,
      sampleRecord 3 "Qualified" t3],
      ∃ s ∈ STAGE_ORDER, r.prop "stage" = .ok (some (.str s)) := by
    intro r hr
    simp only [List.mem_cons, List.mem_singleton, List.not_mem_nil, or_false] at hr
    rcases hr with rfl | rfl | rfl
    · exact ⟨"Closed Lost", by simp [STAGE_ORDER], rfl⟩
    · exact ⟨"Prospect", by simp [STAGE_ORDER], rfl⟩
    · exact ⟨"Qualified", by simp [STAGE_ORDER], rfl⟩
  obtain ⟨sorted, hsorted, hperm, hpair⟩ := hmain E
    (World.holding (.json (.arr [sampleRecord 1 "Closed Lost" t1, sampleRecord 2 "Prospect" t2,
      sampleRecord 3 "Qualified" t3])))
    [sampleRecord 1 "Closed Lost" t1, sampleRecord 2 "Prospect" t2,
      sampleRecord 3 "Qualified" t3] rfl hstage
  rw [hsorted]
  have hL : stagePosition (sampleRecord 1 "Closed Lost" t1) = 5 := rfl
  have hP : stagePosition (sampleRecord 2 "Prospect" t2) = 0 := rfl
  have hQ : stagePosition (sampleRecord 3 "Qualified" t3) = 1 := rfl
  haveI : IsAntisymm Json (fun a b => stagePosition a < stagePosition b ∨ a = b) :=
    ⟨fun a b hab hba => by
      rcases hab with hab | hab
      · rcases hba with hba | hba
        · omega
        · exact hba.symm
      · exact hab⟩
  have hs1 : List.Sorted (fun a b => stagePosition a < stagePosition b ∨ a = b) sorted := by
    refine hpair.imp_of_mem ?_
    intro a b ha hb hab
    have ha1 := hperm.mem_iff.1 ha
    have hb1 := hperm.mem_iff.1 hb
    simp only [List.mem_cons, List.mem_singleton, List.not_mem_nil, or_false] at ha1 hb1
    rcases ha1 with rfl | rfl | rfl <;> rcases hb1 with rfl | rfl | rfl <;>
      first
        | exact Or.inr rfl
        | (left; omega)
  have hs2 : List.Sorted (fun a b => stagePosition a < stagePosition b ∨ a = b)
      [sampleRecord 2 "Prospect" t2, sampleRecord 3 "Qualified" t3,
        sampleRecord 1 "Closed Lost" t1] := by
    simp only [List.Sorted, List.pairwise_cons, List.mem_cons, List.mem_singleton,
      List.not_mem_nil, or_false, List.Pairwise.nil, and_true, forall_eq_or_imp, forall_eq,
      false_implies, implies_true]
    refine ⟨⟨Or.inl ?_, Or.inl ?_⟩, Or.inl ?_⟩ <;> omega
  have hperm2 : sorted.Perm [sampleRecord 2 "Prospect" t2, sampleRecord 3 "Qualified" t3,
      sampleRecord 1 "Closed Lost" t1] :=
    hperm.trans (@List.perm_append_comm _ [sampleRecord 1 "Closed Lost" t1]
      [sampleRecord 2 "Prospect" t2, sampleRecord 3 "Qualified" t3])
  rw [List.eq_of_perm_of_sorted hperm2 hs1 hs2]

/-- Witness of C2: the engine of run detection and binary insertion, and a
store holding records in stages Closed Lost, Prospect, Qualified. -/
theorem getSortedRecords_stage_order_witness :
    Engine.binaryInsertion.Conforms ∧
    (loadRecords (World.holding (.json (.arr
      [sampleRecord 1 "Closed Lost" "2024-06-01T00:00:00.000Z",
       sampleRecord 2 "Prospect" "2024-01-01T00:00:00.000Z",
       sampleRecord 3 "Qualified" "soon"])))).1
      = .arr [sampleRecord 1 "Closed Lost" "2024-06-01T00:00:00.000Z",
          sampleRecord 2 "Prospect" "2024-01-01T00:00:00.000Z",
          sampleRecord 3 "Qualified" "soon"] ∧
    (∀ r ∈ [sampleRecord 1 "Closed Lost" "2024-06-01T00:00:00.000Z",
        sampleRecord 2 "Prospect" "2024-01-01T00:00:00.000Z",
        sampleRecord 3 "Qualified" "soon"],
      ∃ s ∈ STAGE_ORDER, r.prop "stage" = .ok (some (.str s))) ∧
    ∃ sorted, (Engine.binaryInsertion.getSortedRecords sampleHost (World.holding (.json (.arr
        [sampleRecord 1 "Closed Lost" "2024-06-01T00:00:00.000Z",
         sampleRecord 2 "Prospect" "2024-01-01T00:00:00.000Z",
         sampleRecord 3 "Qualified" "soon"])))).1 = .ok (.arr sorted) ∧
      sorted.Perm [sampleRecord 1 "Closed Lost" "2024-06-01T00:00:00.000Z",
        sampleRecord 2 "Prospect" "2024-01-01T00:00:00.000Z",
        sampleRecord 3 "Qualified" "soon"] ∧
      sorted.Pairwise (fun a b => stagePosition a ≤ stagePosition b) :=
  have hstage : ∀ r ∈ [sampleRecord 1 "Closed Lost" "2024-06-01T00:00:00.000Z",
      sampleRecord 2 "Prospect" "2024-01-01T00:00:00.000Z",
      sampleRecord 3 "Qualified" "soon"],
      ∃ s ∈ STAGE_ORDER, r.prop "stage" = .ok (some (.str s)) := by
    intro r hr
    simp only [List.mem_cons, List.mem_singleton, List.not_mem_nil, or_false] at hr
    rcases hr with rfl | rfl | rfl
    · exact ⟨"Closed Lost", by simp [STAGE_ORDER], rfl⟩
    · exact ⟨"Prospect", by simp [STAGE_ORDER], rfl⟩
    · exact ⟨"Qualified", by simp [STAGE_ORDER], rfl⟩
  ⟨Engine.binaryInsertion_conforms, rfl, hstage,
    (getSortedRecords_stage_order Engine.binaryInsertion Engine.binaryInsertion_conforms).1
      sampleHost _ _ rfl hstage⟩

section Recency

theorem whenOf_of_stampedAt (E : Host) (r : Json) (t : Int) (h : stampedAt E r t) :
    whenOf E r = some t := by
  obtain ⟨s, hne, hparse, hu | ⟨hu, hc⟩⟩ := h
  · simp [whenOf, hu, orElse, Json.truthy, hne, newDate, hparse]
  · simp [whenOf, hu, hc, orElse, Json.truthy, hne, newDate, hparse]

theorem compareValue_recency (E : Host) (k : Int) (x y : Json)
    (hx : stageIndex x = k → ∃ t, whenOf E x = some t)
    (hy : stageIndex y = k → ∃ t, whenOf E y = some t)
    (h : toLex (stageIndex x, if stageIndex x = k then -(whenOf E x).getD 0 else 0)
      < toLex (stageIndex y, if stageIndex y = k then -(whenOf E y).getD 0 else 0)) :
    sortCompare (compareValue E x y) < 0 ∧ 0 < sortCompare (compareValue E y x) := by
  rcases (Prod.Lex.lt_iff _ _).1 h with hlt | ⟨heq, hlt⟩
  · exact compareValue_stage E x y hlt
  · simp only at heq hlt
    by_cases hk : stageIndex x = k
    · have hk2 : stageIndex y = k := by omega
      obtain ⟨tx, htx⟩ := hx hk
      obtain ⟨ty, hty⟩ := hy hk2
      rw [if_pos hk, if_pos hk2, htx, hty] at hlt
      simp only [Option.getD_some] at hlt
      have hxy : ¬ stageIndex x - stageIndex y ≠ 0 := by omega
      have hyx : ¬ stageIndex y - stageIndex x ≠ 0 := by omega
      simp only [compareValue, if_neg hxy, if_neg hyx, htx, hty, dateDiff, sortCompare,
        Option.getD_some]
      omega
    · have hk2 : ¬ stageIndex y = k := by omega
      rw [if_neg hk, if_neg hk2] at hlt
      omega

end Recency

/-- Counterexample to C3 as stated: three records in stage Qualified are
stored in the order `b`, `c`, `a`, where `a` and `b` have valid timestamps,
`a` the more recent, and `c` has a timestamp the host cannot parse;
`getSortedRecords()` returns them as `b`, `c`, `a`, the older `b` first, on
the engine of run detection and binary insertion, which conforms, and on the
insertion sort. -/
theorem getSortedRecords_recent_not_first :
    Engine.binaryInsertion.Conforms ∧
    (Engine.binaryInsertion.getSortedRecords sampleHost (World.holding (.json (.arr
      [sampleRecord 1 "Qualified" "2024-01-01T00:00:00.000Z",
       sampleRecord 2 "Qualified" "soon",
       sampleRecord 3 "Qualified" "2024-06-01T00:00:00.000Z"])))).1
      = .ok (.arr
        [sampleRecord 1 "Qualified" "2024-01-01T00:00:00.000Z",
         sampleRecord 2 "Qualified" "soon",
         sampleRecord 3 "Qualified" "2024-06-01T00:00:00.000Z"]) ∧
    (getSortedRecords sampleHost (World.holding (.json (.arr
      [sampleRecord 1 "Qualified" "2024-01-01T00:00:00.000Z",
       sampleRecord 2 "Qualified" "soon",
       sampleRecord 3 "Qualified" "2024-06-01T00:00:00.000Z"])))).1
      = .ok (.arr
        [sampleRecord 1 "Qualified" "2024-01-01T00:00:00.000Z",
         sampleRecord 2 "Qualified" "soon",
         sampleRecord 3 "Qualified" "2024-06-01T00:00:00.000Z"]) ∧
    stampedAt sampleHost (sampleRecord 1 "Qualified" "2024-01-01T00:00:00.000Z") 1704067200000 ∧
    stampedAt sampleHost (sampleRecord 3 "Qualified" "2024-06-01T00:00:00.000Z") 1717200000000 ∧
    (sampleRecord 1 "Qualified" "2024-01-01T00:00:00.000Z").get "stage"
      = (sampleRecord 3 "Qualified" "2024-06-01T00:00:00.000Z").get "stage" ∧
    (1704067200000 : Int) < 1717200000000 :=
  ⟨Engine.binaryInsertion_conforms, rfl, rfl,
   ⟨"2024-01-01T00:00:00.000Z", by decide, rfl, Or.inl rfl⟩,
   ⟨"2024-06-01T00:00:00.000Z", by decide, rfl, Or.inl rfl⟩, rfl, by decide⟩

/-- C3, amended: on every engine whose sort conforms, on a store whose
collection is `items` (records, so no element is `null`), if every record at
the stage position `k` has a valid timestamp, then `getSortedRecords()`
returns the same records, and of any two of them at position `k` the one it
places first is at least as recent as the other, by `updatedAt`, or by
`createdAt` for a record with no `updatedAt`. -/
theorem getSortedRecords_recent_first (S : Engine) (hS : S.Conforms) (E : Host) (w : World)
    (items : List Json) (k : Int)
    (hload : (loadRecords w).1 = .arr items) (hrec : ∀ r ∈ items, r ≠ Json.null)
    (hvalid : ∀ r ∈ items, stageIndex r = k → ∃ t, stampedAt E r t) :
    ∃ sorted, (S.getSortedRecords E w).1 = .ok (.arr sorted) ∧ sorted.Perm items ∧
      sorted.Pairwise (fun a b => stageIndex a = k → stageIndex b = k →
        ∀ ta tb, stampedAt E a ta → stampedAt E b tb → tb ≤ ta) := by
  obtain ⟨sorted, hsorted, hperm, hkeys⟩ :=
    Engine.sorted_of_records S hS E w items hload hrec
  refine ⟨sorted, hsorted, hperm, ?_⟩
  have hwhen : ∀ r ∈ items, stageIndex r = k → ∃ t, whenOf E r = some t := by
    intro r hr hk
    obtain ⟨t, ht⟩ := hvalid r hr hk
    exact ⟨t, whenOf_of_stampedAt E r t ht⟩
  have hpair := hkeys (Lex (Int × Int))
    (fun r => toLex (stageIndex r, if stageIndex r = k then -(whenOf E r).getD 0 else 0))
    (fun x hx y hy h => compareValue_recency E k x y (hwhen x hx) (hwhen y hy) h)
  refine hpair.imp ?_
  intro a b hab ha hb ta tb hta htb
  rw [Prod.Lex.le_iff] at hab
  simp only [if_pos ha, if_pos hb, whenOf_of_stampedAt E a ta hta,
    whenOf_of_stampedAt E b tb htb, Option.getD_some] at hab
  omega

/-- Witness of C3 amended: the engine of run detection and binary insertion,
and two Qualified records with valid timestamps, the older one stored first. -/
theorem getSortedRecords_recent_first_witness :
    Engine.binaryInsertion.Conforms ∧
    (loadRecords (World.holding (.json (.arr
      [sampleRecord 1 "Qualified" "2024-01-01T00:00:00.000Z",
       sampleRecord 3 "Qualified" "2024-06-01T00:00:00.000Z"])))).1
      = .arr [sampleRecord 1 "Qualified" "2024-01-01T00:00:00.000Z",
          sampleRecord 3 "Qualified" "2024-06-01T00:00:00.000Z"] ∧
    (∀ r ∈ [sampleRecord 1 "Qualified" "2024-01-01T00:00:00.000Z",
        sampleRecord 3 "Qualified" "2024-06-01T00:00:00.000Z"], r ≠ Json.null) ∧
    (∀ r ∈ [sampleRecord 1 "Qualified" "2024-01-01T00:00:00.000Z",
        sampleRecord 3 "Qualified" "2024-06-01T00:00:00.000Z"],
      stageIndex r = 1 → ∃ t, stampedAt sampleHost r t) ∧
    ∃ sorted, (Engine.binaryInsertion.getSortedRecords sampleHost (World.holding (.json (.arr
        [sampleRecord 1 "Qualified" "2024-01-01T00:00:00.000Z",
         sampleRecord 3 "Qualified" "2024-06-01T00:00:00.000Z"])))).1 = .ok (.arr sorted) ∧
      sorted.Perm [sampleRecord 1 "Qualified" "2024-01-01T00:00:00.000Z",
        sampleRecord 3 "Qualified" "2024-06-01T00:00:00.000Z"] ∧
      sorted.Pairwise (fun a b => stageIndex a = 1 → stageIndex b = 1 →
        ∀ ta tb, stampedAt sampleHost a ta → stampedAt sampleHost b tb → tb ≤ ta) :=
  have hrec : ∀ r ∈ [sampleRecord 1 "Qualified" "2024-01-01T00:00:00.000Z",
      sampleRecord 3 "Qualified" "2024-06-01T00:00:00.000Z"], r ≠ Json.null := by
    intro r hr h
    subst h
    simp [sampleRecord] at hr
  have hvalid : ∀ r ∈ [sampleRecord 1 "Qualified" "2024-01-01T00:00:00.000Z",
      sampleRecord 3 "Qualified" "2024-06-01T00:00:00.000Z"],
      stageIndex r = 1 → ∃ t, stampedAt sampleHost r t := by
    intro r hr _
    simp only [List.mem_cons, List.mem_singleton, List.not_mem_nil, or_false] at hr
    rcases hr with rfl | rfl
    · exact ⟨1704067200000, "2024-01-01T00:00:00.000Z", by decide, rfl, Or.inl rfl⟩
    · exact ⟨1717200000000, "2024-06-01T00:00:00.000Z", by decide, rfl, Or.inl rfl⟩
  ⟨Engine.binaryInsertion_conforms, rfl, hrec, hvalid,
    getSortedRecords_recent_first Engine.binaryInsertion Engine.binaryInsertion_conforms
      sampleHost _ _ 1 rfl hrec hvalid⟩

/-! ## What `loadRecords` returns -/

/-- C11 fails on the code: `loadRecords()` returns an array unless the store
holds the JSON text of a truthy value that is not an array, and then it
returns that value as it is. On a store holding the text of the object
`{"id": 1}` it returns the object, and `getSortedRecords()` throws. -/
theorem loadRecords_returns_stored_object :
    (∀ w : World, Array.isArray (loadRecords w).1 = true ∨
      ∃ v, w.localStorage.getItem STORAGE_KEY = some (.json v) ∧ v.truthy = true ∧
        Array.isArray v = false ∧ (loadRecords w).1 = v) ∧
    (loadRecords (World.holding (.json (.obj [("id", .num 1)])))).1 = .obj [("id", .num 1)] ∧
    Array.isArray (loadRecords (World.holding (.json (.obj [("id", .num 1)])))).1 = false ∧
    (getSortedRecords sampleHost (World.holding (.json (.obj [("id", .num 1)])))).1
      = .error .typeError := by
  refine ⟨?_, rfl, rfl, rfl⟩
  intro w
  cases hS : w.localStorage.getItem STORAGE_KEY with
  | none => left; simp [loadRecords, hS, JSON.parse, Json.truthy, Array.isArray]
  | some t =>
    cases t with
    | empty => left; simp [loadRecords, hS, JSON.parse, Array.isArray]
    | malformed tag => left; simp [loadRecords, hS, JSON.parse, Array.isArray]
    | json v =>
      cases hT : v.truthy with
      | false => left; simp [loadRecords, hS, JSON.parse, hT, Array.isArray]
      | true =>
        cases hA : Array.isArray v with
        | true => left; simp [loadRecords, hS, JSON.parse, hT, hA]
        | false => right; exact ⟨v, rfl, hT, hA, by simp [loadRecords, hS, JSON.parse, hT]⟩

/-! ## Hydration: failure, success, and the marker -/

section HydrationOutcome

theorem fetchCrmApi_resume_of_failedOrInvalid (r : Response) (h : r.failedOrInvalid) :
    (∃ e, fetchCrmApi_resume r = .error e) ∨
      ∃ v, fetchCrmApi_resume r = .ok v ∧ Array.isArray v = false := by
  rcases h with rfl | ⟨status, body, rfl, hC⟩
  · exact Or.inl ⟨_, rfl⟩
  · unfold fetchCrmApi_resume
    by_cases hOk : 200 ≤ status ∧ status ≤ 299
    · by_cases h204 : status = 204
      · right
        exact ⟨.null, by simp [hOk.1, hOk.2, h204], rfl⟩
      · rcases hC with hlt | hgt | h2 | hB
        · omega
        · omega
        · exact absurd h2 h204
        · cases body with
          | empty => left; exact ⟨.syntaxError, by simp [hOk.1, hOk.2, h204, JSON.parse]⟩
          | malformed tag =>
            left; exact ⟨.syntaxError, by simp [hOk.1, hOk.2, h204, JSON.parse]⟩
          | json v =>
            right
            refine ⟨v, by simp [hOk.1, hOk.2, h204, JSON.parse], ?_⟩
            cases v with
            | arr items => exact absurd rfl (hB items)
            | null => rfl
            | bool b => rfl
            | num n => rfl
            | frac q => rfl
            | str t => rfl
            | obj fields => rfl
    · left
      refine ⟨.requestFailed status body, ?_⟩
      have : (decide (200 ≤ status) && decide (status ≤ 299)) = false := by
        simp only [Bool.and_eq_false_imp, decide_eq_true_eq, decide_eq_false_iff_not]
        intro h1 h2
        exact hOk ⟨h1, h2⟩
      simp [this]

theorem fetchCrmApi_resume_of_delivers (r : Response) (items : List Json)
    (h : r.delivers items) : fetchCrmApi_resume r = .ok (.arr items) := by
  obtain ⟨status, rfl, h1, h2, h3⟩ := h
  simp [fetchCrmApi_resume, h1, h2, h3, JSON.parse]

theorem hydrateBody_of_unusable (w : World) (result : Except JsError Json)
    (h : (∃ e, result = .error e) ∨ ∃ v, result = .ok v ∧ Array.isArray v = false) :
    (hydrateBody w result).localStorage = w.localStorage ∧
      (hydrateBody w result).refreshes = w.refreshes := by
  rcases h with ⟨e, rfl⟩ | ⟨v, rfl, hv⟩
  · exact ⟨rfl, rfl⟩
  · simp [hydrateBody, hv]

theorem hydrate_start_localStorage (w : World) :
    (hydrateRecordsFromSharePoint w).2.localStorage = w.localStorage := by
  cases hM : w.hydratePromise with
  | some request => rw [hydrate_joined w (by simp [hM])]
  | none =>
    cases hT : hasAuthToken w with
    | false =>
      have : hydrateRecordsFromSharePoint w = (.settled, w) := by
        simp [hydrateRecordsFromSharePoint, hT]
      rw [this]
    | true =>
      obtain ⟨token, hS⟩ := hydrate_started w hT hM
      rw [hS]

theorem hasAuthToken_of_localStorage (w w1 : World)
    (h : w1.localStorage.getItem AUTH_TOKEN_KEY = w.localStorage.getItem AUTH_TOKEN_KEY) :
    hasAuthToken w1 = hasAuthToken w := by
  unfold hasAuthToken
  rw [h]

theorem hydrate_resume_token (w : World) (request : Nat) (r : Response) :
    hasAuthToken (hydrateRecordsFromSharePoint_resume w request r) = hasAuthToken w := by
  apply hasAuthToken_of_localStorage
  unfold hydrateRecordsFromSharePoint_resume
  split
  · show (hydrateBody _ _).localStorage.getItem AUTH_TOKEN_KEY = _
    unfold hydrateBody
    split
    · split
      · simp [notifyChange, Storage.getItem, Storage.setItem, AUTH_TOKEN_KEY, STORAGE_KEY]
      · rfl
    · rfl
  · rfl

end HydrationOutcome

/-- C12: when the pull fails (the fetch is rejected, the status is not 2xx) or
its result is not an array (a 204, a body that is not the JSON text of an
array), the hydration ends with the local storage, and so the local store, as
it was: neither the call nor the processing of the response changes it, the
views are not redrawn, and the processing returns normally with the marker
cleared. -/
theorem hydrate_failure_keeps_store (w : World) (request : Nat) (r : Response)
    (h : r.failedOrInvalid) :
    (hydrateRecordsFromSharePoint w).2.localStorage = w.localStorage ∧
    (hydrateRecordsFromSharePoint_resume w request r).localStorage = w.localStorage ∧
    (hydrateRecordsFromSharePoint_resume w request r).refreshes = w.refreshes ∧
    (loadRecords (hydrateRecordsFromSharePoint_resume
      (hydrateRecordsFromSharePoint w).2 request r)).1 = (loadRecords w).1 := by
  have hRes : ∀ u : World, (hydrateRecordsFromSharePoint_resume u request r).localStorage
      = u.localStorage ∧ (hydrateRecordsFromSharePoint_resume u request r).refreshes
      = u.refreshes := by
    intro u
    unfold hydrateRecordsFromSharePoint_resume
    split
    · exact hydrateBody_of_unusable _ _ (fetchCrmApi_resume_of_failedOrInvalid r h)
    · exact ⟨rfl, rfl⟩
  refine ⟨hydrate_start_localStorage w, (hRes w).1, (hRes w).2, ?_⟩
  have hL : (hydrateRecordsFromSharePoint_resume
      (hydrateRecordsFromSharePoint w).2 request r).localStorage = w.localStorage := by
    rw [(hRes _).1, hydrate_start_localStorage]
  unfold loadRecords
  rw [hL]
  cases JSON.parse (w.localStorage.getItem STORAGE_KEY) <;> rfl

/-- Witness of C12: the signed-in page, a pull answered with status 500. -/
theorem hydrate_failure_keeps_store_witness :
    (Response.http 500 .empty).failedOrInvalid ∧
    (hydrateRecordsFromSharePoint World.signedIn).2.localStorage = World.signedIn.localStorage ∧
    (hydrateRecordsFromSharePoint_resume World.signedIn 0 (.http 500 .empty)).localStorage
      = World.signedIn.localStorage ∧
    (hydrateRecordsFromSharePoint_resume World.signedIn 0 (.http 500 .empty)).refreshes
      = World.signedIn.refreshes ∧
    (loadRecords (hydrateRecordsFromSharePoint_resume
      (hydrateRecordsFromSharePoint World.signedIn).2 0 (.http 500 .empty))).1
      = (loadRecords World.signedIn).1 :=
  have h : (Response.http 500 .empty).failedOrInvalid :=
    Or.inr ⟨500, .empty, rfl, Or.inr (Or.inl (by decide))⟩
  ⟨h, hydrate_failure_keeps_store World.signedIn 0 (.http 500 .empty) h⟩

theorem hydrate_resume_of_delivers (w : World) (request : Nat) (r : Response)
    (items : List Json) (hIn : request ∈ w.pulls) (h : r.delivers items) :
    hydrateRecordsFromSharePoint_resume w request r =
      { notifyChange { w with
          pulls := w.pulls.erase request
          localStorage := w.localStorage.setItem STORAGE_KEY (JSON.stringify (.arr items)) }
        with hydratePromise := none } := by
  simp [hydrateRecordsFromSharePoint_resume, hIn, fetchCrmApi_resume_of_delivers r items h,
    hydrateBody, Array.isArray]

/-- C13: with a credential present and no hydration in flight, when the pull
started by `hydrateRecordsFromSharePoint()` is answered with a 2xx response
(other than 204) whose body is the JSON text of an array, then once the
response is processed the local store holds exactly that array, whatever it
held before, `loadRecords()` returns it and the views were redrawn once. -/
theorem hydrate_success_overwrites (w : World) (r : Response) (items : List Json)
    (hT : hasAuthToken w = true) (hM : w.hydratePromise = none) (h : r.delivers items) :
    (hydrateRecordsFromSharePoint w).1 = .pending w.requests.length ∧
    (loadRecords (hydrateRecordsFromSharePoint_resume (hydrateRecordsFromSharePoint w).2
      w.requests.length r)).1 = .arr items ∧
    (hydrateRecordsFromSharePoint_resume (hydrateRecordsFromSharePoint w).2
      w.requests.length r).localStorage.getItem STORAGE_KEY = some (.json (.arr items)) ∧
    (hydrateRecordsFromSharePoint_resume (hydrateRecordsFromSharePoint w).2
      w.requests.length r).refreshes = w.refreshes + 1 := by
  obtain ⟨token, hS⟩ := hydrate_started w hT hM
  have hIn : w.requests.length ∈ (hydrateRecordsFromSharePoint w).2.pulls := by
    rw [hS]; simp
  have hR := hydrate_resume_of_delivers _ _ r items hIn h
  have hSlot : (hydrateRecordsFromSharePoint_resume (hydrateRecordsFromSharePoint w).2
      w.requests.length r).localStorage.getItem STORAGE_KEY = some (.json (.arr items)) := by
    rw [hR]
    simp [notifyChange, Storage.getItem, Storage.setItem, JSON.stringify]
  refine ⟨by rw [hS], ?_, hSlot, ?_⟩
  · rw [loadRecords_of_array _ items hSlot]
  · rw [hR, hS]
    rfl

/-- Witness of C13: the signed-in page, a pull answered with status 200 and one record. -/
theorem hydrate_success_overwrites_witness :
    hasAuthToken World.signedIn = true ∧ World.signedIn.hydratePromise = none ∧
    (Response.http 200 (.json (.arr [sampleRecord 1 "Prospect" "2024-01-01T00:00:00.000Z"]))).delivers
      [sampleRecord 1 "Prospect" "2024-01-01T00:00:00.000Z"] ∧
    (hydrateRecordsFromSharePoint World.signedIn).1 = .pending World.signedIn.requests.length ∧
    (loadRecords (hydrateRecordsFromSharePoint_resume (hydrateRecordsFromSharePoint World.signedIn).2
      World.signedIn.requests.length
      (.http 200 (.json (.arr [sampleRecord 1 "Prospect" "2024-01-01T00:00:00.000Z"]))))).1
      = .arr [sampleRecord 1 "Prospect" "2024-01-01T00:00:00.000Z"] ∧
    (hydrateRecordsFromSharePoint_resume (hydrateRecordsFromSharePoint World.signedIn).2
      World.signedIn.requests.length
      (.http 200 (.json (.arr [sampleRecord 1 "Prospect" "2024-01-01T00:00:00.000Z"])))
      ).localStorage.getItem STORAGE_KEY
      = some (.json (.arr [sampleRecord 1 "Prospect" "2024-01-01T00:00:00.000Z"])) ∧
    (hydrateRecordsFromSharePoint_resume (hydrateRecordsFromSharePoint World.signedIn).2
      World.signedIn.requests.length
      (.http 200 (.json (.arr [sampleRecord 1 "Prospect" "2024-01-01T00:00:00.000Z"])))
      ).refreshes = World.signedIn.refreshes + 1 :=
  have h : (Response.http 200
      (.json (.arr [sampleRecord 1 "Prospect" "2024-01-01T00:00:00.000Z"]))).delivers
      [sampleRecord 1 "Prospect" "2024-01-01T00:00:00.000Z"] :=
    ⟨200, rfl, by decide, by decide, by decide⟩
  ⟨rfl, rfl, h, hydrate_success_overwrites World.signedIn _ _ rfl rfl h⟩

/-- C14: when the response to a pull in flight is processed, whatever the
response (success, failure, invalid result), the marker is clear afterwards
and the pull is no longer in flight; the credential is untouched, so with a
credential present the next `hydrateRecordsFromSharePoint()` hands a new pull
to `fetch` and sets the marker again. -/
theorem hydrate_completion_clears_marker (w : World) (request : Nat) (r : Response)
    (hIn : request ∈ w.pulls) :
    (hydrateRecordsFromSharePoint_resume w request r).hydratePromise = none ∧
    (hydrateRecordsFromSharePoint_resume w request r).pulls = w.pulls.erase request ∧
    (hasAuthToken w = true →
      (hydrateRecordsFromSharePoint (hydrateRecordsFromSharePoint_resume w request r)).1
        = .pending (hydrateRecordsFromSharePoint_resume w request r).requests.length ∧
      (hydrateRecordsFromSharePoint (hydrateRecordsFromSharePoint_resume w request r)).2.pullsIssued
        = w.pullsIssued + 1 ∧
      (hydrateRecordsFromSharePoint
        (hydrateRecordsFromSharePoint_resume w request r)).2.hydratePromise
        = some (hydrateRecordsFromSharePoint_resume w request r).requests.length) := by
  have hM : (hydrateRecordsFromSharePoint_resume w request r).hydratePromise = none := by
    simp [hydrateRecordsFromSharePoint_resume, hIn]
  have hP : (hydrateRecordsFromSharePoint_resume w request r).pulls = w.pulls.erase request := by
    simp only [hydrateRecordsFromSharePoint_resume, hIn, if_true]
    exact hydrateBody_hydration _ _
  have hReq : (hydrateRecordsFromSharePoint_resume w request r).requests = w.requests := by
    simp only [hydrateRecordsFromSharePoint_resume, hIn, if_true]
    show (hydrateBody _ _).requests = _
    unfold hydrateBody
    split
    · split <;> rfl
    · rfl
  refine ⟨hM, hP, ?_⟩
  intro hT
  have hT1 : hasAuthToken (hydrateRecordsFromSharePoint_resume w request r) = true := by
    rw [hydrate_resume_token]; exact hT
  obtain ⟨token, hS⟩ := hydrate_started _ hT1 hM
  rw [hS]
  refine ⟨rfl, ?_, rfl⟩
  simp [World.pullsIssued, hReq, List.filter_append, Request.isPull, requestOf]

/-- Witness of C14: the signed-in page after its first call, the pull answered
with status 500. -/
theorem hydrate_completion_clears_marker_witness :
    (0 ∈ (hydrateRecordsFromSharePoint World.signedIn).2.pulls) ∧
    (hydrateRecordsFromSharePoint_resume (hydrateRecordsFromSharePoint World.signedIn).2 0
      (.http 500 .empty)).hydratePromise = none ∧
    (hasAuthToken (hydrateRecordsFromSharePoint World.signedIn).2 = true ∧
      (hydrateRecordsFromSharePoint (hydrateRecordsFromSharePoint_resume
        (hydrateRecordsFromSharePoint World.signedIn).2 0 (.http 500 .empty))).2.pullsIssued
        = (hydrateRecordsFromSharePoint World.signedIn).2.pullsIssued + 1) :=
  have hIn : 0 ∈ (hydrateRecordsFromSharePoint World.signedIn).2.pulls := by
    show 0 ∈ [0]
    simp
  ⟨hIn,
   (hydrate_completion_clears_marker (hydrateRecordsFromSharePoint World.signedIn).2 0
      (.http 500 .empty) hIn).1,
   rfl,
   ((hydrate_completion_clears_marker (hydrateRecordsFromSharePoint World.signedIn).2 0
      (.http 500 .empty) hIn).2.2 rfl).2.1⟩

/-! ## The navigation transfer buffer: stash and consume -/

theorem consumeNavigationTransfer_of_array (w : World) (items : List Json)
    (h : w.sessionStorage.getItem NAV_TRANSFER_KEY = some (.json (.arr items))) :
    consumeNavigationTransfer w =
      saveRecords { w with sessionStorage := w.sessionStorage.removeItem NAV_TRANSFER_KEY }
        (.arr items) := by
  simp [consumeNavigationTransfer, h, Text.truthy, JSON.parse, Array.isArray]

theorem consumeNavigationTransfer_of_empty (w : World)
    (h : w.sessionStorage.getItem NAV_TRANSFER_KEY = some .empty) :
    consumeNavigationTransfer w = w := by
  simp [consumeNavigationTransfer, h, Text.truthy]

theorem prepareNavigation_buffer (w : World) :
    (prepareNavigation w).sessionStorage.getItem NAV_TRANSFER_KEY
      = some (.json (loadRecords w).1) := by
  unfold prepareNavigation
  rcases hL : loadRecords w with ⟨v, w1⟩
  simp [persistForNavigation, Storage.getItem, Storage.setItem, JSON.stringify]

/-- C15: when the local store of a page holds the collection `items`,
`prepareNavigation` leaves the JSON text of `items` in the transfer buffer, and
on the next page, whose session storage is the one the first page left and
whose local store may hold anything, `consumeNavigationTransfer()` makes the
local store hold `items`, so `loadRecords()` returns `items` there, and leaves
the transfer buffer without an entry. -/
theorem stash_then_consume (w next : World) (items : List Json)
    (hload : (loadRecords w).1 = .arr items)
    (hnext : next.sessionStorage = (prepareNavigation w).sessionStorage) :
    (prepareNavigation w).sessionStorage.getItem NAV_TRANSFER_KEY = some (.json (.arr items)) ∧
    (consumeNavigationTransfer next).localStorage.getItem STORAGE_KEY
      = some (.json (.arr items)) ∧
    (loadRecords (consumeNavigationTransfer next)).1 = .arr items ∧
    (consumeNavigationTransfer next).sessionStorage.getItem NAV_TRANSFER_KEY = none := by
  have hB : (prepareNavigation w).sessionStorage.getItem NAV_TRANSFER_KEY
      = some (.json (.arr items)) := by
    rw [prepareNavigation_buffer, hload]
  have hN : next.sessionStorage.getItem NAV_TRANSFER_KEY = some (.json (.arr items)) := by
    rw [hnext]; exact hB
  have hC := consumeNavigationTransfer_of_array next items hN
  have hSlot : (consumeNavigationTransfer next).localStorage.getItem STORAGE_KEY
      = some (.json (.arr items)) := by
    rw [hC, saveRecords_localStorage]
    simp [Storage.getItem, Storage.setItem, JSON.stringify]
  refine ⟨hB, hSlot, by rw [loadRecords_of_array _ items hSlot], ?_⟩
  rw [hC, saveRecords_sessionStorage]
  simp [Storage.getItem, Storage.removeItem]

/-- Witness of C15: a page holding two records, and a next page whose local
store is empty and whose transfer buffer is the one the first page left. -/
theorem stash_then_consume_witness :
    (loadRecords (World.holding (.json (.arr sampleRecords)))).1 = .arr sampleRecords ∧
    (World.withBuffer (.json (.arr sampleRecords))).sessionStorage
      = (prepareNavigation (World.holding (.json (.arr sampleRecords)))).sessionStorage ∧
    (prepareNavigation (World.holding (.json (.arr sampleRecords)))).sessionStorage.getItem
      NAV_TRANSFER_KEY = some (.json (.arr sampleRecords)) ∧
    (consumeNavigationTransfer (World.withBuffer (.json (.arr sampleRecords)))
      ).localStorage.getItem STORAGE_KEY = some (.json (.arr sampleRecords)) ∧
    (loadRecords (consumeNavigationTransfer (World.withBuffer (.json (.arr sampleRecords))))).1
      = .arr sampleRecords ∧
    (consumeNavigationTransfer (World.withBuffer (.json (.arr sampleRecords)))
      ).sessionStorage.getItem NAV_TRANSFER_KEY = none :=
  ⟨rfl, rfl,
   stash_then_consume (World.holding (.json (.arr sampleRecords)))
     (World.withBuffer (.json (.arr sampleRecords))) sampleRecords rfl rfl⟩

/-- C16: when the transfer buffer has no entry, or holds a text that is not
valid JSON or that parses to a value that is not an array,
`consumeNavigationTransfer()` returns normally with the local storage, the log
of issued requests and the awaited pushes unchanged; afterwards the buffer has
no entry or holds the empty string, and a further call changes nothing. -/
theorem consume_ignores_bad_payload (w : World)
    (h : w.sessionStorage.getItem NAV_TRANSFER_KEY = none ∨
      ∃ t, w.sessionStorage.getItem NAV_TRANSFER_KEY = some t ∧
        ∀ items, t ≠ Text.json (.arr items)) :
    (consumeNavigationTransfer w).localStorage = w.localStorage ∧
    (consumeNavigationTransfer w).requests = w.requests ∧
    (consumeNavigationTransfer w).pushes = w.pushes ∧
    ((consumeNavigationTransfer w).sessionStorage.getItem NAV_TRANSFER_KEY = none ∨
      (consumeNavigationTransfer w).sessionStorage.getItem NAV_TRANSFER_KEY = some .empty) ∧
    consumeNavigationTransfer (consumeNavigationTransfer w) = consumeNavigationTransfer w := by
  rcases h with hN | ⟨t, hT, hBad⟩
  · rw [consumeNavigationTransfer_of_absent w hN]
    exact ⟨rfl, rfl, rfl, Or.inl hN, consumeNavigationTransfer_of_absent w hN⟩
  · cases t with
    | empty =>
      rw [consumeNavigationTransfer_of_empty w hT]
      exact ⟨rfl, rfl, rfl, Or.inr hT, consumeNavigationTransfer_of_empty w hT⟩
    | malformed tag =>
      have hC : consumeNavigationTransfer w =
          { w with
            sessionStorage := w.sessionStorage.removeItem NAV_TRANSFER_KEY
            console := w.console ++ ["Unable to consume CRM transfer"] } := by
        simp [consumeNavigationTransfer, hT, Text.truthy, JSON.parse]
      have hA : (consumeNavigationTransfer w).sessionStorage.getItem NAV_TRANSFER_KEY
          = none := by
        rw [hC]; simp [Storage.getItem, Storage.removeItem]
      refine ⟨by rw [hC], by rw [hC], by rw [hC], Or.inl hA,
        consumeNavigationTransfer_of_absent _ hA⟩
    | json v =>
      have hV : Array.isArray v = false := by
        cases v with
        | arr items => exact absurd rfl (hBad items)
        | null => rfl
        | bool b => rfl
        | num n => rfl
        | frac q => rfl
        | str u => rfl
        | obj fields => rfl
      have hC : consumeNavigationTransfer w =
          { w with sessionStorage := w.sessionStorage.removeItem NAV_TRANSFER_KEY } := by
        simp [consumeNavigationTransfer, hT, Text.truthy, JSON.parse, hV]
      have hA : (consumeNavigationTransfer w).sessionStorage.getItem NAV_TRANSFER_KEY
          = none := by
        rw [hC]; simp [Storage.getItem, Storage.removeItem]
      refine ⟨by rw [hC], by rw [hC], by rw [hC], Or.inl hA,
        consumeNavigationTransfer_of_absent _ hA⟩

/-- Witness of C16: a transfer buffer holding the JSON text of an object. -/
theorem consume_ignores_bad_payload_witness :
    ((World.withBuffer (.json (.obj [("id", .num 1)]))).sessionStorage.getItem
        NAV_TRANSFER_KEY = none ∨
      ∃ t, (World.withBuffer (.json (.obj [("id", .num 1)]))).sessionStorage.getItem
        NAV_TRANSFER_KEY = some t ∧ ∀ items, t ≠ Text.json (.arr items)) ∧
    (consumeNavigationTransfer (World.withBuffer (.json (.obj [("id", .num 1)])))).localStorage
      = (World.withBuffer (.json (.obj [("id", .num 1)]))).localStorage :=
  have h : (World.withBuffer (.json (.obj [("id", .num 1)]))).sessionStorage.getItem
        NAV_TRANSFER_KEY = none ∨
      ∃ t, (World.withBuffer (.json (.obj [("id", .num 1)]))).sessionStorage.getItem
        NAV_TRANSFER_KEY = some t ∧ ∀ items, t ≠ Text.json (.arr items) :=
    Or.inr ⟨.json (.obj [("id", .num 1)]), rfl, (by intro items hE; cases hE)⟩
  ⟨h, (consume_ignores_bad_payload _ h).1⟩

/-! ## Record mutations -/

section Mutation

theorem lookup_setProp (fields : List (String × Json)) (key : String) (value : Json)
    (k : String) :
    (setProp fields key value).lookup k = if k = key then some value else fields.lookup k := by
  induction fields with
  | nil =>
    by_cases h : k = key
    · simp [setProp, List.lookup, h]
    · have hb : (k == key) = false := beq_eq_false_iff_ne.mpr h
      simp [setProp, List.lookup, h, hb]
  | cons kv rest ih =>
    obtain ⟨k0, v0⟩ := kv
    by_cases h0 : k0 = key
    · subst h0
      by_cases h : k = k0
      · simp [setProp, List.lookup, h]
      · have hb : (k == k0) = false := beq_eq_false_iff_ne.mpr h
        simp [setProp, List.lookup, h, hb]
    · by_cases h : k = k0
      · subst h
        simp [setProp, List.lookup, h0]
      · have hb : (k == k0) = false := beq_eq_false_iff_ne.mpr h
        simp [setProp, List.lookup, h0, h, hb, ih]

theorem lookup_assign_of_not_key (source target : List (String × Json)) (k : String)
    (h : ∀ kv ∈ source, kv.1 ≠ k) :
    (Object.assign target source).lookup k = target.lookup k := by
  unfold Object.assign
  induction source generalizing target with
  | nil => rfl
  | cons kv rest ih =>
    simp only [List.foldl_cons]
    rw [ih _ (fun x hx => h x (List.mem_cons_of_mem kv hx)), lookup_setProp]
    have : k ≠ kv.1 := fun hk => h kv (List.mem_cons_self kv rest) hk.symm
    simp [this]

theorem accept_id_of_record (item : Json) (id : JsNumber) (h : item ≠ .null) :
    (do return !strictNe (← item.prop "id") id : Except JsError Bool)
      = .ok (hasId item id) := by
  cases item with
  | null => exact absurd rfl h
  | obj fields =>
    cases id with
    | nan =>
      simp only [Json.prop, hasId]
      cases hL : fields.lookup "id" with
      | none => rfl
      | some v => cases v <;> rfl
    | int m =>
      simp only [Json.prop, hasId]
      cases hL : fields.lookup "id" with
      | none => rfl
      | some v =>
        cases v <;> try rfl
        case num n =>
          show Except.ok (!(n != m)) = Except.ok (n == m)
          cases hnm : n == m <;> simp [bne, hnm]
        case frac q =>
          show Except.ok (!(q != (m : ℚ))) = Except.ok (q == (m : ℚ))
          cases hqm : q == (m : ℚ) <;> simp [bne, hqm]
  | bool b => cases id <;> rfl
  | num n => cases id <;> rfl
  | frac q => cases id <;> rfl
  | str t => cases id <;> rfl
  | arr l => cases id <;> rfl

theorem hasId_obj (item : Json) (id : JsNumber) (h : hasId item id = true) :
    ∃ fields n, item = .obj fields ∧ id = .int n ∧
      (fields.lookup "id" = some (.num n) ∨ fields.lookup "id" = some (.frac n)) := by
  cases item with
  | obj fields =>
    cases id with
    | nan => simp [hasId] at h
    | int m =>
      simp only [hasId] at h
      cases hL : fields.lookup "id" with
      | none => simp [hL] at h
      | some v =>
        cases v with
        | num n =>
          simp only [hL, beq_iff_eq] at h
          exact ⟨fields, m, rfl, rfl, Or.inl (by rw [hL, h])⟩
        | frac q =>
          simp only [hL, beq_iff_eq] at h
          exact ⟨fields, m, rfl, rfl, Or.inr (by rw [hL, h])⟩
        | null => simp [hL] at h
        | bool b => simp [hL] at h
        | str t => simp [hL] at h
        | arr l => simp [hL] at h
        | obj f => simp [hL] at h
  | null => simp [hasId] at h
  | bool b => simp [hasId] at h
  | num n => simp [hasId] at h
  | frac q => simp [hasId] at h
  | str t => simp [hasId] at h
  | arr l => simp [hasId] at h

theorem Array.find_cons_false {α ε : Type} (accept : α → Except ε Bool) (x : α) (xs : List α)
    (hx : accept x = .ok false) :
    Array.find accept (x :: xs)
      = (Array.find accept xs).map (fun found => found.map (· + 1)) := by
  simp only [Array.find, hx]
  cases Array.find accept xs <;> rfl

theorem Array.find_none {α ε : Type} (accept : α → Except ε Bool) (items : List α)
    (h : ∀ x ∈ items, accept x = .ok false) : Array.find accept items = .ok none := by
  induction items with
  | nil => rfl
  | cons x xs ih =>
    rw [Array.find_cons_false accept x xs (h x (List.mem_cons_self x xs)),
      ih (fun y hy => h y (List.mem_cons_of_mem x hy))]
    rfl

theorem Array.find_split {α ε : Type} (accept : α → Except ε Bool) (pre post : List α) (x : α)
    (hpre : ∀ y ∈ pre, accept y = .ok false) (hx : accept x = .ok true) :
    Array.find accept (pre ++ x :: post) = .ok (some pre.length) := by
  induction pre with
  | nil =>
    simp only [List.nil_append, Array.find, hx]
    rfl
  | cons y ys ih =>
    rw [List.cons_append,
      Array.find_cons_false accept y _ (hpre y (List.mem_cons_self y ys)),
      ih (fun z hz => hpre z (List.mem_cons_of_mem y hz))]
    rfl

theorem first_match_split {α : Type} (q : α → Bool) (items : List α) :
    (∀ x ∈ items, q x = false) ∨
      ∃ pre x post, items = pre ++ x :: post ∧ (∀ y ∈ pre, q y = false) ∧ q x = true := by
  induction items with
  | nil => left; intro x hx; cases hx
  | cons a rest ih =>
    cases ha : q a with
    | true => right; exact ⟨[], a, rest, rfl, (by intro y hy; cases hy), ha⟩
    | false =>
      rcases ih with hnone | ⟨pre, x, post, hEq, hpre, hx⟩
      · left
        intro y hy
        rcases List.mem_cons.1 hy with rfl | hy
        · exact ha
        · exact hnone y hy
      · right
        refine ⟨a :: pre, x, post, by rw [hEq]; rfl, ?_, hx⟩
        intro y hy
        rcases List.mem_cons.1 hy with rfl | hy
        · exact ha
        · exact hpre y hy

theorem get?_split {α : Type} (pre post : List α) (x : α) :
    (pre ++ x :: post).get? pre.length = some x := by
  induction pre with
  | nil => rfl
  | cons y ys ih => simpa using ih

theorem set_split {α : Type} (pre post : List α) (x y : α) :
    (pre ++ x :: post).set pre.length y = pre ++ y :: post := by
  induction pre with
  | nil => rfl
  | cons z zs ih => simp [List.set, ih]

theorem loadRecords_again (w : World) : (loadRecords (loadRecords w).2).1 = (loadRecords w).1 := by
  unfold loadRecords
  cases hP : JSON.parse (w.localStorage.getItem STORAGE_KEY) with
  | ok v => simp [hP]
  | error e => simp [Storage.getItem, Storage.removeItem, JSON.parse, Json.truthy]

theorem loadRecords_after_save (w : World) (items : List Json) :
    (loadRecords (notifyChange (saveRecords w (.arr items)))).1 = .arr items := by
  have hslot : (notifyChange (saveRecords w (.arr items))).localStorage STORAGE_KEY
      = some (.json (.arr items)) := by
    show (saveRecords w (.arr items)).localStorage STORAGE_KEY = _
    rw [saveRecords_localStorage]
    simp [Storage.setItem, JSON.stringify]
  rw [loadRecords_of_array _ items hslot]

theorem find_by_id_split (id : JsNumber) (pre post : List Json) (fields : List (String × Json))
    (hpre : ∀ r ∈ pre, r ≠ Json.null ∧ hasId r id = false)
    (hrec : hasId (.obj fields) id = true) :
    Array.find (fun item => (do return !strictNe (← item.prop "id") id : Except JsError Bool))
      (pre ++ .obj fields :: post) = .ok (some pre.length) := by
  apply Array.find_split
  · intro y hy
    show (do return !strictNe (← y.prop "id") id : Except JsError Bool) = _
    rw [accept_id_of_record y id (hpre y hy).1, (hpre y hy).2]
  · show (do return !strictNe (← (Json.obj fields).prop "id") id : Except JsError Bool) = _
    rw [accept_id_of_record _ id (by intro h; cases h), hrec]

theorem find_by_id_none (id : JsNumber) (items : List Json)
    (h : ∀ r ∈ items, r ≠ Json.null ∧ hasId r id = false) :
    Array.find (fun item => (do return !strictNe (← item.prop "id") id : Except JsError Bool))
      items = .ok none := by
  apply Array.find_none
  intro y hy
  show (do return !strictNe (← y.prop "id") id : Except JsError Bool) = _
  rw [accept_id_of_record y id (h y hy).1, (h y hy).2]

theorem updateRecord_found (w w1 : World) (now : String) (id : JsNumber)
    (updates : List (String × Json)) (pre post : List Json) (fields : List (String × Json))
    (hL : loadRecords w = (.arr (pre ++ .obj fields :: post), w1))
    (hpre : ∀ r ∈ pre, r ≠ Json.null ∧ hasId r id = false)
    (hrec : hasId (.obj fields) id = true) :
    updateRecord w now id updates = .ok (true, notifyChange (saveRecords w1 (.arr
      (pre ++ .obj (Object.assign (Object.assign fields updates) [("updatedAt", .str now)])
        :: post)))) := by
  simp only [updateRecord, hL]
  rw [find_by_id_split id pre post fields hpre hrec]
  show (match (pre ++ Json.obj fields :: post).get? pre.length with
    | some (.obj f) => _
    | _ => _) = _
  rw [get?_split]
  show Except.ok (true, notifyChange (saveRecords w1 (.arr
    ((pre ++ Json.obj fields :: post).set pre.length _)))) = _
  rw [set_split]

theorem updateRecord_absent (w w1 : World) (now : String) (id : JsNumber)
    (updates : List (String × Json)) (items : List Json)
    (hL : loadRecords w = (.arr items, w1))
    (h : ∀ r ∈ items, r ≠ Json.null ∧ hasId r id = false) :
    updateRecord w now id updates = .ok (false, w1) := by
  simp only [updateRecord, hL]
  rw [find_by_id_none id items h]
  rfl

theorem stageSelect_change_found (w w1 : World) (now : String) (id : JsNumber)
    (value : String) (pre post : List Json) (fields : List (String × Json))
    (hL : loadRecords w = (.arr (pre ++ .obj fields :: post), w1))
    (hpre : ∀ r ∈ pre, r ≠ Json.null ∧ hasId r id = false)
    (hrec : hasId (.obj fields) id = true) :
    stageSelect_change w now id value = .ok (notifyChange (saveRecords w1 (.arr
      (pre ++ .obj (setProp (setProp fields "stage" (.str value)) "updatedAt" (.str now))
        :: post)))) := by
  simp only [stageSelect_change, hL]
  rw [find_by_id_split id pre post fields hpre hrec]
  show (match (pre ++ Json.obj fields :: post).get? pre.length with
    | some (.obj f) => _
    | _ => _) = _
  rw [get?_split]
  show Except.ok (notifyChange (saveRecords w1 (.arr
    ((pre ++ Json.obj fields :: post).set pre.length _)))) = _
  rw [set_split]

theorem stageSelect_change_absent (w w1 : World) (now : String) (id : JsNumber)
    (value : String) (items : List Json)
    (hL : loadRecords w = (.arr items, w1))
    (h : ∀ r ∈ items, r ≠ Json.null ∧ hasId r id = false) :
    stageSelect_change w now id value = .ok w1 := by
  simp only [stageSelect_change, hL]
  rw [find_by_id_none id items h]
  rfl

theorem loadRecords_split (w : World) (items : List Json)
    (hload : (loadRecords w).1 = .arr items) :
    ∃ w1, loadRecords w = (.arr items, w1) ∧ (loadRecords w1).1 = .arr items := by
  refine ⟨(loadRecords w).2, ?_, ?_⟩
  · rw [← hload]
  · rw [loadRecords_again, hload]

end Mutation

/-- Counterexample to C17 as stated: on a store holding two records with ids 1
and 2, `updateRecord(1, {id: 999})` returns `true` and leaves the first record
with the id 999. -/
theorem updateRecord_overwrites_id :
    idsOf sampleRecords = [some (.num 1), some (.num 2)] ∧
    (updateRecord (World.holding (.json (.arr sampleRecords))) "2024-06-01T00:00:00.000Z"
      (.int 1) [("id", .num 999)]).map (fun r => (r.1, (loadRecords r.2).1))
      = .ok (true, .arr
        [.obj [("id", .num 999), ("stage", .str "Prospect"),
          ("createdAt", .str "2024-01-01T00:00:00.000Z"),
          ("updatedAt", .str "2024-06-01T00:00:00.000Z")],
         sampleRecord 2 "Qualified" "2024-06-01T00:00:00.000Z"]) ∧
    idsOf [.obj [("id", .num 999), ("stage", .str "Prospect"),
          ("createdAt", .str "2024-01-01T00:00:00.000Z"),
          ("updatedAt", .str "2024-06-01T00:00:00.000Z")],
         sampleRecord 2 "Qualified" "2024-06-01T00:00:00.000Z"]
      = [some (.num 999), some (.num 2)] :=
  ⟨rfl, rfl, rfl⟩

/-- C17, amended: on a store whose collection is `items` (records, so no
element is `null`), for every number `id`, `updateRecord(id, updates)` with an
`updates` object that has no `id` property, and a stage change, complete
without an exception and leave in the local store a collection whose ids are,
record by record, the ids of `items`. -/
theorem mutation_keeps_ids (w : World) (now : String) (id : JsNumber) (items : List Json)
    (hload : (loadRecords w).1 = .arr items) (hrec : ∀ r ∈ items, r ≠ Json.null) :
    (∀ updates : List (String × Json), (∀ kv ∈ updates, kv.1 ≠ "id") →
      ∃ found w1 items1, updateRecord w now id updates = .ok (found, w1) ∧
        (loadRecords w1).1 = .arr items1 ∧ idsOf items1 = idsOf items) ∧
    (∀ value : String,
      ∃ w1 items1, stageSelect_change w now id value = .ok w1 ∧
        (loadRecords w1).1 = .arr items1 ∧ idsOf items1 = idsOf items) := by
  obtain ⟨w0, hL, hBack⟩ := loadRecords_split w items hload
  rcases first_match_split (fun r => hasId r id) items with hnone | ⟨pre, x, post, hEq, hpre, hx⟩
  · have hAll : ∀ r ∈ items, r ≠ Json.null ∧ hasId r id = false :=
      fun r hr => ⟨hrec r hr, hnone r hr⟩
    constructor
    · intro updates _
      exact ⟨false, w0, items, updateRecord_absent w w0 now id updates items hL hAll, hBack, rfl⟩
    · intro value
      exact ⟨w0, items, stageSelect_change_absent w w0 now id value items hL hAll, hBack, rfl⟩
  · obtain ⟨fields, n, rfl, _, _⟩ := hasId_obj x id hx
    subst hEq
    have hpre1 : ∀ r ∈ pre, r ≠ Json.null ∧ hasId r id = false :=
      fun r hr => ⟨hrec r (List.mem_append_left _ hr), hpre r hr⟩
    constructor
    · intro updates hNoId
      refine ⟨true, _, _, updateRecord_found w w0 now id updates pre post fields hL hpre1 hx,
        loadRecords_after_save _ _, ?_⟩
      have hId : (Object.assign (Object.assign fields updates)
          [("updatedAt", .str now)]).lookup "id" = fields.lookup "id" := by
        rw [lookup_assign_of_not_key _ _ "id" (by
            intro kv hkv
            simp only [List.mem_singleton] at hkv
            subst hkv
            show "updatedAt" ≠ "id"
            decide),
          lookup_assign_of_not_key _ _ "id" hNoId]
      simp [idsOf, Json.get, hId]
    · intro value
      refine ⟨_, _, stageSelect_change_found w w0 now id value pre post fields hL hpre1 hx,
        loadRecords_after_save _ _, ?_⟩
      have hId : (setProp (setProp fields "stage" (.str value)) "updatedAt"
          (.str now)).lookup "id" = fields.lookup "id" := by
        rw [lookup_setProp, lookup_setProp]
        simp
      simp [idsOf, Json.get, hId]

/-- Witness of C17 amended: two stored records, an edit of the notes of the
first and a stage change of it. -/
theorem mutation_keeps_ids_witness :
    (loadRecords (World.holding (.json (.arr sampleRecords)))).1 = .arr sampleRecords ∧
    (∀ r ∈ sampleRecords, r ≠ Json.null) ∧
    (∀ kv ∈ [("notes", Json.str "call back")], kv.1 ≠ "id") ∧
    (∃ found w1 items1, updateRecord (World.holding (.json (.arr sampleRecords)))
        "2024-06-01T00:00:00.000Z" (.int 1) [("notes", Json.str "call back")] = .ok (found, w1) ∧
      (loadRecords w1).1 = .arr items1 ∧ idsOf items1 = idsOf sampleRecords) ∧
    (∃ w1 items1, stageSelect_change (World.holding (.json (.arr sampleRecords)))
        "2024-06-01T00:00:00.000Z" (.int 1) "Proposal" = .ok w1 ∧
      (loadRecords w1).1 = .arr items1 ∧ idsOf items1 = idsOf sampleRecords) :=
  have hrec : ∀ r ∈ sampleRecords, r ≠ Json.null := by
    intro r hr h
    subst h
    simp [sampleRecords, sampleRecord] at hr
  have hkey : ∀ kv ∈ [("notes", Json.str "call back")], kv.1 ≠ "id" := by
    intro kv hkv
    simp only [List.mem_singleton] at hkv
    subst hkv
    decide
  ⟨rfl, hrec, hkey,
   (mutation_keeps_ids (World.holding (.json (.arr sampleRecords))) "2024-06-01T00:00:00.000Z"
      (.int 1) sampleRecords rfl hrec).1 _ hkey,
   (mutation_keeps_ids (World.holding (.json (.arr sampleRecords))) "2024-06-01T00:00:00.000Z"
      (.int 1) sampleRecords rfl hrec).2 "Proposal"⟩

/-- C19: on a store whose collection has the record `fields` as its first
record with the id `id` (the records before it are not `null` and have other
ids), `updateRecord(id, updates)`, whatever `updates` carries, and a stage
change return normally and leave the collection with that record's
`updatedAt` equal to the current time `now` and every other record, before
and after it, as it was; the stage change also sets the stage. -/
theorem mutation_refreshes_updatedAt (w : World) (now : String) (id : JsNumber)
    (pre post : List Json) (fields : List (String × Json))
    (hload : (loadRecords w).1 = .arr (pre ++ .obj fields :: post))
    (hpre : ∀ r ∈ pre, r ≠ Json.null ∧ hasId r id = false)
    (hrec : hasId (.obj fields) id = true) :
    (∀ updates : List (String × Json),
      ∃ w1 fields1, updateRecord w now id updates = .ok (true, w1) ∧
        (loadRecords w1).1 = .arr (pre ++ .obj fields1 :: post) ∧
        fields1.lookup "updatedAt" = some (.str now)) ∧
    (∀ value : String,
      ∃ w1 fields1, stageSelect_change w now id value = .ok w1 ∧
        (loadRecords w1).1 = .arr (pre ++ .obj fields1 :: post) ∧
        fields1.lookup "updatedAt" = some (.str now) ∧
        fields1.lookup "stage" = some (.str value)) := by
  obtain ⟨w0, hL, _⟩ := loadRecords_split w _ hload
  constructor
  · intro updates
    refine ⟨_, _, updateRecord_found w w0 now id updates pre post fields hL hpre hrec,
      loadRecords_after_save _ _, ?_⟩
    show (setProp _ "updatedAt" (.str now)).lookup "updatedAt" = _
    rw [lookup_setProp]
    simp
  · intro value
    refine ⟨_, _, stageSelect_change_found w w0 now id value pre post fields hL hpre hrec,
      loadRecords_after_save _ _, ?_, ?_⟩
    · rw [lookup_setProp]
      simp
    · rw [lookup_setProp, lookup_setProp]
      simp

/-- Witness of C19: two stored records, the second edited with an `updates`
object that carries its own `updatedAt`. -/
theorem mutation_refreshes_updatedAt_witness :
    (loadRecords (World.holding (.json (.arr sampleRecords)))).1
      = .arr ([sampleRecord 1 "Prospect" "2024-01-01T00:00:00.000Z"] ++
        .obj [("id", .num 2), ("stage", .str "Qualified"),
          ("createdAt", .str "2024-01-01T00:00:00.000Z"),
          ("updatedAt", .str "2024-06-01T00:00:00.000Z")] :: []) ∧
    (∀ r ∈ [sampleRecord 1 "Prospect" "2024-01-01T00:00:00.000Z"],
      r ≠ Json.null ∧ hasId r (.int 2) = false) ∧
    hasId (.obj [("id", .num 2), ("stage", .str "Qualified"),
      ("createdAt", .str "2024-01-01T00:00:00.000Z"),
      ("updatedAt", .str "2024-06-01T00:00:00.000Z")]) (.int 2) = true ∧
    (∃ w1 fields1, updateRecord (World.holding (.json (.arr sampleRecords)))
        "2024-07-01T00:00:00.000Z" (.int 2) [("updatedAt", .str "1999-12-31T00:00:00.000Z")]
        = .ok (true, w1) ∧
      (loadRecords w1).1 = .arr ([sampleRecord 1 "Prospect" "2024-01-01T00:00:00.000Z"] ++
        .obj fields1 :: []) ∧
      fields1.lookup "updatedAt" = some (.str "2024-07-01T00:00:00.000Z")) :=
  have hpre : ∀ r ∈ [sampleRecord 1 "Prospect" "2024-01-01T00:00:00.000Z"],
      r ≠ Json.null ∧ hasId r (.int 2) = false := by
    intro r hr
    simp only [List.mem_singleton] at hr
    subst hr
    exact ⟨(by intro h; cases h), rfl⟩
  ⟨rfl, hpre, rfl,
   (mutation_refreshes_updatedAt (World.holding (.json (.arr sampleRecords)))
      "2024-07-01T00:00:00.000Z" (.int 2)
      [sampleRecord 1 "Prospect" "2024-01-01T00:00:00.000Z"] []
      [("id", .num 2), ("stage", .str "Qualified"),
        ("createdAt", .str "2024-01-01T00:00:00.000Z"),
        ("updatedAt", .str "2024-06-01T00:00:00.000Z")] rfl hpre rfl).1
      [("updatedAt", .str "1999-12-31T00:00:00.000Z")]⟩

/-! ## Form submission -/

theorem processSubmission_ok (H : FormHost) (w : World) (form : QuoteForm) (clock : Clock)
    (items : List Json) (hload : (loadRecords w).1 = .arr items)
    (hproject : missingField H form.projectInput = false)
    (hcompany : missingField H form.companyInput = false) :
    ∃ w1, processSubmission H w form clock = .ok w1 ∧
      (loadRecords w1).1 = .arr (items ++ [newRecord H form clock]) := by
  obtain ⟨w0, hL, _⟩ := loadRecords_split w items hload
  refine ⟨notifyChange (setStatus (saveRecords w0 (.arr (items ++ [newRecord H form clock])))
    "Entry saved to CRM. View it on the dashboard." "success"), ?_, ?_⟩
  · simp [processSubmission, hproject, hcompany, hL]
  · have hslot : (notifyChange (setStatus (saveRecords w0
        (.arr (items ++ [newRecord H form clock])))
        "Entry saved to CRM. View it on the dashboard." "success")).localStorage STORAGE_KEY
        = some (.json (.arr (items ++ [newRecord H form clock]))) := by
      show (setStatus _ _ _).localStorage STORAGE_KEY = _
      rw [setStatus_localStorage, saveRecords_localStorage]
      simp [Storage.setItem, JSON.stringify]
    rw [loadRecords_of_array _ _ hslot]

theorem newRecord_id (H : FormHost) (form : QuoteForm) (clock : Clock) :
    (newRecord H form clock).get "id" = some (.num clock.now) := rfl

theorem newRecord_value (H : FormHost) (form : QuoteForm) (clock : Clock) :
    (newRecord H form clock).get "value" = some (recordValue H form.valueInput).toJSON := rfl

theorem recordValue_of_falsy (H : FormHost) (valueInput : Option String)
    (h : valueInput = none ∨ ∃ text, valueInput = some text ∧
      (text = "" ∨ H.parseFloat text = .nan ∨ H.parseFloat text = .finite 0)) :
    recordValue H valueInput = .finite 0 := by
  rcases h with rfl | ⟨text, rfl, h⟩
  · simp [recordValue, H.parseFloat_empty, Double.truthy]
  · by_cases hE : text = ""
    · subst hE
      simp [recordValue, H.parseFloat_empty, Double.truthy]
    · rcases h with h | h | h
      · exact absurd h hE
      · simp [recordValue, hE, h, Double.truthy]
      · simp [recordValue, hE, h, Double.truthy]

theorem recordValue_of_truthy (H : FormHost) (text : String)
    (h : (H.parseFloat text).truthy = true) :
    recordValue H (some text) = H.parseFloat text := by
  have hE : text ≠ "" := by
    intro hE
    subst hE
    rw [H.parseFloat_empty] at h
    cases h
  simp [recordValue, hE, h]

/-- Counterexample to C18 as stated: a submission with the text `-5` in the
value field succeeds and stores a record whose value is -5; with the text
`Infinity` the stored value is `null`, which is no number. -/
theorem submission_stores_negative_value :
    (processSubmission sampleFormHost World.empty (sampleForm "-5") sampleClock).map
      (fun w1 => (loadRecords w1).1)
      = .ok (.arr [newRecord sampleFormHost (sampleForm "-5") sampleClock]) ∧
    (newRecord sampleFormHost (sampleForm "-5") sampleClock).get "value" = some (.num (-5)) ∧
    (-5 : Int) < 0 ∧
    (processSubmission sampleFormHost World.empty (sampleForm "Infinity") sampleClock).map
      (fun w1 => (loadRecords w1).1)
      = .ok (.arr [newRecord sampleFormHost (sampleForm "Infinity") sampleClock]) ∧
    (newRecord sampleFormHost (sampleForm "Infinity") sampleClock).get "value" = some .null :=
  ⟨rfl, rfl, by decide, rfl, rfl⟩

/-- C18, amended: a successful form submission appends one record to the
collection, and for every text in the value field the stored value of the
record is 0 when the page has no value field, when the text is empty or when
`parseFloat` reads `NaN` or zero from it; it is `null` when `parseFloat` reads
`Infinity` or `-Infinity`, which `JSON.stringify` writes as `null`; otherwise
it is the number `parseFloat` reads from the text, negative and fractional
numbers included. -/
theorem submission_value (H : FormHost) (w : World) (form : QuoteForm) (clock : Clock)
    (items : List Json) (hload : (loadRecords w).1 = .arr items)
    (hproject : missingField H form.projectInput = false)
    (hcompany : missingField H form.companyInput = false) :
    ∃ w1, processSubmission H w form clock = .ok w1 ∧
      (loadRecords w1).1 = .arr (items ++ [newRecord H form clock]) ∧
      (form.valueInput = none → (newRecord H form clock).get "value" = some (.num 0)) ∧
      (∀ text, form.valueInput = some text →
        (text = "" ∨ H.parseFloat text = .nan ∨ H.parseFloat text = .finite 0) →
        (newRecord H form clock).get "value" = some (.num 0)) ∧
      (∀ text negative, form.valueInput = some text →
        H.parseFloat text = .infinity negative →
        (newRecord H form clock).get "value" = some .null) ∧
      (∀ text (n : Int), form.valueInput = some text → n ≠ 0 →
        H.parseFloat text = .finite n →
        (newRecord H form clock).get "value" = some (.num n)) ∧
      (∀ text (q : ℚ), form.valueInput = some text → q.den ≠ 1 →
        H.parseFloat text = .finite q →
        (newRecord H form clock).get "value" = some (.frac q)) := by
  obtain ⟨w1, hOk, hBack⟩ := processSubmission_ok H w form clock items hload hproject hcompany
  refine ⟨w1, hOk, hBack, ?_, ?_, ?_, ?_, ?_⟩
  · intro hNone
    rw [newRecord_value, recordValue_of_falsy H _ (Or.inl hNone)]
    rfl
  · intro text hText hBad
    rw [newRecord_value, recordValue_of_falsy H _ (Or.inr ⟨text, hText, hBad⟩)]
    rfl
  · intro text negative hText hParse
    rw [newRecord_value, hText, recordValue_of_truthy H text (by rw [hParse]; rfl), hParse]
    rfl
  · intro text n hText hn hParse
    have hq : ((n : ℚ) != 0) = true := by
      simpa using hn
    rw [newRecord_value, hText, recordValue_of_truthy H text (by rw [hParse]; exact hq), hParse]
    simp [Double.toJSON]
  · intro text q hText hq hParse
    have hq0 : (q != 0) = true := by
      have : q ≠ 0 := by
        intro h0
        subst h0
        exact hq rfl
      simpa using this
    rw [newRecord_value, hText, recordValue_of_truthy H text (by rw [hParse]; exact hq0), hParse]
    simp [Double.toJSON, hq]

/-- Witness of C18 amended: the empty page and the form with `1200` in the value field. -/
theorem submission_value_witness :
    (loadRecords World.empty).1 = .arr [] ∧
    missingField sampleFormHost (sampleForm "1200").projectInput = false ∧
    missingField sampleFormHost (sampleForm "1200").companyInput = false ∧
    ∃ w1, processSubmission sampleFormHost World.empty (sampleForm "1200") sampleClock = .ok w1 ∧
      (loadRecords w1).1 = .arr ([] ++ [newRecord sampleFormHost (sampleForm "1200") sampleClock]) ∧
      ((sampleForm "1200").valueInput = none →
        (newRecord sampleFormHost (sampleForm "1200") sampleClock).get "value"
          = some (.num 0)) ∧
      (∀ text, (sampleForm "1200").valueInput = some text →
        (text = "" ∨ sampleFormHost.parseFloat text = .nan ∨
          sampleFormHost.parseFloat text = .finite 0) →
        (newRecord sampleFormHost (sampleForm "1200") sampleClock).get "value"
          = some (.num 0)) ∧
      (∀ text negative, (sampleForm "1200").valueInput = some text →
        sampleFormHost.parseFloat text = .infinity negative →
        (newRecord sampleFormHost (sampleForm "1200") sampleClock).get "value" = some .null) ∧
      (∀ text (n : Int), (sampleForm "1200").valueInput = some text → n ≠ 0 →
        sampleFormHost.parseFloat text = .finite n →
        (newRecord sampleFormHost (sampleForm "1200") sampleClock).get "value"
          = some (.num n)) ∧
      (∀ text (q : ℚ), (sampleForm "1200").valueInput = some text → q.den ≠ 1 →
        sampleFormHost.parseFloat text = .finite q →
        (newRecord sampleFormHost (sampleForm "1200") sampleClock).get "value"
          = some (.frac q)) :=
  ⟨rfl, rfl, rfl,
   submission_value sampleFormHost World.empty (sampleForm "1200") sampleClock [] rfl rfl rfl⟩

/-- Counterexample to C20 as stated: the store holds one record whose id is
the clock reading of the submission; the ids are distinct before, the
submission succeeds, and afterwards two records have the same id. -/
theorem submission_repeats_id :
    (idsOf [sampleRecord 1717200000000 "Prospect" "2024-06-01T00:00:00.000Z"]).Nodup ∧
    (processSubmission sampleFormHost
      (World.holding (.json (.arr
        [sampleRecord 1717200000000 "Prospect" "2024-06-01T00:00:00.000Z"])))
      (sampleForm "1200") sampleClock).map (fun w1 => (loadRecords w1).1)
      = .ok (.arr [sampleRecord 1717200000000 "Prospect" "2024-06-01T00:00:00.000Z",
          newRecord sampleFormHost (sampleForm "1200") sampleClock]) ∧
    idsOf [sampleRecord 1717200000000 "Prospect" "2024-06-01T00:00:00.000Z",
        newRecord sampleFormHost (sampleForm "1200") sampleClock]
      = [some (.num 1717200000000), some (.num 1717200000000)] ∧
    ¬ (idsOf [sampleRecord 1717200000000 "Prospect" "2024-06-01T00:00:00.000Z",
        newRecord sampleFormHost (sampleForm "1200") sampleClock]).Nodup := by
  refine ⟨by simp [idsOf], rfl, rfl, ?_⟩
  have h : idsOf [sampleRecord 1717200000000 "Prospect" "2024-06-01T00:00:00.000Z",
        newRecord sampleFormHost (sampleForm "1200") sampleClock]
      = [some (.num 1717200000000), some (.num 1717200000000)] := rfl
  rw [h]
  simp

/-- C20, amended: on a store whose collection is `items`, if the ids of
`items` are pairwise distinct and no record of `items` has the id
`Date.now()` reads at the submission, then a successful form submission leaves
the local store holding `items` followed by the new record, whose id is that
reading, and the ids are still pairwise distinct. -/
theorem submission_keeps_ids_distinct (H : FormHost) (w : World) (form : QuoteForm)
    (clock : Clock) (items : List Json) (hload : (loadRecords w).1 = .arr items)
    (hproject : missingField H form.projectInput = false)
    (hcompany : missingField H form.companyInput = false)
    (hdistinct : (idsOf items).Nodup)
    (hnew : ∀ r ∈ items, r.get "id" ≠ some (.num clock.now)) :
    ∃ w1, processSubmission H w form clock = .ok w1 ∧
      (loadRecords w1).1 = .arr (items ++ [newRecord H form clock]) ∧
      (newRecord H form clock).get "id" = some (.num clock.now) ∧
      (idsOf (items ++ [newRecord H form clock])).Nodup := by
  obtain ⟨w1, hOk, hBack⟩ := processSubmission_ok H w form clock items hload hproject hcompany
  refine ⟨w1, hOk, hBack, newRecord_id H form clock, ?_⟩
  have hIds : idsOf (items ++ [newRecord H form clock])
      = idsOf items ++ [some (.num clock.now)] := by
    simp [idsOf, newRecord_id]
  rw [hIds, List.nodup_append]
  refine ⟨hdistinct, List.nodup_singleton _, ?_⟩
  intro a ha hb
  simp only [List.mem_singleton] at hb
  subst hb
  obtain ⟨r, hr, hEq⟩ := List.mem_map.1 ha
  exact hnew r hr hEq

/-- Witness of C20 amended: two stored records with ids 1 and 2, a submission
at a later clock reading. -/
theorem submission_keeps_ids_distinct_witness :
    (loadRecords (World.holding (.json (.arr sampleRecords)))).1 = .arr sampleRecords ∧
    missingField sampleFormHost (sampleForm "1200").projectInput = false ∧
    missingField sampleFormHost (sampleForm "1200").companyInput = false ∧
    (idsOf sampleRecords).Nodup ∧
    (∀ r ∈ sampleRecords, r.get "id" ≠ some (.num sampleClock.now)) ∧
    ∃ w1, processSubmission sampleFormHost (World.holding (.json (.arr sampleRecords)))
        (sampleForm "1200") sampleClock = .ok w1 ∧
      (loadRecords w1).1
        = .arr (sampleRecords ++ [newRecord sampleFormHost (sampleForm "1200") sampleClock]) ∧
      (newRecord sampleFormHost (sampleForm "1200") sampleClock).get "id"
        = some (.num sampleClock.now) ∧
      (idsOf (sampleRecords ++ [newRecord sampleFormHost (sampleForm "1200") sampleClock])).Nodup :=
  have hdistinct : (idsOf sampleRecords).Nodup := by
    have h : idsOf sampleRecords = [some (.num 1), some (.num 2)] := rfl
    rw [h]
    simp
  have hnew : ∀ r ∈ sampleRecords, r.get "id" ≠ some (.num sampleClock.now) := by
    intro r hr
    simp only [sampleRecords, List.mem_cons, List.mem_singleton, List.not_mem_nil,
      or_false] at hr
    rcases hr with rfl | rfl
    · intro h
      simp [sampleRecord, Json.get, List.lookup, sampleClock] at h
    · intro h
      simp [sampleRecord, Json.get, List.lookup, sampleClock] at h
  ⟨rfl, rfl, rfl, hdistinct, hnew,
   submission_keeps_ids_distinct sampleFormHost (World.holding (.json (.arr sampleRecords)))
     (sampleForm "1200") sampleClock sampleRecords rfl rfl rfl hdistinct hnew⟩

/-! ## `updateRecord`: the result and what it changes -/

section UpdateResult

theorem lookup_append_single (l : List (String × Json)) (kv : String × Json) (k : String) :
    (l ++ [kv]).lookup k =
      match l.lookup k with
      | some v => some v
      | none => if k = kv.1 then some kv.2 else none := by
  induction l with
  | nil =>
    obtain ⟨k0, v0⟩ := kv
    by_cases h : k = k0
    · simp [List.lookup, h]
    · have hb : (k == k0) = false := beq_eq_false_iff_ne.mpr h
      simp [List.lookup, h, hb]
  | cons x xs ih =>
    obtain ⟨k1, v1⟩ := x
    by_cases h : k = k1
    · simp [List.lookup, h]
    · have hb : (k == k1) = false := beq_eq_false_iff_ne.mpr h
      simp only [List.cons_append, List.lookup, hb]
      exact ih

theorem lookup_assign (source target : List (String × Json)) (k : String) :
    (Object.assign target source).lookup k =
      match source.reverse.lookup k with
      | some v => some v
      | none => target.lookup k := by
  unfold Object.assign
  induction source generalizing target with
  | nil => rfl
  | cons kv rest ih =>
    simp only [List.foldl_cons, List.reverse_cons]
    rw [ih, lookup_append_single, lookup_setProp]
    cases rest.reverse.lookup k with
    | some v => rfl
    | none =>
      by_cases h : k = kv.1
      · simp [h]
      · simp [h]

end UpdateResult

/-- C23: on a store holding the collection `items` (records, so no element is
`null`) and for every number `id` and every `updates`, `updateRecord(id,
updates)` returns `true` exactly when some record of `items` has the id `id`.
When it returns `false` the page state is as before: the local storage is
unchanged and no request was issued. When it returns `true` the collection
read back is `items` with the first record having that id replaced by the
record with `updates` applied (for every key other than `updatedAt` the last
value `updates` gives it, else the value the record had) and every other
record as it was. -/
theorem updateRecord_iff_present (w : World) (now : String) (id : JsNumber)
    (updates : List (String × Json)) (items : List Json)
    (hstore : w.localStorage.getItem STORAGE_KEY = some (.json (.arr items)))
    (hrec : ∀ r ∈ items, r ≠ Json.null) :
    ∃ found w1, updateRecord w now id updates = .ok (found, w1) ∧
      (found = true ↔ ∃ r ∈ items, hasId r id = true) ∧
      (found = false → w1 = w) ∧
      (found = true → ∃ pre fields fields1 post,
        items = pre ++ .obj fields :: post ∧ (∀ r ∈ pre, hasId r id = false) ∧
        hasId (.obj fields) id = true ∧
        (loadRecords w1).1 = .arr (pre ++ .obj fields1 :: post) ∧
        ∀ k, k ≠ "updatedAt" → fields1.lookup k =
          match updates.reverse.lookup k with
          | some v => some v
          | none => fields.lookup k) := by
  have hL : loadRecords w = (.arr items, w) := loadRecords_of_array w items hstore
  rcases first_match_split (fun r => hasId r id) items with hnone | ⟨pre, x, post, hEq, hpre, hx⟩
  · have hAll : ∀ r ∈ items, r ≠ Json.null ∧ hasId r id = false :=
      fun r hr => ⟨hrec r hr, hnone r hr⟩
    refine ⟨false, w, updateRecord_absent w w now id updates items hL hAll, ?_, fun _ => rfl, ?_⟩
    · constructor
      · intro h; cases h
      · rintro ⟨r, hr, hId⟩
        rw [hnone r hr] at hId
        cases hId
    · intro h; cases h
  · obtain ⟨fields, n, rfl, _, _⟩ := hasId_obj x id hx
    subst hEq
    have hpre1 : ∀ r ∈ pre, r ≠ Json.null ∧ hasId r id = false :=
      fun r hr => ⟨hrec r (List.mem_append_left _ hr), hpre r hr⟩
    refine ⟨true, _, updateRecord_found w w now id updates pre post fields hL hpre1 hx,
      ?_, ?_, ?_⟩
    · constructor
      · intro _
        exact ⟨.obj fields, by simp, hx⟩
      · intro _; rfl
    · intro h; cases h
    · intro _
      refine ⟨pre, fields, _, post, rfl, hpre, hx, loadRecords_after_save _ _, ?_⟩
      intro k hk
      rw [lookup_assign_of_not_key _ _ k (by
        intro kv hkv
        simp only [List.mem_singleton] at hkv
        subst hkv
        exact fun h => hk h.symm)]
      exact lookup_assign updates fields k

/-- Witness of C23: two stored records, an edit of the notes of the second. -/
theorem updateRecord_iff_present_witness :
    (World.holding (.json (.arr sampleRecords))).localStorage.getItem STORAGE_KEY
      = some (.json (.arr sampleRecords)) ∧
    (∀ r ∈ sampleRecords, r ≠ Json.null) ∧
    ∃ found w1, updateRecord (World.holding (.json (.arr sampleRecords)))
        "2024-07-01T00:00:00.000Z" (.int 2) [("notes", Json.str "call back")] = .ok (found, w1) ∧
      (found = true ↔ ∃ r ∈ sampleRecords, hasId r (.int 2) = true) ∧
      (found = false → w1 = World.holding (.json (.arr sampleRecords))) ∧
      (found = true → ∃ pre fields fields1 post,
        sampleRecords = pre ++ .obj fields :: post ∧ (∀ r ∈ pre, hasId r (.int 2) = false) ∧
        hasId (.obj fields) (.int 2) = true ∧
        (loadRecords w1).1 = .arr (pre ++ .obj fields1 :: post) ∧
        ∀ k, k ≠ "updatedAt" → fields1.lookup k =
          match [("notes", Json.str "call back")].reverse.lookup k with
          | some v => some v
          | none => fields.lookup k) :=
  have hrec : ∀ r ∈ sampleRecords, r ≠ Json.null := by
    intro r hr h
    subst h
    simp [sampleRecords, sampleRecord] at hr
  ⟨rfl, hrec,
   updateRecord_iff_present (World.holding (.json (.arr sampleRecords)))
     "2024-07-01T00:00:00.000Z" (.int 2) [("notes", Json.str "call back")] sampleRecords rfl hrec⟩

/-- C25: on a store whose collection is `items` (records, so no element is
`null`), whatever their stages, known or not, and their timestamps,
`getSortedRecords()` returns an array that is a permutation of `items`: the
same records, each as often as in `items`, none altered. -/
theorem getSortedRecords_permutation (E : Host) (w : World) (items : List Json)
    (hload : (loadRecords w).1 = .arr items) (hrec : ∀ r ∈ items, r ≠ Json.null) :
    ∃ sorted, (getSortedRecords E w).1 = .ok (.arr sorted) ∧ sorted.Perm items ∧
      sorted.length = items.length ∧ ∀ r, r ∈ sorted ↔ r ∈ items := by
  refine ⟨_, getSortedRecords_of_records E w items hload hrec,
    List.perm_insertionSort _ items, List.length_insertionSort _ items, ?_⟩
  intro r
  exact List.mem_insertionSort _

/-- Witness of C25: a store holding a record in an unknown stage and one in a known stage. -/
theorem getSortedRecords_permutation_witness :
    (loadRecords (World.holding (.json (.arr
      [sampleRecord 1 "Archived" "soon", sampleRecord 2 "Prospect" "2024-01-01T00:00:00.000Z"])))).1
      = .arr [sampleRecord 1 "Archived" "soon",
          sampleRecord 2 "Prospect" "2024-01-01T00:00:00.000Z"] ∧
    (∀ r ∈ [sampleRecord 1 "Archived" "soon",
      sampleRecord 2 "Prospect" "2024-01-01T00:00:00.000Z"], r ≠ Json.null) ∧
    ∃ sorted, (getSortedRecords sampleHost (World.holding (.json (.arr
        [sampleRecord 1 "Archived" "soon",
         sampleRecord 2 "Prospect" "2024-01-01T00:00:00.000Z"])))).1 = .ok (.arr sorted) ∧
      sorted.Perm [sampleRecord 1 "Archived" "soon",
        sampleRecord 2 "Prospect" "2024-01-01T00:00:00.000Z"] ∧
      sorted.length = [sampleRecord 1 "Archived" "soon",
        sampleRecord 2 "Prospect" "2024-01-01T00:00:00.000Z"].length ∧
      ∀ r, r ∈ sorted ↔ r ∈ [sampleRecord 1 "Archived" "soon",
        sampleRecord 2 "Prospect" "2024-01-01T00:00:00.000Z"] :=
  have hrec : ∀ r ∈ [sampleRecord 1 "Archived" "soon",
      sampleRecord 2 "Prospect" "2024-01-01T00:00:00.000Z"], r ≠ Json.null := by
    intro r hr h
    subst h
    simp [sampleRecord] at hr
  ⟨rfl, hrec, getSortedRecords_permutation sampleHost _ _ rfl hrec⟩

/-! ## Metrics -/

section MetricsCounts

theorem stageIs_of_record (stage : String) (r : Json) (h : r ≠ .null) :
    stageIs stage r = .ok (inStage stage r) := by
  cases r with
  | null => exact absurd rfl h
  | obj fields =>
    simp only [stageIs, inStage, Json.prop, Json.get]
    cases hL : fields.lookup "stage" with
    | none => rfl
    | some v => cases v <;> rfl
  | bool b => rfl
  | num n => rfl
  | frac q => rfl
  | str t => rfl
  | arr l => rfl

theorem isNextTouch_of_record (E : Host) (now : Int) (r : Json) (h : r ≠ .null) :
    ∃ b, isNextTouch E now r = .ok b := by
  have hp : r.prop "nextDate" = .ok (r.get "nextDate") := by
    cases r <;> first | exact absurd rfl h | rfl
  unfold isNextTouch
  rw [hp]
  cases r.get "nextDate" with
  | none => exact ⟨false, rfl⟩
  | some v =>
    show ∃ b, (if (!v.truthy) = true then (pure false : Except JsError Bool) else
        match newDate E v with
        | none => pure false
        | some t => pure (decide (0 ≤ t - now) && decide (t - now ≤ 7 * 86400000))) = .ok b
    split
    · exact ⟨false, rfl⟩
    · split
      · exact ⟨false, rfl⟩
      · exact ⟨_, rfl⟩

theorem length_filter_split {α : Type} (p : α → Bool) (l : List α) :
    (l.filter (fun a => !p a)).length + (l.filter p).length = l.length := by
  induction l with
  | nil => rfl
  | cons a rest ih =>
    cases hp : p a
    · simp [List.filter, hp]; omega
    · simp [List.filter, hp]; omega

theorem length_filter_mono {α : Type} (p q : α → Bool) (l : List α)
    (h : ∀ a, p a = true → q a = true) : (l.filter p).length ≤ (l.filter q).length := by
  induction l with
  | nil => simp
  | cons a rest ih =>
    cases hp : p a
    · cases hq : q a
      · simp [List.filter, hp, hq]; exact ih
      · simp [List.filter, hp, hq]; omega
    · simp [List.filter, hp, h a hp]; exact ih

theorem won_is_not_lost (r : Json) (h : inStage "Closed Won" r = true) :
    (!inStage "Closed Lost" r) = true := by
  unfold inStage at h ⊢
  cases hS : r.get "stage" with
  | none => rw [hS] at h; cases h
  | some v =>
    rw [hS] at h
    cases v with
    | str s =>
      simp only [beq_iff_eq] at h
      subst h
      decide
    | null => cases h
    | bool b => cases h
    | num n => cases h
    | frac q => cases h
    | arr l => cases h
    | obj f => cases h

end MetricsCounts

/-- C26: for every list of records (no element is `null`), `computeMetrics`
returns counts with `active + lost` the number of records and `won ≤ active`;
`active` counts the records whose stage is not Closed Lost, Closed Won ones
included, `won` those in Closed Won and `lost` those in Closed Lost. -/
theorem computeMetrics_counts (E : Host) (now : Int) (records : List Json)
    (hrec : ∀ r ∈ records, r ≠ Json.null) :
    ∃ m, computeMetrics E now records = .ok m ∧
      m.active + m.lost = records.length ∧ m.won ≤ m.active ∧
      m.active = (records.filter (fun r => !inStage "Closed Lost" r)).length ∧
      m.won = (records.filter (inStage "Closed Won")).length ∧
      m.lost = (records.filter (inStage "Closed Lost")).length := by
  have hA := Array.filter_of_total
    (fun record => (do return !(← stageIs "Closed Lost" record) : Except JsError Bool))
    (fun r => !inStage "Closed Lost" r) records (by
      intro r hr
      show (do return !(← stageIs "Closed Lost" r) : Except JsError Bool) = _
      rw [stageIs_of_record _ r (hrec r hr)]
      rfl)
  have hW := Array.filter_of_total (stageIs "Closed Won") (inStage "Closed Won") records
    (fun r hr => stageIs_of_record _ r (hrec r hr))
  have hLo := Array.filter_of_total (stageIs "Closed Lost") (inStage "Closed Lost") records
    (fun r hr => stageIs_of_record _ r (hrec r hr))
  have hN := Array.filter_of_total (isNextTouch E now)
    (fun r => match isNextTouch E now r with
      | .ok b => b
      | .error _ => false) records (by
      intro r hr
      obtain ⟨b, hb⟩ := isNextTouch_of_record E now r (hrec r hr)
      simp [hb])
  refine ⟨_, by simp only [computeMetrics, hA, hW, hLo, hN]; rfl, ?_, ?_, rfl, rfl, rfl⟩
  · exact length_filter_split (inStage "Closed Lost") records
  · exact length_filter_mono _ _ records won_is_not_lost

/-- Witness of C26: a won, a lost and an open record. -/
theorem computeMetrics_counts_witness :
    (∀ r ∈ [sampleRecord 1 "Closed Won" "2024-01-01T00:00:00.000Z",
      sampleRecord 2 "Closed Lost" "2024-01-01T00:00:00.000Z",
      sampleRecord 3 "Prospect" "2024-01-01T00:00:00.000Z"], r ≠ Json.null) ∧
    ∃ m, computeMetrics sampleHost 1717200000000
        [sampleRecord 1 "Closed Won" "2024-01-01T00:00:00.000Z",
         sampleRecord 2 "Closed Lost" "2024-01-01T00:00:00.000Z",
         sampleRecord 3 "Prospect" "2024-01-01T00:00:00.000Z"] = .ok m ∧
      m.active + m.lost = [sampleRecord 1 "Closed Won" "2024-01-01T00:00:00.000Z",
        sampleRecord 2 "Closed Lost" "2024-01-01T00:00:00.000Z",
        sampleRecord 3 "Prospect" "2024-01-01T00:00:00.000Z"].length ∧
      m.won ≤ m.active ∧
      m.active = ([sampleRecord 1 "Closed Won" "2024-01-01T00:00:00.000Z",
        sampleRecord 2 "Closed Lost" "2024-01-01T00:00:00.000Z",
        sampleRecord 3 "Prospect" "2024-01-01T00:00:00.000Z"].filter
          (fun r => !inStage "Closed Lost" r)).length ∧
      m.won = ([sampleRecord 1 "Closed Won" "2024-01-01T00:00:00.000Z",
        sampleRecord 2 "Closed Lost" "2024-01-01T00:00:00.000Z",
        sampleRecord 3 "Prospect" "2024-01-01T00:00:00.000Z"].filter
          (inStage "Closed Won")).length ∧
      m.lost = ([sampleRecord 1 "Closed Won" "2024-01-01T00:00:00.000Z",
        sampleRecord 2 "Closed Lost" "2024-01-01T00:00:00.000Z",
        sampleRecord 3 "Prospect" "2024-01-01T00:00:00.000Z"].filter
          (inStage "Closed Lost")).length :=
  have hrec : ∀ r ∈ [sampleRecord 1 "Closed Won" "2024-01-01T00:00:00.000Z",
      sampleRecord 2 "Closed Lost" "2024-01-01T00:00:00.000Z",
      sampleRecord 3 "Prospect" "2024-01-01T00:00:00.000Z"], r ≠ Json.null := by
    intro r hr h
    subst h
    simp [sampleRecord] at hr
  ⟨hrec, computeMetrics_counts sampleHost 1717200000000 _ hrec⟩

/-! ## `formatPhone` -/

section Phone

theorem formatPhone_eq (s : String) :
    formatPhone s = String.mk (groupDigits (s.toList.filter Char.isDigit)) := by
  unfold formatPhone groupDigits
  by_cases hE : s = ""
  · subst hE
    rfl
  · simp only [hE, if_false]
    split
    · rfl
    · split
      · simp
      · simp

theorem groupDigits_take (d : List Char) : groupDigits (d.take 10) = groupDigits d := by
  unfold groupDigits
  by_cases h3 : d.length ≤ 3
  · rw [List.take_of_length_le (by omega)]
  · by_cases h6 : d.length ≤ 6
    · rw [List.take_of_length_le (by omega)]
    · have hlen : (d.take 10).length = min 10 d.length := List.length_take 10 d
      have hgt : ¬ (d.take 10).length ≤ 6 := by rw [hlen]; omega
      have hgt3 : ¬ (d.take 10).length ≤ 3 := by rw [hlen]; omega
      simp only [h3, h6, hgt, hgt3, if_false]
      rw [List.take_take, List.drop_take, List.drop_take, List.take_take, List.take_take]
      rfl

theorem filter_digits_group (d : List Char) (hd : ∀ c ∈ d, c.isDigit = true) :
    (groupDigits d).filter Char.isDigit = d.take 10 := by
  have hsub : ∀ (l : List Char), (∀ c ∈ l, c ∈ d) → l.filter Char.isDigit = l := by
    intro l hl
    rw [List.filter_eq_self]
    intro c hc
    exact hd c (hl c hc)
  have hdash : Char.isDigit '-' = false := by decide
  have hone : ['-'].filter Char.isDigit = [] := by
    simp [List.filter, hdash]
  unfold groupDigits
  by_cases h3 : d.length ≤ 3
  · simp only [h3, if_true]
    rw [hsub d (fun c hc => hc), List.take_of_length_le (by omega)]
  · by_cases h6 : d.length ≤ 6
    · simp only [h3, h6, if_true, if_false]
      rw [List.filter_append, List.filter_append, hone,
        hsub _ (fun c hc => List.mem_of_mem_take hc),
        hsub _ (fun c hc => List.mem_of_mem_drop hc), List.append_nil, List.take_append_drop,
        List.take_of_length_le (by omega)]
    · simp only [h3, h6, if_false]
      rw [List.filter_append, List.filter_append, List.filter_append, List.filter_append, hone,
        hsub _ (fun c hc => List.mem_of_mem_take hc),
        hsub _ (fun c hc => List.mem_of_mem_drop (List.mem_of_mem_take hc)),
        hsub _ (fun c hc => List.mem_of_mem_drop (List.mem_of_mem_take hc)),
        List.append_nil, List.append_nil]
      have e1 : d.take (3 + 7) = d.take 3 ++ (d.drop 3).take 7 := List.take_add d 3 7
      have e2 : (d.drop 3).take (3 + 4) = (d.drop 3).take 3 ++ ((d.drop 3).drop 3).take 4 :=
        List.take_add (d.drop 3) 3 4
      rw [List.drop_drop] at e2
      rw [show (10 : Nat) = 3 + 7 from rfl, e1, show (7 : Nat) = 3 + 4 from rfl, e2,
        List.append_assoc]

end Phone

/-- C27: for every string `s`, with `d` the first ten digits of `s` in order,
`formatPhone(s)` is `d` grouped 3-3-4 by hyphens (`d` itself up to three
digits, 3-rest up to six), its digits are exactly `d`, and formatting the
result again gives the same string. -/
theorem formatPhone_idempotent (s : String) :
    (formatPhone s).toList =
      (if ((s.toList.filter Char.isDigit).take 10).length ≤ 3 then
        (s.toList.filter Char.isDigit).take 10
      else if ((s.toList.filter Char.isDigit).take 10).length ≤ 6 then
        ((s.toList.filter Char.isDigit).take 10).take 3 ++ ['-'] ++
          ((s.toList.filter Char.isDigit).take 10).drop 3
      else
        ((s.toList.filter Char.isDigit).take 10).take 3 ++ ['-'] ++
          (((s.toList.filter Char.isDigit).take 10).drop 3).take 3 ++ ['-'] ++
          (((s.toList.filter Char.isDigit).take 10).drop 6).take 4) ∧
    (formatPhone s).toList.filter Char.isDigit = (s.toList.filter Char.isDigit).take 10 ∧
    formatPhone (formatPhone s) = formatPhone s := by
  have hd : ∀ c ∈ s.toList.filter Char.isDigit, c.isDigit = true :=
    fun c hc => (List.mem_filter.1 hc).2
  have hList : (formatPhone s).toList = groupDigits (s.toList.filter Char.isDigit) := by
    rw [formatPhone_eq]
    rfl
  have hDigits : (formatPhone s).toList.filter Char.isDigit
      = (s.toList.filter Char.isDigit).take 10 := by
    rw [hList, filter_digits_group _ hd]
  refine ⟨?_, hDigits, ?_⟩
  · rw [hList, ← groupDigits_take]
    rfl
  · rw [formatPhone_eq (formatPhone s), hDigits, groupDigits_take, ← formatPhone_eq]

/-! ## `escapeHTML` -/

section Escape

theorem escapeChar_cases (c : Char) :
    (isSpecial c = false ∧ escapeChar c = [c]) ∨
      ∃ body ∈ entityBodies, escapeChar c = '&' :: body := by
  unfold escapeChar isSpecial entityBodies
  by_cases h1 : c = '&'
  · right; exact ⟨['a', 'm', 'p', ';'], by simp, by simp [h1]⟩
  · by_cases h2 : c = '<'
    · right; exact ⟨['l', 't', ';'], by simp, by simp [h2]⟩
    · by_cases h3 : c = '>'
      · right; exact ⟨['g', 't', ';'], by simp, by simp [h3]⟩
      · by_cases h4 : c = Char.ofNat 34
        · right; exact ⟨['q', 'u', 'o', 't', ';'], by simp, by simp [h4]⟩
        · by_cases h5 : c = Char.ofNat 39
          · right; exact ⟨['#', '3', '9', ';'], by simp, by simp [h5]⟩
          · left
            simp [h1, h2, h3, h4, h5]

theorem entityBodies_plain (body : List Char) (h : body ∈ entityBodies) :
    ∀ x ∈ body, isSpecial x = false := by
  unfold entityBodies at h
  simp only [List.mem_cons, List.mem_singleton, List.not_mem_nil, or_false] at h
  rcases h with rfl | rfl | rfl | rfl | rfl <;> decide

theorem escapeChars_plain (l : List Char) :
    ∀ x ∈ escapeChars l, x = '&' ∨ isSpecial x = false := by
  induction l with
  | nil => intro x hx; cases hx
  | cons c cs ih =>
    intro x hx
    simp only [escapeChars, List.mem_append] at hx
    rcases hx with hx | hx
    · rcases escapeChar_cases c with ⟨hc, hE⟩ | ⟨body, hb, hE⟩
      · rw [hE] at hx
        simp only [List.mem_singleton] at hx
        subst hx
        exact Or.inr hc
      · rw [hE] at hx
        rcases List.mem_cons.1 hx with rfl | hx
        · exact Or.inl rfl
        · exact Or.inr (entityBodies_plain body hb x hx)
    · exact ih x hx

theorem split_after_plain (e rest pre post : List Char) (he : ∀ x ∈ e, x ≠ '&')
    (h : e ++ rest = pre ++ '&' :: post) :
    ∃ pre1, pre = e ++ pre1 ∧ rest = pre1 ++ '&' :: post := by
  induction e generalizing pre with
  | nil => exact ⟨pre, rfl, h⟩
  | cons x xs ih =>
    cases pre with
    | nil =>
      simp only [List.cons_append, List.nil_append, List.cons.injEq] at h
      exact absurd h.1 (he x (List.mem_cons_self x xs))
    | cons p ps =>
      simp only [List.cons_append, List.cons.injEq] at h
      obtain ⟨pre1, hp, hr⟩ := ih ps (fun y hy => he y (List.mem_cons_of_mem x hy)) h.2
      exact ⟨pre1, by rw [h.1, hp]; rfl, hr⟩

theorem isSpecial_amp : isSpecial '&' = true := by decide

theorem escapeChars_entities (l pre post : List Char)
    (h : escapeChars l = pre ++ '&' :: post) :
    ∃ body ∈ entityBodies, ∃ rest, post = body ++ rest := by
  induction l generalizing pre with
  | nil =>
    simp only [escapeChars] at h
    cases pre <;> cases h
  | cons c cs ih =>
    simp only [escapeChars] at h
    rcases escapeChar_cases c with ⟨hc, hE⟩ | ⟨body, hb, hE⟩
    · rw [hE] at h
      have hne : ∀ x ∈ [c], x ≠ '&' := by
        intro x hx hamp
        simp only [List.mem_singleton] at hx
        subst hx
        subst hamp
        rw [isSpecial_amp] at hc
        cases hc
      obtain ⟨pre1, _, hr⟩ := split_after_plain [c] _ pre post hne h
      exact ih pre1 hr
    · rw [hE] at h
      cases pre with
      | nil =>
        simp only [List.cons_append, List.nil_append, List.cons.injEq, true_and] at h
        exact ⟨body, hb, escapeChars cs, h.symm⟩
      | cons p ps =>
        simp only [List.cons_append, List.cons.injEq] at h
        have hne : ∀ x ∈ body, x ≠ '&' := by
          intro x hx hamp
          subst hamp
          have := entityBodies_plain body hb _ hx
          rw [isSpecial_amp] at this
          cases this
        obtain ⟨pre1, _, hr⟩ := split_after_plain body _ ps post hne h.2
        exact ih pre1 hr

theorem escapeChars_of_plain (l : List Char) (h : ∀ c ∈ l, isSpecial c = false) :
    escapeChars l = l := by
  induction l with
  | nil => rfl
  | cons c cs ih =>
    have hc := h c (List.mem_cons_self c cs)
    rcases escapeChar_cases c with ⟨_, hE⟩ | ⟨body, hb, hE⟩
    · simp only [escapeChars, hE, ih (fun x hx => h x (List.mem_cons_of_mem c hx))]
      rfl
    · exfalso
      unfold isSpecial at hc
      unfold escapeChar at hE
      simp only [Bool.or_eq_false_iff, beq_eq_false_iff_ne, ne_eq] at hc
      obtain ⟨⟨⟨⟨h1, h2⟩, h3⟩, h4⟩, h5⟩ := hc
      simp only [h1, h2, h3, h4, h5, if_false, List.cons.injEq] at hE
      exact hE.1.elim

end Escape

/-- C24: for every string `s`, `escapeHTML(s)` has none of the characters `<`,
`>`, double quote (code 34) and single quote (code 39); wherever it has an
`&`, what follows starts with `amp;`, `lt;`, `gt;`, `quot;` or `#39;`; and a
string with none of the five special characters is returned unchanged. -/
theorem escapeHTML_safe (s : String) :
    (∀ c ∈ (escapeHTML s).toList,
      c ≠ '<' ∧ c ≠ '>' ∧ c ≠ Char.ofNat 34 ∧ c ≠ Char.ofNat 39) ∧
    (∀ pre post, (escapeHTML s).toList = pre ++ '&' :: post →
      ∃ body ∈ entityBodies, ∃ rest, post = body ++ rest) ∧
    ((∀ c ∈ s.toList, isSpecial c = false) → escapeHTML s = s) := by
  have hList : (escapeHTML s).toList = escapeChars s.toList := rfl
  refine ⟨?_, ?_, ?_⟩
  · intro c hc
    rw [hList] at hc
    rcases escapeChars_plain _ c hc with rfl | hP
    · decide
    · unfold isSpecial at hP
      simp only [Bool.or_eq_false_iff, beq_eq_false_iff_ne, ne_eq] at hP
      exact ⟨hP.1.1.1.2, hP.1.1.2, hP.1.2, hP.2⟩
  · intro pre post h
    rw [hList] at h
    exact escapeChars_entities _ pre post h
  · intro h
    unfold escapeHTML
    rw [escapeChars_of_plain _ h]
    cases s
    rfl

/-- Witness of C24: a string with none of the special characters. -/
theorem escapeHTML_safe_witness :
    ((∀ c ∈ "Acme 42".toList, isSpecial c = false) ∧ escapeHTML "Acme 42" = "Acme 42") ∧
    ((escapeHTML "a<b").toList = ['a'] ++ '&' :: ['l', 't', ';', 'b'] ∧
      ∃ body ∈ entityBodies, ∃ rest, ['l', 't', ';', 'b'] = body ++ rest) :=
  ⟨⟨by decide, (escapeHTML_safe "Acme 42").2.2 (by decide)⟩,
   ⟨rfl, (escapeHTML_safe "a<b").2.1 ['a'] ['l', 't', ';', 'b'] rfl⟩⟩

/-! ## The server's snapshot endpoint -/

section Server

theorem parseSnapshot_of_array (item : ListItem) (items : List Json)
    (h : item.payload = some (.json (.arr items))) : parseSnapshot item = .arr items := by
  simp [parseSnapshot, h, Text.truthy, JSON.parse]

theorem crmRouter_put_ok (list : List ListItem) (items : List Json) :
    crmRouter_put list (.arr items) none none =
      ({ status := 200, body := .arr items },
        match list.head? with
        | some item => updateItem list item.id (JSON.stringify (.arr items))
        | none => createItem list (JSON.stringify (.arr items))) := by
  cases list with
  | nil => rfl
  | cons item rest => rfl

theorem bearerToken_of_empty : bearerToken none = "" ∧ bearerToken (some "") = "" :=
  ⟨rfl, rfl⟩

end Server

/-- C21: on the snapshot endpoint, for every array body, the empty one
included, and every prior state of the backing list, a `PUT` whose calls to
Graph go through answers 200 with the body, leaves the list with its first
item carrying the body (the existing first item updated, the other items
kept, or one item created when the list was empty), and a `GET` after it
answers 200 with an array equal to the body; a body that is not an array is
answered with status 400 and the list is left as it was, whatever Graph does. -/
theorem put_then_get (list : List ListItem) :
    (∀ items : List Json,
      (crmRouter_put list (.arr items) none none).1 = { status := 200, body := .arr items } ∧
      crmRouter_get (crmRouter_put list (.arr items) none none).2 none
        = { status := 200, body := .arr items } ∧
      (list = [] → ∃ id, (crmRouter_put list (.arr items) none none).2
        = [{ id := id, payload := some (.json (.arr items)) }]) ∧
      (∀ item rest, list = item :: rest →
        ∃ rest1, (crmRouter_put list (.arr items) none none).2
          = { id := item.id, payload := some (.json (.arr items)) } :: rest1 ∧
          rest1.length = rest.length)) ∧
    (∀ (body : Json) (readFault writeFault : Option HttpError), Array.isArray body = false →
      crmRouter_put list body readFault writeFault =
        ({ status := 400,
           body := .obj [("error", .str "Payload must be an array of CRM records")] }, list)) := by
  constructor
  · intro items
    rw [crmRouter_put_ok]
    cases list with
    | nil =>
      refine ⟨rfl, rfl, fun _ => ⟨_, rfl⟩, ?_⟩
      intro item rest h
      cases h
    | cons item rest =>
      have hUpd : updateItem (item :: rest) item.id (JSON.stringify (.arr items))
          = { id := item.id, payload := some (.json (.arr items)) }
            :: updateItem rest item.id (JSON.stringify (.arr items)) := by
        simp [updateItem, JSON.stringify]
      refine ⟨rfl, ?_, ?_, ?_⟩
      · show crmRouter_get (updateItem (item :: rest) item.id _) none = _
        rw [hUpd]
        have hParse := parseSnapshot_of_array
          { id := item.id, payload := some (.json (.arr items)) } items rfl
        simp [crmRouter_get, readSnapshot, hParse]
      · intro h; cases h
      · intro item1 rest1 h
        obtain ⟨h1, h2⟩ := List.cons.inj h
        subst h1
        subst h2
        exact ⟨_, hUpd, by simp [updateItem]⟩
  · intro body readFault writeFault hB
    simp [crmRouter_put, hB, errorHandler]

/-- Witness of C21: a list whose first item holds an old snapshot, a `PUT` of
two records; and a `PUT` of an object. -/
theorem put_then_get_witness :
    ((crmRouter_put [{ id := 7, payload := some (.json (.arr [])) }, { id := 9, payload := none }]
        (.arr sampleRecords) none none).1 = { status := 200, body := .arr sampleRecords } ∧
      crmRouter_get (crmRouter_put
        [{ id := 7, payload := some (.json (.arr [])) }, { id := 9, payload := none }]
        (.arr sampleRecords) none none).2 none = { status := 200, body := .arr sampleRecords }) ∧
    (Array.isArray (.obj [("id", .num 1)]) = false ∧
      crmRouter_put [{ id := 7, payload := some (.json (.arr [])) }, { id := 9, payload := none }]
        (.obj [("id", .num 1)]) none none =
        ({ status := 400,
           body := .obj [("error", .str "Payload must be an array of CRM records")] },
         [{ id := 7, payload := some (.json (.arr [])) }, { id := 9, payload := none }])) :=
  ⟨⟨((put_then_get _).1 sampleRecords).1, ((put_then_get _).1 sampleRecords).2.1⟩,
   ⟨rfl, (put_then_get _).2 (.obj [("id", .num 1)]) none none rfl⟩⟩

/-- C22: `authMiddleware` in front of the snapshot endpoint: when the
Authorization header is absent or empty, or the token (the header without its
first `Bearer `) is empty or fails verification, it answers 401 with an error
body and does not call `next`, so the route handler does not run and the list
is untouched; it calls `next` exactly when the token is not empty and
verification succeeds, with `req.user` the verified payload. -/
theorem authMiddleware_guards (verify : String → Option Json) (authorization : Option String) :
    ((authorization = none ∨ authorization = some "" ∨ bearerToken authorization = "" ∨
        verify (bearerToken authorization) = none) →
      (∃ message, authMiddleware verify authorization
        = .replied { status := 401, body := .obj [("error", .str message)] }) ∧
      (∀ list body readFault writeFault,
        (crmRecords_put verify authorization list body readFault writeFault).2 = list ∧
        (crmRecords_put verify authorization list body readFault writeFault).1.status = 401) ∧
      (∀ list fault, (crmRecords_get verify authorization list fault).status = 401)) ∧
    (∀ user, authMiddleware verify authorization = .next user ↔
      (bearerToken authorization ≠ "" ∧ verify (bearerToken authorization) = some user)) := by
  have hCases : (bearerToken authorization = "" ∧ authMiddleware verify authorization
        = .replied { status := 401, body := .obj [("error", .str "Unauthorized")] }) ∨
      (bearerToken authorization ≠ "" ∧ verify (bearerToken authorization) = none ∧
        authMiddleware verify authorization
          = .replied { status := 401, body := .obj [("error", .str "Invalid token")] }) ∨
      (bearerToken authorization ≠ "" ∧ ∃ user, verify (bearerToken authorization) = some user ∧
        authMiddleware verify authorization = .next user) := by
    by_cases hT : bearerToken authorization = ""
    · left; exact ⟨hT, by simp [authMiddleware, hT]⟩
    · cases hV : verify (bearerToken authorization) with
      | none => right; left; exact ⟨hT, rfl, by simp [authMiddleware, hT, hV]⟩
      | some user => right; right; exact ⟨hT, user, rfl, by simp [authMiddleware, hT, hV]⟩
  constructor
  · intro hBad
    have hRefused : bearerToken authorization = "" ∨
        verify (bearerToken authorization) = none := by
      rcases hBad with h | h | h | h
      · left; rw [h]; rfl
      · left; rw [h]; rfl
      · exact Or.inl h
      · exact Or.inr h
    have hReply : ∃ message, authMiddleware verify authorization
        = .replied { status := 401, body := .obj [("error", .str message)] } := by
      rcases hCases with ⟨_, hA⟩ | ⟨_, _, hA⟩ | ⟨hT, user, hV, _⟩
      · exact ⟨_, hA⟩
      · exact ⟨_, hA⟩
      · rcases hRefused with h | h
        · exact absurd h hT
        · rw [hV] at h; cases h
    obtain ⟨message, hA⟩ := hReply
    refine ⟨⟨message, hA⟩, ?_, ?_⟩
    · intro list body readFault writeFault
      simp [crmRecords_put, hA]
    · intro list fault
      simp [crmRecords_get, hA]
  · intro user
    rcases hCases with ⟨hT, hA⟩ | ⟨hT, hV, hA⟩ | ⟨hT, u, hV, hA⟩
    · rw [hA]
      constructor
      · intro h; cases h
      · intro h; exact absurd hT h.1
    · rw [hA, hV]
      constructor
      · intro h; cases h
      · intro h; cases h.2
    · rw [hA, hV]
      constructor
      · intro h
        cases h
        exact ⟨hT, rfl⟩
      · intro h
        cases h.2
        rfl

/-- Witness of C22: a request without an Authorization header, and one with a
token the verifier rejects. -/
theorem authMiddleware_guards_witness :
    ((none : Option String) = none ∨ (none : Option String) = some "" ∨
        bearerToken none = "" ∨ sampleVerify (bearerToken none) = none) ∧
    (∃ message, authMiddleware sampleVerify none
      = .replied { status := 401, body := .obj [("error", .str message)] }) ∧
    (sampleVerify (bearerToken (some "Bearer bad")) = none ∧
      ∀ list body readFault writeFault,
        (crmRecords_put sampleVerify (some "Bearer bad") list body readFault writeFault).2 = list ∧
        (crmRecords_put sampleVerify (some "Bearer bad") list body readFault writeFault).1.status
          = 401) :=
  ⟨Or.inl rfl, ((authMiddleware_guards sampleVerify none).1 (Or.inl rfl)).1,
   rfl, ((authMiddleware_guards sampleVerify (some "Bearer bad")).1
      (Or.inr (Or.inr (Or.inr rfl)))).2.1⟩

end Crm
